import Mathlib

/-!
# ipx: lexer, parser and AST of the filter language

A shallow embedding of `libs/go/ipx.go`.  Go strings are byte sequences, Go
`int`s that hold offsets are natural numbers, a `*Expr` is a tree that may be
`nil`, and methods with a pointer receiver return the updated receiver.
Loops and the mutually recursive grammar functions take a fuel argument; the
entry points supply an amount that is shown to be enough.
-/

namespace Ipx

/-! ## Strings and runes -/

/-- A Go `byte`. -/
abbrev Byte := Fin 256

/-- A Go `string`: an immutable sequence of bytes. -/
abbrev GoString := List Byte

/-- The bytes of an ASCII string literal of the source. -/
def ascii (s : String) : GoString := s.toList.map (fun c => Fin.ofNat c.toNat)

/-- Go's `unicode.IsSpace` on a rune of the Latin-1 range, the only runes
`rune(l.input[l.pos])` can be. -/
def unicodeIsSpace (r : Nat) : Bool :=
  r == 9 || r == 10 || r == 11 || r == 12 || r == 13 || r == 32 || r == 0x85 || r == 0xA0

/-- Go's `unicode.IsLetter` on a rune of the Latin-1 range. -/
def unicodeIsLetter (r : Nat) : Bool :=
  (0x41 ≤ r && r ≤ 0x5A) || (0x61 ≤ r && r ≤ 0x7A) || r == 0xAA || r == 0xB5 || r == 0xBA ||
  (0xC0 ≤ r && r ≤ 0xD6) || (0xD8 ≤ r && r ≤ 0xF6) || (0xF8 ≤ r && r ≤ 0xFF)

/-- Go's `unicode.IsDigit` on a rune of the Latin-1 range. -/
def unicodeIsDigit (r : Nat) : Bool := 0x30 ≤ r && r ≤ 0x39

/-- The source's `isLetter`. -/
def isLetter (ch : Nat) : Bool := unicodeIsLetter ch || ch == 95

/-! ## Formatting verbs of `fmt` used by the source -/

/-- One digit of `strconv`'s `lowerhex` table. -/
def lowerhex (d : Nat) : Byte :=
  if d % 16 < 10 then Fin.ofNat (48 + d % 16) else Fin.ofNat (87 + d % 16)

/-- The verb `%d` on a non-negative `int`. -/
def fmtD (n : Nat) : GoString := (Nat.toDigits 10 n).map (fun c => Fin.ofNat c.toNat)

/-- Go's `utf8.AppendRune` for a valid rune. -/
def utf8Encode (r : Nat) : GoString :=
  if r < 0x80 then [Fin.ofNat r]
  else if r < 0x800 then [Fin.ofNat (0xC0 + r / 64), Fin.ofNat (0x80 + r % 64)]
  else if r < 0x10000 then
    [Fin.ofNat (0xE0 + r / 4096), Fin.ofNat (0x80 + r / 64 % 64), Fin.ofNat (0x80 + r % 64)]
  else
    [Fin.ofNat (0xF0 + r / 262144), Fin.ofNat (0x80 + r / 4096 % 64),
     Fin.ofNat (0x80 + r / 64 % 64), Fin.ofNat (0x80 + r % 64)]

/-- Go's `utf8.DecodeRuneInString` on a string whose first byte is `s0 ≥ 0x80`
and whose remaining bytes are `rest`: the rune and its width, `none` standing
for `(RuneError, 1)`. -/
def utf8Decode (s0 : Nat) (rest : GoString) : Option (Nat × Nat) :=
  let cont (b : Byte) : Bool := 0x80 ≤ b.val && b.val ≤ 0xBF
  if 0xC2 ≤ s0 ∧ s0 ≤ 0xDF then
    match rest with
    | s1 :: _ => if cont s1 then some ((s0 % 32) * 64 + s1.val % 64, 2) else none
    | _ => none
  else if 0xE0 ≤ s0 ∧ s0 ≤ 0xEF then
    match rest with
    | s1 :: s2 :: _ =>
      let lo := if s0 = 0xE0 then 0xA0 else 0x80
      let hi := if s0 = 0xED then 0x9F else 0xBF
      if lo ≤ s1.val && s1.val ≤ hi && cont s2 then
        some ((s0 % 16) * 4096 + (s1.val % 64) * 64 + s2.val % 64, 3)
      else none
    | _ => none
  else if 0xF0 ≤ s0 ∧ s0 ≤ 0xF4 then
    match rest with
    | s1 :: s2 :: s3 :: _ =>
      let lo := if s0 = 0xF0 then 0x90 else 0x80
      let hi := if s0 = 0xF4 then 0x8F else 0xBF
      if lo ≤ s1.val && s1.val ≤ hi && cont s2 && cont s3 then
        some ((s0 % 8) * 262144 + (s1.val % 64) * 4096 + (s2.val % 64) * 64 + s3.val % 64, 4)
      else none
    | _ => none
  else none

section Fmt

/- `printTable` is the table behind `strconv.IsPrint` for runes above Latin-1
(Go's Unicode tables are not part of the repository). -/
variable (printTable : Nat → Bool)

/-- Go's `strconv.IsPrint`. -/
def isPrint (r : Nat) : Bool :=
  if r ≤ 0xFF then (0x20 ≤ r && r < 0x7F) || (0xA1 ≤ r && r != 0xAD) else printTable r

/-- Go's `strconv.appendEscapedRune` for a valid rune and the quote byte `q`. -/
def appendEscapedRune (r : Nat) (q : Nat) : GoString :=
  if r = q ∨ r = 92 then [92, Fin.ofNat r]
  else if isPrint printTable r then utf8Encode r
  else if r = 7 then ascii "\\a"
  else if r = 8 then ascii "\\b"
  else if r = 12 then ascii "\\f"
  else if r = 10 then ascii "\\n"
  else if r = 13 then ascii "\\r"
  else if r = 9 then ascii "\\t"
  else if r = 11 then ascii "\\v"
  else if r < 32 ∨ r = 0x7F then ascii "\\x" ++ [lowerhex (r / 16), lowerhex r]
  else if r < 0x10000 then
    ascii "\\u" ++ [lowerhex (r / 4096), lowerhex (r / 256), lowerhex (r / 16), lowerhex r]
  else
    ascii "\\U" ++ [lowerhex (r / 268435456), lowerhex (r / 16777216), lowerhex (r / 1048576),
      lowerhex (r / 65536), lowerhex (r / 4096), lowerhex (r / 256), lowerhex (r / 16),
      lowerhex r]

/-- The verb `%q` on a rune (`strconv.QuoteRune`); the runes of the lexer are
below 256 and so valid. -/
def fmtQRune (r : Nat) : GoString := [39] ++ appendEscapedRune printTable r 39 ++ [39]

/-- The body of `strconv.Quote`: the loop over the runes of the string, with
the remaining length as fuel. -/
def quoteBody : Nat → GoString → GoString
  | 0, _ => []
  | _, [] => []
  | n + 1, s0 :: rest =>
    if s0.val < 0x80 then appendEscapedRune printTable s0.val 34 ++ quoteBody n rest
    else
      match utf8Decode s0.val rest with
      | none => ascii "\\x" ++ [lowerhex (s0.val / 16), lowerhex s0.val] ++ quoteBody n rest
      | some (r, w) => appendEscapedRune printTable r 34 ++ quoteBody n (rest.drop (w - 1))

/-- The verb `%q` on a string (`strconv.Quote`). -/
def fmtQ (s : GoString) : GoString := [34] ++ quoteBody printTable s.length s ++ [34]

end Fmt

/-! ## Tokens -/

/-- The source's `TokenType`, an `int`. -/
abbrev TokenType := Int

@[simp] def TOKEN_EOF : TokenType := 0
@[simp] def TOKEN_IDENT : TokenType := 1
@[simp] def TOKEN_STRING : TokenType := 2
@[simp] def TOKEN_AND : TokenType := 3
@[simp] def TOKEN_OR : TokenType := 4
@[simp] def TOKEN_NOT : TokenType := 5
@[simp] def TOKEN_COLON : TokenType := 6
@[simp] def TOKEN_ASSIGN : TokenType := 7
@[simp] def TOKEN_LPAREN : TokenType := 8
@[simp] def TOKEN_RPAREN : TokenType := 9
@[simp] def TOKEN_LBRACKET : TokenType := 10
@[simp] def TOKEN_RBRACKET : TokenType := 11
@[simp] def TOKEN_COMMA : TokenType := 12

/-- The source's `Token`; the default value is Go's zero value `Token{}`. -/
structure Token where
  Typ : TokenType := 0
  Value : GoString := []
  Start : Nat := 0
  End : Nat := 0
deriving DecidableEq, Repr

/-! ## Lexer -/

/-- The source's `Lexer`. -/
structure Lexer where
  input : GoString
  pos : Nat
deriving DecidableEq, Repr

/-- The source's `NewLexer`. -/
def NewLexer (input : GoString) : Lexer := { input := input, pos := 0 }

/-- The source's `Lexer.next`: the rune read and the lexer after it. -/
def Lexer.next (l : Lexer) : Nat × Lexer :=
  match l.input[l.pos]? with
  | none => (0, l)
  | some b => (b.val, { l with pos := l.pos + 1 })

/-- The source's `Lexer.peek`. -/
def Lexer.peek (l : Lexer) : Nat :=
  match l.input[l.pos]? with
  | none => 0
  | some b => b.val

/-- The loop of `skipWhitespace`, at most `fuel` iterations. -/
def Lexer.skipWhitespaceLoop : Nat → Lexer → Lexer
  | 0, l => l
  | fuel + 1, l => if unicodeIsSpace l.peek then skipWhitespaceLoop fuel l.next.2 else l

/-- The source's `Lexer.skipWhitespace`; every iteration consumes a byte, so
the remaining length bounds the iterations. -/
def Lexer.skipWhitespace (l : Lexer) : Lexer :=
  l.skipWhitespaceLoop (l.input.length - l.pos)

/-- The source's slice expression `s[i:j]`. -/
def slice (s : GoString) (i j : Nat) : GoString := (s.drop i).take (j - i)

/-- The loop of `lexIdent`, at most `fuel` iterations. -/
def Lexer.lexIdentLoop : Nat → Lexer → Lexer
  | 0, l => l
  | fuel + 1, l =>
    let ch := l.peek
    if !isLetter ch && !unicodeIsDigit ch && ch != 46 && ch != 95 then l
    else lexIdentLoop fuel l.next.2

/-- The source's `Lexer.lexIdent`. -/
def Lexer.lexIdent (l : Lexer) : Token × Option GoString × Lexer :=
  let start := l.pos
  let l := l.lexIdentLoop (l.input.length - l.pos)
  ({ Typ := TOKEN_IDENT, Value := slice l.input start l.pos, Start := start, End := l.pos },
    none, l)

/-- The loop of `lexString`, at most `fuel` iterations: `none` when the loop
returns the `unterminated string` error, the lexer after the `break`
otherwise. -/
def Lexer.lexStringLoop : Nat → Lexer → Option Lexer × Lexer
  | 0, l => (none, l)
  | fuel + 1, l =>
    let (ch, l) := l.next
    if ch = 0 then (none, l)
    else if ch = 34 then (some l, l)
    else if ch = 92 then lexStringLoop fuel l.next.2
    else lexStringLoop fuel l

/-- The source's `Lexer.lexString`. -/
def Lexer.lexString (l : Lexer) : Token × Option GoString × Lexer :=
  let start := l.pos
  let l := l.next.2
  let strStart := l.pos
  match l.lexStringLoop (l.input.length - l.pos + 1) with
  | (none, l) => ({}, some (ascii "unterminated string"), l)
  | (some _, l) =>
    let strEnd := l.pos - 1
    ({ Typ := TOKEN_STRING, Value := slice l.input strStart strEnd, Start := start,
       End := l.pos }, none, l)

section Fmt

variable (printTable : Nat → Bool)

/-- The source's `Lexer.NextToken`: the token, the error (`none` for `nil`)
and the lexer afterwards. -/
def Lexer.NextToken (l : Lexer) : Token × Option GoString × Lexer :=
  let l := l.skipWhitespace
  let start := l.pos
  let ch := l.peek
  if ch = 0 then ({ Typ := TOKEN_EOF, Start := l.pos, End := l.pos }, none, l)
  else if isLetter ch then l.lexIdent
  else if ch = 34 then l.lexString
  else if ch = 38 then
    let l := l.next.2
    if l.peek = 38 then
      let l := l.next.2
      ({ Typ := TOKEN_AND, Value := ascii "&&", Start := start, End := l.pos }, none, l)
    else ({}, some (ascii "unexpected character '&' at " ++ fmtD start), l)
  else if ch = 124 then
    let l := l.next.2
    if l.peek = 124 then
      let l := l.next.2
      ({ Typ := TOKEN_OR, Value := ascii "||", Start := start, End := l.pos }, none, l)
    else ({}, some (ascii "unexpected character '|' at " ++ fmtD start), l)
  else if ch = 33 then
    let l := l.next.2
    ({ Typ := TOKEN_NOT, Value := ascii "!", Start := start, End := l.pos }, none, l)
  else if ch = 58 then
    let l := l.next.2
    if l.peek = 61 then
      let l := l.next.2
      ({ Typ := TOKEN_ASSIGN, Value := ascii ":=", Start := start, End := l.pos }, none, l)
    else ({ Typ := TOKEN_COLON, Value := ascii ":", Start := start, End := l.pos }, none, l)
  else if ch = 40 then
    let l := l.next.2
    ({ Typ := TOKEN_LPAREN, Value := ascii "(", Start := start, End := l.pos }, none, l)
  else if ch = 41 then
    let l := l.next.2
    ({ Typ := TOKEN_RPAREN, Value := ascii ")", Start := start, End := l.pos }, none, l)
  else if ch = 91 then
    let l := l.next.2
    ({ Typ := TOKEN_LBRACKET, Value := ascii "[", Start := start, End := l.pos }, none, l)
  else if ch = 93 then
    let l := l.next.2
    ({ Typ := TOKEN_RBRACKET, Value := ascii "]", Start := start, End := l.pos }, none, l)
  else if ch = 44 then
    let l := l.next.2
    ({ Typ := TOKEN_COMMA, Value := ascii ",", Start := start, End := l.pos }, none, l)
  else
    ({}, some (ascii "unexpected character " ++ fmtQRune printTable ch ++
      ascii " at position " ++ fmtD l.pos), l)

end Fmt

/-! ## AST -/

/-- The source's `ExprType`, an `int`. -/
abbrev ExprType := Int

@[simp] def EXPR_MATCH : ExprType := 0
@[simp] def EXPR_AND : ExprType := 1
@[simp] def EXPR_OR : ExprType := 2
@[simp] def EXPR_NOT : ExprType := 3

/-- Go's `json.Marshal` on a string of ASCII letters, the only strings the
source passes to it: the string between double quotes, and no error. -/
def jsonMarshalName (s : GoString) : GoString × Option GoString := ([34] ++ s ++ [34], none)

/-- The source's `ExprType.MarshalJSON`: the bytes and the error (`none` for
`nil`). -/
def ExprType.MarshalJSON (t : ExprType) : GoString × Option GoString :=
  if t = EXPR_MATCH then jsonMarshalName (ascii "MATCH")
  else if t = EXPR_AND then jsonMarshalName (ascii "AND")
  else if t = EXPR_OR then jsonMarshalName (ascii "OR")
  else if t = EXPR_NOT then jsonMarshalName (ascii "NOT")
  else jsonMarshalName (ascii "UNKNOWN")

/-- A value of the source's type `*Expr`: the `nil` pointer, or a pointer to
an `Expr` struct with its seven fields (`Typ` is the field `Type`). -/
inductive Expr where
  | nil : Expr
  | node (Typ : ExprType) (Left Right : Expr) (Key Op Value : GoString)
      (Values : List GoString) : Expr
deriving DecidableEq, Repr

/-! ## Parser -/

/-- The source's `Parser`; `err` is `none` for a `nil` error and holds the
error text otherwise. -/
structure Parser where
  input : GoString
  lexer : Lexer
  curTok : Token := {}
  prevTok : Token := {}
  err : Option GoString := none
deriving DecidableEq, Repr

/-- The source's `Parser.errorf`, applied to the formatted message. -/
def Parser.errorf (p : Parser) (msg : GoString) : Parser :=
  if p.err = none then
    { p with err := some (msg ++ [10] ++ p.input ++ [10] ++
        List.replicate p.curTok.Start (32 : Byte) ++ [94]) }
  else p

/-- The source's `Parser.noSpaceBetweenTokens`. -/
def Parser.noSpaceBetweenTokens (p : Parser) : Bool := p.prevTok.End == p.curTok.Start

section Fmt

variable (printTable : Nat → Bool)

/-- The source's `Parser.nextToken`. -/
def Parser.nextToken (p : Parser) : Parser :=
  let p := { p with prevTok := p.curTok }
  match p.lexer.NextToken printTable with
  | (tok, err, l) =>
    let p := { p with lexer := l }
    let p := match err with
      | some e => p.errorf e
      | none => p
    { p with curTok := tok }

/-- The source's `NewParser`. -/
def NewParser (input : GoString) : Parser :=
  Parser.nextToken printTable { input := input, lexer := NewLexer input }

/-- The `for` loop of the list branch of `parseAtom`, at most `fuel`
iterations: `none` when the fuel runs out, otherwise the list collected at the
`break` (`none` when the loop returns `nil`) and the parser afterwards. -/
def Parser.parseListLoop : Nat → List GoString → Parser →
    Option (Option (List GoString) × Parser)
  | 0, _, _ => none
  | fuel + 1, vals, p =>
    if p.curTok.Typ ≠ TOKEN_STRING then
      some (none, p.errorf (ascii "expected string inside list at position " ++
        fmtD p.curTok.Start))
    else
      let vals := vals ++ [p.curTok.Value]
      let p := p.nextToken printTable
      if p.curTok.Typ = TOKEN_COMMA then
        parseListLoop fuel vals (p.nextToken printTable)
      else if p.curTok.Typ = TOKEN_RBRACKET then
        some (some vals, p.nextToken printTable)
      else
        some (none, p.errorf (ascii "expected ',' or ']' at position " ++ fmtD p.curTok.Start))

mutual

/-- The source's `Parser.parseExpression`; `none` when the fuel runs out. -/
def Parser.parseExpression : Nat → Parser → Option (Expr × Parser)
  | 0, _ => none
  | fuel + 1, p => Parser.parseOr fuel p

/-- The source's `Parser.parseOr`. -/
def Parser.parseOr : Nat → Parser → Option (Expr × Parser)
  | 0, _ => none
  | fuel + 1, p =>
    match Parser.parseAnd fuel p with
    | none => none
    | some (left, p) => Parser.parseOrLoop fuel left p

/-- The `for` loop of `parseOr`. -/
def Parser.parseOrLoop : Nat → Expr → Parser → Option (Expr × Parser)
  | 0, _, _ => none
  | fuel + 1, left, p =>
    if p.curTok.Typ = TOKEN_OR ∧ p.err = none then
      match Parser.parseAnd fuel (p.nextToken printTable) with
      | none => none
      | some (right, p) => Parser.parseOrLoop fuel (.node EXPR_OR left right [] [] [] []) p
    else some (left, p)

/-- The source's `Parser.parseAnd`. -/
def Parser.parseAnd : Nat → Parser → Option (Expr × Parser)
  | 0, _ => none
  | fuel + 1, p =>
    match Parser.parseNot fuel p with
    | none => none
    | some (left, p) => Parser.parseAndLoop fuel left p

/-- The `for` loop of `parseAnd`. -/
def Parser.parseAndLoop : Nat → Expr → Parser → Option (Expr × Parser)
  | 0, _, _ => none
  | fuel + 1, left, p =>
    if p.curTok.Typ = TOKEN_AND ∧ p.err = none then
      match Parser.parseNot fuel (p.nextToken printTable) with
      | none => none
      | some (right, p) => Parser.parseAndLoop fuel (.node EXPR_AND left right [] [] [] []) p
    else some (left, p)

/-- The source's `Parser.parseNot`. -/
def Parser.parseNot : Nat → Parser → Option (Expr × Parser)
  | 0, _ => none
  | fuel + 1, p =>
    if p.curTok.Typ = TOKEN_NOT then
      match Parser.parseAtom fuel (p.nextToken printTable) with
      | none => none
      | some (expr, p) => some (.node EXPR_NOT .nil expr [] [] [] [], p)
    else Parser.parseAtom fuel p

/-- The source's `Parser.parseAtom`. -/
def Parser.parseAtom : Nat → Parser → Option (Expr × Parser)
  | 0, _ => none
  | fuel + 1, p =>
    if p.curTok.Typ = TOKEN_LPAREN then
      match Parser.parseExpression fuel (p.nextToken printTable) with
      | none => none
      | some (expr, p) =>
        if p.curTok.Typ ≠ TOKEN_RPAREN then
          some (.nil, p.errorf (ascii "expected ')' at position " ++ fmtD p.curTok.Start))
        else some (expr, p.nextToken printTable)
    else if p.curTok.Typ = TOKEN_IDENT then
      let key := p.curTok.Value
      let p := p.nextToken printTable
      if p.curTok.Typ ≠ TOKEN_COLON ∧ p.curTok.Typ ≠ TOKEN_ASSIGN then
        some (.nil, p.errorf (ascii "expected ':' or ':=' after key " ++ fmtQ printTable key ++
          ascii " at position " ++ fmtD p.curTok.Start))
      else
        let op := p.curTok.Value
        let p := p.nextToken printTable
        if !p.noSpaceBetweenTokens then
          some (.nil, p.errorf (ascii "unexpected space between " ++ fmtQ printTable op ++
            ascii " and value"))
        else if p.curTok.Typ = TOKEN_STRING then
          let val := p.curTok.Value
          some (.node EXPR_MATCH .nil .nil key op val [], p.nextToken printTable)
        else if p.curTok.Typ = TOKEN_LBRACKET then
          match Parser.parseListLoop printTable fuel [] (p.nextToken printTable) with
          | none => none
          | some (none, p) => some (.nil, p)
          | some (some vals, p) => some (.node EXPR_MATCH .nil .nil key op [] vals, p)
        else
          some (.nil, p.errorf (ascii "expected string or '[' after operator " ++
            fmtQ printTable op))
    else
      some (.nil, p.errorf (ascii "unexpected token " ++ fmtQ printTable p.curTok.Value ++
        ascii " at position " ++ fmtD p.curTok.Start))

end

/-- The source's `Parser.Parse` with the given fuel: the returned `*Expr` and
error. -/
def Parser.Parse (fuel : Nat) (p : Parser) : Option (Expr × Option GoString) :=
  match Parser.parseExpression printTable fuel p with
  | none => none
  | some (expr, p) =>
    if p.err ≠ none then some (.nil, p.err)
    else if p.curTok.Typ ≠ TOKEN_EOF then
      let p := p.errorf (ascii "unexpected trailing token " ++ fmtQ printTable p.curTok.Value ++
        ascii " at position " ++ fmtD p.curTok.Start)
      some (.nil, p.err)
    else some (expr, none)

/-- Fuel that suffices for parsing `input`: the grammar functions nest at most
five deep between two calls of `nextToken`. -/
def parseFuel (input : GoString) : Nat := 5 * input.length + 10

/-- The source's API function `Parse`. -/
def Parse (input : GoString) : Option (Expr × Option GoString) :=
  Parser.Parse printTable (parseFuel input) (NewParser printTable input)

/-- The source's `IsValid`. -/
def IsValid (input : GoString) : Option (Bool × Option GoString) :=
  match Parse printTable input with
  | none => none
  | some (_, some err) => some (false, some err)
  | some (_, none) => some (true, none)

end Fmt

/-! ## Specification vocabulary -/

/-- The rune `peek` sees in front of the remaining input `s`. -/
def headRune (s : GoString) : Nat :=
  match s with
  | [] => 0
  | b :: _ => b.val

/-- The bytes `skipWhitespace` skips. -/
def isSpaceByte (b : Byte) : Bool := unicodeIsSpace b.val

/-- The bytes the loop of `lexIdent` consumes. -/
def isIdentByte (b : Byte) : Bool :=
  isLetter b.val || unicodeIsDigit b.val || b.val == 46 || b.val == 95

/-- The byte strings that `lexIdent` reads as one whole IDENT token: a first
byte that `isLetter` accepts when read as a rune of its own, then bytes that
the loop of `lexIdent` accepts in the same way. This is the lexer's test on
bytes, not the identifier grammar of the specification on characters (that
one is `specIdentifier`). -/
def isLexIdent : GoString → Bool
  | [] => false
  | c :: cs => isLetter c.val && cs.all isIdentByte

/-- What the lexer guarantees about the text of a token of a given type. -/
def TokOk (t : Token) : Prop :=
  (t.Typ = TOKEN_IDENT → isLexIdent t.Value = true) ∧
  (t.Typ = TOKEN_COLON → t.Value = ascii ":") ∧
  (t.Typ = TOKEN_ASSIGN → t.Value = ascii ":=")

/-- What a call of `NextToken` at position `pos` of `inp` guarantees about
its result `r`: the input is kept, the position does not move back, a token
other than the zero value consumes input and stays within it, an error comes
with the zero `Token`, and the token text is as the lexer rules say. -/
def LexPost (inp : GoString) (pos : Nat) (r : Token × Option GoString × Lexer) : Prop :=
  r.2.2.input = inp ∧ pos ≤ r.2.2.pos ∧
  (r.1.Typ ≠ 0 → pos < r.2.2.pos ∧ r.2.2.pos ≤ inp.length) ∧
  (r.2.1 ≠ none → r.1 = {}) ∧ TokOk r.1

/-- The field `Type` of the struct a non-nil `*Expr` points to. -/
def Expr.Typ : Expr → ExprType
  | .nil => 0
  | .node t _ _ _ _ _ _ => t

/-- The field `Left`. -/
def Expr.Left : Expr → Expr
  | .nil => .nil
  | .node _ l _ _ _ _ _ => l

/-- The field `Right`. -/
def Expr.Right : Expr → Expr
  | .nil => .nil
  | .node _ _ r _ _ _ _ => r

/-- The field `Key`. -/
def Expr.Key : Expr → GoString
  | .nil => []
  | .node _ _ _ k _ _ _ => k

/-- The field `Op`. -/
def Expr.Op : Expr → GoString
  | .nil => []
  | .node _ _ _ _ o _ _ => o

/-- The field `Value`. -/
def Expr.Value : Expr → GoString
  | .nil => []
  | .node _ _ _ _ _ v _ => v

/-- The field `Values`. -/
def Expr.Values : Expr → List GoString
  | .nil => []
  | .node _ _ _ _ _ _ vs => vs

/-- All nodes of the tree under a `*Expr`, the root first. -/
def Expr.nodes : Expr → List Expr
  | .nil => []
  | .node t l r k o v vs => .node t l r k o v vs :: (l.nodes ++ r.nodes)

/-- The shape of a node: both children for AND and OR, only `Right` for NOT,
no child for MATCH. -/
def ShapeOk (n : Expr) : Prop :=
  (n.Typ = EXPR_AND ∨ n.Typ = EXPR_OR → n.Left ≠ .nil ∧ n.Right ≠ .nil) ∧
  (n.Typ = EXPR_NOT → n.Right ≠ .nil ∧ n.Left = .nil) ∧
  (n.Typ = EXPR_MATCH → n.Left = .nil ∧ n.Right = .nil)

/-- Exactly one payload of a MATCH node is populated: a non-empty `Value` or a
non-empty `Values`. -/
def PayloadExactlyOne (n : Expr) : Prop :=
  n.Typ = EXPR_MATCH →
    (n.Value ≠ [] ∧ n.Values = []) ∨ (n.Value = [] ∧ n.Values ≠ [])

/-- At most one payload of a MATCH node is populated. -/
def PayloadAtMostOne (n : Expr) : Prop :=
  n.Typ = EXPR_MATCH → n.Value = [] ∨ n.Values = []

/-- The key of a MATCH node is a byte string that `lexIdent` reads as one
IDENT token, and its operator is `:` or `:=`. -/
def KeyOpOk (n : Expr) : Prop :=
  n.Typ = EXPR_MATCH →
    isLexIdent n.Key = true ∧ (n.Op = ascii ":" ∨ n.Op = ascii ":=")

/-- The tree is present and every node of it is in order. -/
def GoodTree (e : Expr) : Prop :=
  e ≠ .nil ∧ ∀ n ∈ e.nodes, ShapeOk n ∧ PayloadAtMostOne n ∧ KeyOpOk n

/-- The number of bytes and tokens still in front of the parser: what is left
of the input, plus one while the current token is not of type EOF. -/
def Parser.measure (p : Parser) : Nat :=
  (p.lexer.input.length - p.lexer.pos) + (if p.curTok.Typ = 0 then 0 else 1)

/-- A table for `strconv.IsPrint` that lists no rune above Latin-1 as
printable; the closed examples use it, and none of them quotes such a rune. -/
def noWidePrint : Nat → Bool := fun _ => false

/-- The source's `&Expr{Type: EXPR_MATCH, Key: key, Op: op, Value: val}`. -/
def mkMatch (key op val : GoString) : Expr := .node EXPR_MATCH .nil .nil key op val []

/-- The source's `&Expr{Type: EXPR_MATCH, Key: key, Op: op, Values: vals}`. -/
def mkMatchList (key op : GoString) (vals : List GoString) : Expr :=
  .node EXPR_MATCH .nil .nil key op [] vals

/-- The source's `&Expr{Type: EXPR_AND, Left: left, Right: right}`. -/
def mkAnd (left right : Expr) : Expr := .node EXPR_AND left right [] [] [] []

/-- The source's `&Expr{Type: EXPR_OR, Left: left, Right: right}`. -/
def mkOr (left right : Expr) : Expr := .node EXPR_OR left right [] [] [] []

/-- The source's `&Expr{Type: EXPR_NOT, Right: expr}`. -/
def mkNot (expr : Expr) : Expr := .node EXPR_NOT .nil expr [] [] [] []

/-- The tree of `!(a:"1" && b:=["x","y"]) || c:"3"`. -/
def shapeExample : Expr :=
  mkOr (mkNot (mkAnd (mkMatch (ascii "a") (ascii ":") (ascii "1"))
    (mkMatchList (ascii "b") (ascii ":=") [ascii "x", ascii "y"])))
    (mkMatch (ascii "c") (ascii ":") (ascii "3"))

/-- The byte strings that `skipWhitespace` skips as a whole: every byte is one
that `unicode.IsSpace` accepts when read as a rune of its own. This is the
lexer's test on bytes, not the Unicode whitespace of the specification (that
one is `specWhitespace`). -/
def isLexSpace (w : GoString) : Bool := w.all isSpaceByte

/-- A lexable string body: what may stand between the quotes of a string
literal so that `lexString` ends at the closing quote: bytes other than NUL,
`"` and `\`, and pairs of a `\` and any byte. -/
def isStringBody : GoString → Bool
  | [] => true
  | [c] => c.val != 0 && c.val != 34 && c.val != 92
  | c :: d :: rest =>
    if c.val = 92 then isStringBody rest
    else c.val != 0 && c.val != 34 && isStringBody (d :: rest)

/-- An operator text: `:` or `:=`. -/
def isOperator (op : GoString) : Bool := op == ascii ":" || op == ascii ":="

/-- The token type of an operator text. -/
def opType (op : GoString) : TokenType := if op = ascii ":" then TOKEN_COLON else TOKEN_ASSIGN

/-- A string literal with body `v`. -/
def quoted (v : GoString) : GoString := [34] ++ v ++ [34]

/-- The text of a match atom: key, whitespace (possibly none), operator and,
directly after it, the quoted value. -/
def matchAtom (k w op v : GoString) : GoString := k ++ w ++ op ++ quoted v

/-- The call of `NextToken` at `pos` returns the token `t` without error and stops right
after it. -/
def Lex (printTable : Nat → Bool) (input : GoString) (pos : Nat) (t : Token) : Prop :=
  Lexer.NextToken printTable ⟨input, pos⟩ = (t, none, ⟨input, t.End⟩)

/-- The parser state on `input` without a latched error whose previous and
current tokens are `prev` and `cur`, the lexer standing right after `cur`. -/
def stateAt (input : GoString) (prev cur : Token) : Parser :=
  { input := input, lexer := ⟨input, cur.End⟩, curTok := cur, prevTok := prev, err := none }

/-- The token of an operator text at offset `s`. -/
def opTok (op : GoString) (s : Nat) : Token :=
  { Typ := opType op, Value := op, Start := s, End := s + op.length }

/-- The IDENT token of a key at offset `s`. -/
def identTok (k : GoString) (s : Nat) : Token :=
  { Typ := TOKEN_IDENT, Value := k, Start := s, End := s + k.length }

/-- The STRING token of a quoted body at offset `s`. -/
def stringTok (v : GoString) (s : Nat) : Token :=
  { Typ := TOKEN_STRING, Value := v, Start := s, End := s + (v.length + 2) }

/-- The EOF token at offset `s`. -/
def eofTok (s : Nat) : Token := { Typ := TOKEN_EOF, Start := s, End := s }

/-- The token of the fixed text `text` and type `typ` at offset `s`. -/
def punctTok (typ : TokenType) (text : GoString) (s : Nat) : Token :=
  { Typ := typ, Value := text, Start := s, End := s + text.length }

/-- The grammar function `f` returns `e` from state `p` and leaves the parser
in state `q`, given enough fuel. -/
def Runs (f : Nat → Parser → Option (Expr × Parser)) (p : Parser) (e : Expr) (q : Parser) :
    Prop :=
  ∃ n, f n p = some (e, q)

/-- The STRING token that ends a match atom starting at offset `s`. -/
def atomStringTok (k w op v : GoString) (s : Nat) : Token :=
  { Typ := TOKEN_STRING, Value := v, Start := s + k.length + w.length + op.length,
    End := s + (matchAtom k w op v).length }

/-- The text `a` is a match atom and `A` is its MATCH node: a key that
`lexIdent` reads as one IDENT token, bytes that `skipWhitespace` skips
(possibly none), an operator and, directly after it, a quoted lexable
value. -/
def IsMatchAtom (a : GoString) (A : Expr) : Prop :=
  ∃ k w op v, isLexIdent k = true ∧ isLexSpace w = true ∧ isOperator op = true ∧
    isStringBody v = true ∧ a = matchAtom k w op v ∧ A = mkMatch k op v

/-- The items of a list value: the quoted bodies, separated by commas. -/
def listItems : List GoString → GoString
  | [] => []
  | [v] => quoted v
  | v :: v2 :: vs => quoted v ++ (ascii "," ++ listItems (v2 :: vs))

/-- The text of a list atom: key, operator and the bracketed items. -/
def listAtom (k op : GoString) (vs : List GoString) : GoString :=
  k ++ op ++ ascii "[" ++ listItems vs ++ ascii "]"

/-- Where a token returned without error lies: it starts after the whitespace
skipped from `pos`, the lexer stands at its end, and a token of type EOF
stands where `peek` reads 0 (the end of the input or a NUL byte). -/
def LexPos (inp : GoString) (pos : Nat) (r : Token × Option GoString × Lexer) : Prop :=
  r.2.1 = none →
    r.1.End = r.2.2.pos ∧
    r.1.Start = pos + ((inp.drop pos).takeWhile isSpaceByte).length ∧
    (r.1.Typ = 0 → headRune (inp.drop r.1.Start) = 0)

/-- The parser state is in step with its lexer: unless an error is latched,
the lexer reads the parser's input and stands at the end of the current
token, the current token starts after the whitespace that follows the
previous one, and a current token of type EOF stands where `peek` reads 0. -/
def Parser.InStep (p : Parser) : Prop :=
  p.err = none →
    p.lexer.input = p.input ∧ p.lexer.pos = p.curTok.End ∧
    p.curTok.Start =
      p.prevTok.End + ((p.input.drop p.prevTok.End).takeWhile isSpaceByte).length ∧
    (p.curTok.Typ = 0 → headRune (p.input.drop p.curTok.Start) = 0)

/-- The input from `pos` on, after the whitespace in front of it. -/
def afterSpace (inp : GoString) (pos : Nat) : Nat :=
  pos + ((inp.drop pos).takeWhile isSpaceByte).length

/-- The runes that can start a token: a letter or `_`, the double quote and
the punctuation of the language. -/
def inAlphabet (c : Nat) : Bool :=
  isLetter c || c == 34 || c == 38 || c == 124 || c == 33 || c == 58 || c == 40 || c == 41 ||
    c == 91 || c == 93 || c == 44

/-- The text of the error `NextToken` returns when it fails at the rune `c`
at offset `q`. -/
def lexMessage (printTable : Nat → Bool) (c q : Nat) : GoString :=
  if c = 34 then ascii "unterminated string"
  else if c = 38 then ascii "unexpected character '&' at " ++ fmtD q
  else if c = 124 then ascii "unexpected character '|' at " ++ fmtD q
  else ascii "unexpected character " ++ fmtQRune printTable c ++ ascii " at position " ++ fmtD q

/-- What a STRING token `t` that starts at `q` holds: the bytes at `q` and at
`t.End - 1` are double quotes and the text is the input between them. -/
def StringTokOk (inp : GoString) (q : Nat) (t : Token) : Prop :=
  t.Typ = TOKEN_STRING →
    headRune (inp.drop q) = 34 ∧ headRune (inp.drop (t.End - 1)) = 34 ∧ q + 1 < t.End ∧
      t.Value = slice inp (q + 1) (t.End - 1)

/-- The three outcomes of `NextToken` when the first byte after the
whitespace is at offset `q` and `peek` reads the rune `c` there: the EOF token
at `q` when `c` is 0; an error with the zero token; or a token that starts at
`q`, ends within the input, and leaves the lexer at its end. -/
def LexCase (printTable : Nat → Bool) (inp : GoString) (q c : Nat)
    (r : Token × Option GoString × Lexer) : Prop :=
  (c = 0 ∧ r = ({ Typ := TOKEN_EOF, Start := q, End := q }, none, ⟨inp, q⟩)) ∨
  (c ≠ 0 ∧ (c = 34 ∨ c = 38 ∨ c = 124 ∨ inAlphabet c = false) ∧
    ∃ e, q ≤ e ∧ e ≤ inp.length ∧ r = ({}, some (lexMessage printTable c q), ⟨inp, e⟩)) ∨
  (c ≠ 0 ∧ inAlphabet c = true ∧
    ∃ t, r = (t, none, ⟨inp, t.End⟩) ∧ t.Typ ≠ 0 ∧ t.Start = q ∧ q < t.End ∧
      t.End ≤ inp.length ∧ StringTokOk inp q t)

/-- The lexer after `n` more calls of `NextToken`. -/
def Lexer.afterCalls (printTable : Nat → Bool) : Nat → Lexer → Lexer
  | 0, l => l
  | n + 1, l => Lexer.afterCalls printTable n (l.NextToken printTable).2.2

/-- No byte of the text is a decimal digit. -/
def noDigit (s : GoString) : Bool := s.all (fun b => !unicodeIsDigit b.val)

/-- The characters of a text, following the specification's words: its UTF-8
decoding into runes, with the length of the text as fuel; `none` when the
text is not valid UTF-8. -/
def specRunes : Nat → GoString → Option (List Nat)
  | _, [] => some []
  | 0, _ :: _ => none
  | n + 1, s0 :: rest =>
    if s0.val < 0x80 then (specRunes n rest).map (fun rs => s0.val :: rs)
    else
      match utf8Decode s0.val rest with
      | none => none
      | some (r, w) => (specRunes n (rest.drop (w - 1))).map (fun rs => r :: rs)

/-- The specification's "Unicode space": the characters with the Unicode
property White_Space. -/
def specIsSpace (r : Nat) : Bool :=
  unicodeIsSpace r || r == 0x1680 || (0x2000 ≤ r && r ≤ 0x200A) || r == 0x2028 ||
    r == 0x2029 || r == 0x202F || r == 0x205F || r == 0x3000

/-- The specification's "Unicode letter"; `letterTable` is the Unicode table
of letters above Latin-1. -/
def specIsLetter (letterTable : Nat → Bool) (r : Nat) : Bool :=
  if r ≤ 0xFF then unicodeIsLetter r else letterTable r

/-- The specification's "Unicode digit"; `digitTable` is the Unicode table of
decimal digits above Latin-1. -/
def specIsDigit (digitTable : Nat → Bool) (r : Nat) : Bool :=
  if r ≤ 0xFF then unicodeIsDigit r else digitTable r

/-- The identifier grammar of the specification, on characters: the text is
valid UTF-8, its first character is a Unicode letter or `_`, and every further
character is a Unicode letter, a Unicode digit, `.` or `_`. -/
def specIdentifier (letterTable digitTable : Nat → Bool) (k : GoString) : Bool :=
  match specRunes k.length k with
  | some (c :: cs) =>
    (specIsLetter letterTable c || c == 95) &&
      cs.all (fun r => specIsLetter letterTable r || specIsDigit digitTable r || r == 46 ||
        r == 95)
  | _ => false

/-- A whitespace string of the specification: valid UTF-8 whose characters are
all Unicode spaces. -/
def specWhitespace (w : GoString) : Bool :=
  match specRunes w.length w with
  | some rs => rs.all specIsSpace
  | none => false

/-- A table that lists no rune above Latin-1; the closed examples use it for
letters and digits, and none of them holds such a rune. -/
def noWideClass : Nat → Bool := fun _ => false

section Fmt

variable (printTable : Nat → Bool)

/-- One state change of the parser: a call of `nextToken` while the current
token is not of type EOF, or a call of `errorf`. -/
inductive Step : Parser → Parser → Prop
  | next (p : Parser) : p.curTok.Typ ≠ 0 → Step p (p.nextToken printTable)
  | err (p : Parser) (msg : GoString) : Step p (p.errorf msg)

/-- The parser states reachable by such state changes. -/
def Reach : Parser → Parser → Prop := Relation.ReflTransGen (Step printTable)

/-- The postcondition of a grammar function that starts in state `p` and
returns `e` in state `q`. -/
def ParsePost (p : Parser) (e : Expr) (q : Parser) : Prop :=
  Reach printTable p q ∧ (q.err = none → TokOk p.curTok → GoodTree e)

/-- The postcondition of the loop of `parseOr` or `parseAnd` entered with
`left`. -/
def LoopPost (p : Parser) (left e : Expr) (q : Parser) : Prop :=
  Reach printTable p q ∧ (q.err = none → TokOk p.curTok → GoodTree left → GoodTree e)

end Fmt

/-! ## Theorems -/

/-! ### Lexer: reading bytes -/

theorem drop_cons_facts {input : GoString} {pos : Nat} {b : Byte} {rest : GoString}
    (h : input.drop pos = b :: rest) :
    input[pos]? = some b ∧ input.drop (pos + 1) = rest ∧ pos < input.length := by
  have hlt : pos < input.length := by
    by_contra hge
    rw [List.drop_eq_nil_of_le (by omega)] at h
    cases h
  refine ⟨?_, ?_, hlt⟩
  · rw [← List.head?_drop, h]; rfl
  · rw [← List.drop_drop, h]; rfl

theorem drop_nil_facts {input : GoString} {pos : Nat} (h : input.drop pos = []) :
    input[pos]? = none ∧ input.length ≤ pos := by
  have : input.length ≤ pos := List.drop_eq_nil_iff.mp h
  exact ⟨List.getElem?_eq_none this, this⟩

theorem Lexer.peek_eq (l : Lexer) : l.peek = headRune (l.input.drop l.pos) := by
  unfold Lexer.peek headRune
  cases h : l.input.drop l.pos with
  | nil => simp [(drop_nil_facts h).1]
  | cons b rest => simp [(drop_cons_facts h).1]

theorem Lexer.next_nil {l : Lexer} (h : l.input.drop l.pos = []) : l.next = (0, l) := by
  unfold Lexer.next; simp [(drop_nil_facts h).1]

theorem Lexer.next_cons {l : Lexer} {b : Byte} {rest : GoString}
    (h : l.input.drop l.pos = b :: rest) :
    l.next = (b.val, { input := l.input, pos := l.pos + 1 }) := by
  unfold Lexer.next; simp [(drop_cons_facts h).1]

theorem Lexer.skipWhitespaceLoop_eq (fuel : Nat) (l : Lexer)
    (h : l.input.length - l.pos ≤ fuel) :
    l.skipWhitespaceLoop fuel =
      { input := l.input,
        pos := l.pos + ((l.input.drop l.pos).takeWhile isSpaceByte).length } := by
  induction fuel generalizing l with
  | zero =>
    have : l.input.drop l.pos = [] := List.drop_eq_nil_of_le (by omega)
    simp [Lexer.skipWhitespaceLoop, this]
  | succ n ih =>
    unfold Lexer.skipWhitespaceLoop
    rw [Lexer.peek_eq]
    cases hd : l.input.drop l.pos with
    | nil => simp [headRune, unicodeIsSpace]
    | cons b rest =>
      have hf := drop_cons_facts hd
      by_cases hs : unicodeIsSpace b.val = true
      · rw [Lexer.next_cons hd]
        simp only [headRune, hs, if_true]
        rw [ih _ (by simp; omega)]
        simp [hf.2.1, List.takeWhile, isSpaceByte, hs]; omega
      · simp [headRune, hs, List.takeWhile, isSpaceByte]

theorem Lexer.skipWhitespace_eq (l : Lexer) :
    l.skipWhitespace =
      { input := l.input,
        pos := l.pos + ((l.input.drop l.pos).takeWhile isSpaceByte).length } :=
  Lexer.skipWhitespaceLoop_eq _ l (Nat.le_refl _)

theorem identCond_eq (r : Nat) :
    (!isLetter r && !unicodeIsDigit r && r != 46 && r != 95) =
      !(isLetter r || unicodeIsDigit r || r == 46 || r == 95) := by
  simp only [bne]
  generalize isLetter r = a
  generalize unicodeIsDigit r = b
  generalize (r == 46) = c
  generalize (r == 95) = d
  cases a <;> cases b <;> cases c <;> cases d <;> rfl

theorem Lexer.lexIdentLoop_eq (fuel : Nat) (l : Lexer)
    (h : l.input.length - l.pos ≤ fuel) :
    l.lexIdentLoop fuel =
      { input := l.input,
        pos := l.pos + ((l.input.drop l.pos).takeWhile isIdentByte).length } := by
  induction fuel generalizing l with
  | zero =>
    have : l.input.drop l.pos = [] := List.drop_eq_nil_of_le (by omega)
    simp [Lexer.lexIdentLoop, this]
  | succ n ih =>
    unfold Lexer.lexIdentLoop
    simp only [identCond_eq]
    rw [Lexer.peek_eq]
    cases hd : l.input.drop l.pos with
    | nil => simp [headRune, isLetter, unicodeIsLetter, unicodeIsDigit]
    | cons b rest =>
      have hf := drop_cons_facts hd
      have hb : (isLetter b.val || unicodeIsDigit b.val || b.val == 46 || b.val == 95)
          = isIdentByte b := rfl
      simp only [headRune, hb]
      by_cases hs : isIdentByte b = true
      · rw [Lexer.next_cons hd]
        simp only [hs, Bool.not_true, Bool.false_eq_true, if_false]
        rw [ih _ (by simp; omega)]
        simp [hf.2.1, List.takeWhile, hs]; omega
      · simp [hs, List.takeWhile]

theorem Lexer.lexStringLoop_fuel (f1 f2 : Nat) (l : Lexer)
    (h1 : l.input.length - l.pos + 1 ≤ f1) (h2 : l.input.length - l.pos + 1 ≤ f2) :
    l.lexStringLoop f1 = l.lexStringLoop f2 := by
  induction f1 generalizing f2 l with
  | zero => omega
  | succ n ih =>
    cases f2 with
    | zero => omega
    | succ m =>
      unfold Lexer.lexStringLoop
      cases hd : l.input.drop l.pos with
      | nil => simp [Lexer.next_nil hd]
      | cons b rest =>
        have hf := drop_cons_facts hd
        rw [Lexer.next_cons hd]
        simp only
        split_ifs
        · rfl
        · rfl
        · apply ih
          · cases hd2 : rest with
            | nil =>
              have : List.drop (l.pos + 1) l.input = [] := by rw [hf.2.1, hd2]
              rw [Lexer.next_nil (l := ⟨l.input, l.pos + 1⟩) this]
              simp; omega
            | cons c rest2 =>
              have : List.drop (l.pos + 1) l.input = c :: rest2 := by rw [hf.2.1, hd2]
              rw [Lexer.next_cons (l := ⟨l.input, l.pos + 1⟩) this]
              simp; omega
          · cases hd2 : rest with
            | nil =>
              have : List.drop (l.pos + 1) l.input = [] := by rw [hf.2.1, hd2]
              rw [Lexer.next_nil (l := ⟨l.input, l.pos + 1⟩) this]
              simp; omega
            | cons c rest2 =>
              have : List.drop (l.pos + 1) l.input = c :: rest2 := by rw [hf.2.1, hd2]
              rw [Lexer.next_cons (l := ⟨l.input, l.pos + 1⟩) this]
              simp; omega
        · apply ih <;> (simp; omega)

theorem Lexer.next_facts (l : Lexer) :
    l.next.2.input = l.input ∧ l.pos ≤ l.next.2.pos ∧
      (l.pos ≤ l.input.length → l.next.2.pos ≤ l.input.length) := by
  cases hd : l.input.drop l.pos with
  | nil => simp [Lexer.next_nil hd]
  | cons b rest =>
    have hf := drop_cons_facts hd
    rw [Lexer.next_cons hd]; simp; omega

theorem Lexer.next_of_peek {l : Lexer} (h : l.peek ≠ 0) :
    l.next = (l.peek, { input := l.input, pos := l.pos + 1 }) ∧ l.pos < l.input.length := by
  rw [Lexer.peek_eq] at h ⊢
  cases hd : l.input.drop l.pos with
  | nil => simp [hd, headRune] at h
  | cons b rest =>
    have hf := drop_cons_facts hd
    rw [Lexer.next_cons hd]; simp [headRune, hf.2.2]

theorem Lexer.lexStringLoop_facts (fuel : Nat) (l : Lexer) :
    (l.lexStringLoop fuel).2.input = l.input ∧ l.pos ≤ (l.lexStringLoop fuel).2.pos ∧
      (l.pos ≤ l.input.length → (l.lexStringLoop fuel).2.pos ≤ l.input.length) ∧
      ((l.lexStringLoop fuel).1 = none ∨
        (l.lexStringLoop fuel).1 = some (l.lexStringLoop fuel).2) := by
  induction fuel generalizing l with
  | zero => simp [Lexer.lexStringLoop]
  | succ n ih =>
    unfold Lexer.lexStringLoop
    have h1 := l.next_facts
    have h2 := l.next.2.next_facts
    have i1 := ih l.next.2
    have i2 := ih l.next.2.next.2
    simp only
    split_ifs
    · simpa using h1
    · simpa using h1
    · refine ⟨?_, ?_, ?_, i2.2.2.2⟩
      · rw [i2.1, h2.1, h1.1]
      · omega
      · intro h
        have e1 := h1.1
        have e2 := h2.1
        have a1 := h1.2.2 h
        have a2 := h2.2.2
        have a3 := i2.2.2.1
        rw [e2, e1] at a3
        rw [e1] at a2
        exact a3 (a2 a1)
    · refine ⟨?_, ?_, ?_, i1.2.2.2⟩
      · rw [i1.1, h1.1]
      · omega
      · intro h
        have e1 := h1.1
        have a1 := h1.2.2 h
        have a3 := i1.2.2.1
        rw [e1] at a3
        exact a3 a1

theorem takeWhile_eq_take {α : Type} (p : α → Bool) (xs : List α) :
    xs.take (xs.takeWhile p).length = xs.takeWhile p := by
  induction xs with
  | nil => rfl
  | cons x xs ih =>
    by_cases h : p x = true
    · simp [List.takeWhile, h, ih]
    · simp [List.takeWhile, h]

theorem takeWhile_length_le {α : Type} (p : α → Bool) (xs : List α) :
    (xs.takeWhile p).length ≤ xs.length := by
  induction xs with
  | nil => simp
  | cons x xs ih =>
    by_cases h : p x = true
    · simp [List.takeWhile, h, ih]
    · simp [List.takeWhile, h]

theorem all_takeWhile {α : Type} (p : α → Bool) (xs : List α) :
    (xs.takeWhile p).all p = true := by
  induction xs with
  | nil => rfl
  | cons x xs ih =>
    by_cases h : p x = true
    · simp only [List.takeWhile, h, List.all_cons, ih, Bool.and_self]
    · simp [List.takeWhile, h]

theorem isLetter_imp_isIdentByte {b : Byte} (h : isLetter b.val = true) :
    isIdentByte b = true := by
  simp [isIdentByte, h]

/-- The token, the position and the text `lexIdent` produces, in terms of the
remaining input. -/
theorem Lexer.lexIdent_eq (l : Lexer) :
    l.lexIdent =
      ({ Typ := TOKEN_IDENT, Value := (l.input.drop l.pos).takeWhile isIdentByte,
         Start := l.pos,
         End := l.pos + ((l.input.drop l.pos).takeWhile isIdentByte).length }, none,
       { input := l.input,
         pos := l.pos + ((l.input.drop l.pos).takeWhile isIdentByte).length }) := by
  unfold Lexer.lexIdent
  simp only [Lexer.lexIdentLoop_eq _ l (Nat.le_refl _), slice]
  simp [takeWhile_eq_take]

/-! ### Lexer: what every call of `NextToken` guarantees -/

theorem TokOk_default : TokOk {} := by
  refine ⟨?_, ?_, ?_⟩ <;> intro h <;> simp at h

theorem TokOk_of_typ {t : Token} (h1 : t.Typ ≠ TOKEN_IDENT) (h2 : t.Typ ≠ TOKEN_COLON)
    (h3 : t.Typ ≠ TOKEN_ASSIGN) : TokOk t :=
  ⟨fun h => absurd h h1, fun h => absurd h h2, fun h => absurd h h3⟩

theorem LexPost_err (inp : GoString) (pos q : Nat) (e : GoString) (h : pos ≤ q) :
    LexPost inp pos ({}, some e, ⟨inp, q⟩) :=
  ⟨rfl, h, fun h => absurd rfl h, fun _ => rfl, TokOk_default⟩

theorem LexPost_tok (inp : GoString) (pos q : Nat) (t : Token) (h : pos < q)
    (h2 : q ≤ inp.length) (ht : TokOk t) : LexPost inp pos (t, none, ⟨inp, q⟩) :=
  ⟨rfl, Nat.le_of_lt h, fun _ => ⟨h, h2⟩, fun h => absurd rfl h, ht⟩

theorem isLexIdent_takeWhile {s : GoString} (h : isLetter (headRune s) = true) :
    isLexIdent (s.takeWhile isIdentByte) = true ∧ 0 < (s.takeWhile isIdentByte).length := by
  cases s with
  | nil => simp [headRune, isLetter, unicodeIsLetter] at h
  | cons b rest =>
    simp only [headRune] at h
    have hb := isLetter_imp_isIdentByte h
    simp only [List.takeWhile, hb, isLexIdent, h, Bool.true_and, all_takeWhile,
      List.length_cons]
    simp

section Fmt

variable (printTable : Nat → Bool)

theorem Lexer.NextToken_facts (l : Lexer) :
    LexPost l.input l.pos (l.NextToken printTable) := by
  have hws := l.skipWhitespace_eq
  obtain ⟨inp, pos⟩ := l
  simp only at hws
  unfold Lexer.NextToken
  rw [hws]
  have hq : pos ≤ pos + (List.takeWhile isSpaceByte (List.drop pos inp)).length := by omega
  generalize pos + (List.takeWhile isSpaceByte (List.drop pos inp)).length = q at *
  simp only
  by_cases h0 : Lexer.peek ⟨inp, q⟩ = 0
  · simp only [h0, if_true]
    exact ⟨rfl, hq, fun h => absurd rfl h, fun h => absurd rfl h,
      TokOk_of_typ (by simp) (by simp) (by simp)⟩
  have hn := Lexer.next_of_peek h0
  have hq2 : q < inp.length := hn.2
  simp only [h0, if_false]
  by_cases hL : isLetter (Lexer.peek ⟨inp, q⟩) = true
  · simp only [hL, if_true, Lexer.lexIdent_eq]
    rw [Lexer.peek_eq] at hL
    have hid := isLexIdent_takeWhile hL
    have hle := takeWhile_length_le isIdentByte (inp.drop q)
    simp only [List.length_drop] at hle
    simp only at hid
    exact LexPost_tok _ _ _ _ (by omega) (by omega)
      ⟨fun _ => hid.1, fun h => by simp at h, fun h => by simp at h⟩
  simp only [hL, Bool.false_eq_true, if_false]
  by_cases hS : Lexer.peek ⟨inp, q⟩ = 34
  · simp only [hS, if_true]
    unfold Lexer.lexString
    rw [hn.1]
    simp only
    have hf := Lexer.lexStringLoop_facts (inp.length - (q + 1) + 1) ⟨inp, q + 1⟩
    generalize Lexer.lexStringLoop (inp.length - (q + 1) + 1) ⟨inp, q + 1⟩ = r at hf
    obtain ⟨r1, ⟨i2, q2⟩⟩ := r
    simp only at hf
    obtain ⟨hf1, hf2, hf3, _⟩ := hf
    subst hf1
    cases r1 with
    | none => exact LexPost_err _ _ _ _ (by omega)
    | some r1 =>
      exact LexPost_tok _ _ _ _ (by omega) (hf3 (by omega))
        (TokOk_of_typ (by simp) (by simp) (by simp))
  simp only [hS, if_false]
  rw [hn.1]
  simp only
  by_cases h1 : Lexer.peek ⟨inp, q⟩ = 38
  · simp only [h1, if_true]
    by_cases h2 : Lexer.peek ⟨inp, q + 1⟩ = 38
    · have hn2 := Lexer.next_of_peek (l := ⟨inp, q + 1⟩) (by omega)
      have hq3 : q + 1 < inp.length := hn2.2
      simp only [h2, if_true, hn2.1]
      exact LexPost_tok _ _ _ _ (by omega) (by omega)
        (TokOk_of_typ (by simp) (by simp) (by simp))
    · simp only [h2, if_false]
      exact LexPost_err _ _ _ _ (by omega)
  simp only [h1, if_false]
  by_cases h3 : Lexer.peek ⟨inp, q⟩ = 124
  · simp only [h3, if_true]
    by_cases h2 : Lexer.peek ⟨inp, q + 1⟩ = 124
    · have hn2 := Lexer.next_of_peek (l := ⟨inp, q + 1⟩) (by omega)
      have hq3 : q + 1 < inp.length := hn2.2
      simp only [h2, if_true, hn2.1]
      exact LexPost_tok _ _ _ _ (by omega) (by omega)
        (TokOk_of_typ (by simp) (by simp) (by simp))
    · simp only [h2, if_false]
      exact LexPost_err _ _ _ _ (by omega)
  simp only [h3, if_false]
  by_cases h4 : Lexer.peek ⟨inp, q⟩ = 33
  · simp only [h4, if_true]
    exact LexPost_tok _ _ _ _ (by omega) (by omega)
      (TokOk_of_typ (by simp) (by simp) (by simp))
  simp only [h4, if_false]
  by_cases h5 : Lexer.peek ⟨inp, q⟩ = 58
  · simp only [h5, if_true]
    by_cases h2 : Lexer.peek ⟨inp, q + 1⟩ = 61
    · have hn2 := Lexer.next_of_peek (l := ⟨inp, q + 1⟩) (by omega)
      have hq3 : q + 1 < inp.length := hn2.2
      simp only [h2, if_true, hn2.1]
      exact LexPost_tok _ _ _ _ (by omega) (by omega)
        ⟨fun h => by simp at h, fun h => by simp at h, fun _ => rfl⟩
    · simp only [h2, if_false]
      exact LexPost_tok _ _ _ _ (by omega) (by omega)
        ⟨fun h => by simp at h, fun _ => rfl, fun h => by simp at h⟩
  simp only [h5, if_false]
  split_ifs
  · exact LexPost_tok _ _ _ _ (by omega) (by omega)
      (TokOk_of_typ (by simp) (by simp) (by simp))
  · exact LexPost_tok _ _ _ _ (by omega) (by omega)
      (TokOk_of_typ (by simp) (by simp) (by simp))
  · exact LexPost_tok _ _ _ _ (by omega) (by omega)
      (TokOk_of_typ (by simp) (by simp) (by simp))
  · exact LexPost_tok _ _ _ _ (by omega) (by omega)
      (TokOk_of_typ (by simp) (by simp) (by simp))
  · exact LexPost_tok _ _ _ _ (by omega) (by omega)
      (TokOk_of_typ (by simp) (by simp) (by simp))
  · exact LexPost_err _ _ _ _ (by omega)

end Fmt

/-! ### Parser: state changes -/

theorem Parser.errorf_facts (p : Parser) (msg : GoString) :
    (p.errorf msg).input = p.input ∧ (p.errorf msg).lexer = p.lexer ∧
    (p.errorf msg).curTok = p.curTok ∧ (p.errorf msg).prevTok = p.prevTok ∧
    (p.errorf msg).err ≠ none ∧ (p.err ≠ none → (p.errorf msg).err = p.err) := by
  unfold Parser.errorf
  split_ifs with h
  · simp [h]
  · simp [h]

section Fmt

variable (printTable : Nat → Bool)

theorem Parser.nextToken_facts (p : Parser) :
    (p.nextToken printTable).input = p.input ∧
    (p.nextToken printTable).lexer.input = p.lexer.input ∧
    (p.nextToken printTable).prevTok = p.curTok ∧
    ((p.nextToken printTable).err = none → p.err = none) ∧
    (p.err ≠ none → (p.nextToken printTable).err = p.err) ∧
    TokOk (p.nextToken printTable).curTok ∧
    (p.curTok.Typ ≠ 0 → (p.nextToken printTable).measure < p.measure) := by
  have hl := Lexer.NextToken_facts printTable p.lexer
  unfold Parser.nextToken
  simp only
  generalize Lexer.NextToken printTable p.lexer = r at hl
  obtain ⟨tok, err, l⟩ := r
  obtain ⟨h1, h2, h3, h4, h5⟩ := hl
  simp only at h1 h2 h3 h4 h5
  have hm : p.curTok.Typ ≠ 0 →
      (l.input.length - l.pos) + (if tok.Typ = 0 then 0 else 1) < p.measure := by
    intro hc
    unfold Parser.measure
    rw [h1]
    simp only [hc, if_false]
    by_cases ht : tok.Typ = 0
    · simp only [ht, if_true]; omega
    · have := h3 ht
      simp only [ht, if_false]; omega
  cases err with
  | none =>
    simp only
    refine ⟨?_, h1, ?_, fun h => h, fun _ => ?_, h5, hm⟩ <;> trivial
  | some e =>
    have he := Parser.errorf_facts { p with prevTok := p.curTok, lexer := l } e
    simp only at he ⊢
    refine ⟨he.1, ?_, ?_, ?_, ?_, h5, ?_⟩
    · rw [he.2.1]; exact h1
    · exact he.2.2.2.1
    · intro h; exact absurd h he.2.2.2.2.1
    · exact he.2.2.2.2.2
    · intro hc
      have := hm hc
      unfold Parser.measure
      simp only [he.2.1]
      exact this

/-- What holds between a parser state and any state reached from it. -/
theorem Reach_facts {p q : Parser} (h : Reach printTable p q) :
    q.input = p.input ∧ q.lexer.input = p.lexer.input ∧ q.measure ≤ p.measure ∧
    (q.err = none → p.err = none) ∧ (p.err ≠ none → q.err = p.err) ∧
    (TokOk p.curTok → TokOk q.curTok) := by
  induction h with
  | refl => exact ⟨rfl, rfl, Nat.le_refl _, fun h => h, fun _ => rfl, fun h => h⟩
  | @tail p1 _ _ hs ih =>
    obtain ⟨i1, i2, i3, i4, i5, i6⟩ := ih
    cases hs with
    | next hc =>
      have hn := Parser.nextToken_facts printTable p1
      obtain ⟨n1, n2, _, n4, n5, n6, n7⟩ := hn
      refine ⟨n1.trans i1, n2.trans i2, ?_, fun h => i4 (n4 h), ?_, fun _ => n6⟩
      · have := n7 hc; omega
      · intro h
        have e1 := i5 h
        rw [n5 (by rw [e1]; exact h), e1]
    | err msg =>
      have he := Parser.errorf_facts p1 msg
      obtain ⟨e1, e2, e3, _, e5, e6⟩ := he
      refine ⟨e1.trans i1, by rw [e2]; exact i2, ?_, fun h => absurd h e5, ?_, ?_⟩
      · unfold Parser.measure at i3 ⊢; rw [e2, e3]; exact i3
      · intro h
        have a1 := i5 h
        rw [e6 (by rw [a1]; exact h), a1]
      · intro h; rw [e3]; exact i6 h

theorem Reach.step_next (p : Parser) (h : p.curTok.Typ ≠ 0) :
    Reach printTable p (p.nextToken printTable) :=
  Relation.ReflTransGen.single (Step.next p h)

theorem Reach.step_err (p : Parser) (msg : GoString) :
    Reach printTable p (p.errorf msg) :=
  Relation.ReflTransGen.single (Step.err p msg)

theorem Reach.trans {p q r : Parser} (h1 : Reach printTable p q) (h2 : Reach printTable q r) :
    Reach printTable p r :=
  Relation.ReflTransGen.trans h1 h2

end Fmt

/-! ### Parser: postconditions of the grammar functions -/

section Fmt

variable (printTable : Nat → Bool)

/-- The list loop only changes the parser by `nextToken` and `errorf`; it
latches an error when it returns `nil`, and the list it collects is not
empty. -/
theorem Parser.parseListLoop_post (fuel : Nat) (vals : List GoString) (p : Parser)
    (r : Option (List GoString)) (q : Parser)
    (h : Parser.parseListLoop printTable fuel vals p = some (r, q)) :
    Reach printTable p q ∧ (r = none → q.err ≠ none) ∧ (∀ vs, r = some vs → vs ≠ []) := by
  induction fuel generalizing vals p with
  | zero => simp [Parser.parseListLoop] at h
  | succ n ih =>
    unfold Parser.parseListLoop at h
    by_cases hs : p.curTok.Typ = TOKEN_STRING
    · have hs0 : p.curTok.Typ ≠ 0 := by rw [hs]; simp
      have r1 := Reach.step_next printTable p hs0
      simp only [hs, ne_eq, not_true_eq_false, if_false] at h
      by_cases hc : (p.nextToken printTable).curTok.Typ = TOKEN_COMMA
      · have hc0 : (p.nextToken printTable).curTok.Typ ≠ 0 := by rw [hc]; simp
        simp only [hc, if_true] at h
        have := ih _ _ h
        exact ⟨r1.trans printTable ((Reach.step_next printTable _ hc0).trans printTable this.1),
          this.2⟩
      · simp only [hc, if_false] at h
        by_cases hb : (p.nextToken printTable).curTok.Typ = TOKEN_RBRACKET
        · have hb0 : (p.nextToken printTable).curTok.Typ ≠ 0 := by rw [hb]; simp
          simp only [hb, if_true, Option.some.injEq, Prod.mk.injEq] at h
          obtain ⟨h1, h2⟩ := h
          subst h1 h2
          refine ⟨r1.trans printTable (Reach.step_next printTable _ hb0), ?_, ?_⟩
          · intro h; simp at h
          · intro vs h; simp at h; subst h; simp
        · simp only [hb, if_false, Option.some.injEq, Prod.mk.injEq] at h
          obtain ⟨h1, h2⟩ := h
          subst h1 h2
          refine ⟨r1.trans printTable (Reach.step_err printTable _ _), ?_, ?_⟩
          · intro _; exact (Parser.errorf_facts _ _).2.2.2.2.1
          · intro vs h; simp at h
    · simp only [ne_eq, hs, not_false_eq_true, if_true, Option.some.injEq,
        Prod.mk.injEq] at h
      obtain ⟨h1, h2⟩ := h
      subst h1 h2
      refine ⟨Reach.step_err printTable _ _, ?_, ?_⟩
      · intro _; exact (Parser.errorf_facts _ _).2.2.2.2.1
      · intro vs h; simp at h

end Fmt

theorem GoodTree_binary {t : ExprType} {l r : Expr} (ht : t = EXPR_AND ∨ t = EXPR_OR)
    (hl : GoodTree l) (hr : GoodTree r) : GoodTree (.node t l r [] [] [] []) := by
  refine ⟨by simp, ?_⟩
  intro n hn
  simp only [Expr.nodes, List.mem_cons, List.mem_append] at hn
  rcases hn with hn | hn | hn
  · subst hn
    refine ⟨⟨fun _ => ⟨hl.1, hr.1⟩, ?_, ?_⟩, ?_, ?_⟩
    · intro h; simp only [Expr.Typ] at h; rcases ht with ht | ht <;> simp [ht] at h
    · intro h; simp only [Expr.Typ] at h; rcases ht with ht | ht <;> simp [ht] at h
    · intro h; simp only [Expr.Typ] at h; rcases ht with ht | ht <;> simp [ht] at h
    · intro h; simp only [Expr.Typ] at h; rcases ht with ht | ht <;> simp [ht] at h
  · exact hl.2 n hn
  · exact hr.2 n hn

theorem GoodTree_not {r : Expr} (hr : GoodTree r) :
    GoodTree (.node EXPR_NOT .nil r [] [] [] []) := by
  refine ⟨by simp, ?_⟩
  intro n hn
  simp only [Expr.nodes, List.mem_cons, List.mem_append, List.not_mem_nil, false_or] at hn
  rcases hn with hn | hn
  · subst hn
    refine ⟨⟨?_, fun _ => ⟨hr.1, rfl⟩, ?_⟩, ?_, ?_⟩
    · intro h; simp [Expr.Typ] at h
    · intro h; simp [Expr.Typ] at h
    · intro h; simp [Expr.Typ] at h
    · intro h; simp [Expr.Typ] at h
  · exact hr.2 n hn

theorem GoodTree_match {k o v : GoString} {vs : List GoString}
    (hk : isLexIdent k = true) (ho : o = ascii ":" ∨ o = ascii ":=")
    (hv : v = [] ∨ vs = []) : GoodTree (.node EXPR_MATCH .nil .nil k o v vs) := by
  refine ⟨by simp, ?_⟩
  intro n hn
  simp only [Expr.nodes, List.mem_cons, List.append_nil, List.not_mem_nil, or_false] at hn
  subst hn
  refine ⟨⟨?_, ?_, fun _ => ⟨rfl, rfl⟩⟩, fun _ => hv, fun _ => ⟨hk, ho⟩⟩
  · intro h; simp [Expr.Typ] at h
  · intro h; simp [Expr.Typ] at h

section Fmt

variable (printTable : Nat → Bool)

theorem ParsePost.of_err (p q : Parser) (hr : Reach printTable p q) (he : q.err ≠ none) (e : Expr) :
    ParsePost printTable p e q :=
  ⟨hr, fun h => absurd h he⟩

/-- The postconditions of the seven grammar functions, by induction on the
fuel. -/
theorem Parser.parse_post (fuel : Nat) :
    (∀ p e q, Parser.parseExpression printTable fuel p = some (e, q) →
      ParsePost printTable p e q) ∧
    (∀ p e q, Parser.parseOr printTable fuel p = some (e, q) → ParsePost printTable p e q) ∧
    (∀ left p e q, Parser.parseOrLoop printTable fuel left p = some (e, q) →
      LoopPost printTable p left e q) ∧
    (∀ p e q, Parser.parseAnd printTable fuel p = some (e, q) → ParsePost printTable p e q) ∧
    (∀ left p e q, Parser.parseAndLoop printTable fuel left p = some (e, q) →
      LoopPost printTable p left e q) ∧
    (∀ p e q, Parser.parseNot printTable fuel p = some (e, q) → ParsePost printTable p e q) ∧
    (∀ p e q, Parser.parseAtom printTable fuel p = some (e, q) →
      ParsePost printTable p e q) := by
  induction fuel with
  | zero =>
    refine ⟨?_, ?_, ?_, ?_, ?_, ?_, ?_⟩ <;> intros <;> rename_i h
    · simp [Parser.parseExpression] at h
    · simp [Parser.parseOr] at h
    · simp [Parser.parseOrLoop] at h
    · simp [Parser.parseAnd] at h
    · simp [Parser.parseAndLoop] at h
    · simp [Parser.parseNot] at h
    · simp [Parser.parseAtom] at h
  | succ n ih =>
    obtain ⟨ihE, ihO, ihOL, ihA, ihAL, ihN, ihAt⟩ := ih
    refine ⟨?_, ?_, ?_, ?_, ?_, ?_, ?_⟩
    · -- parseExpression
      intro p e q h
      rw [Parser.parseExpression] at h
      exact ihO p e q h
    · -- parseOr
      intro p e q h
      rw [Parser.parseOr] at h
      cases h1 : Parser.parseAnd printTable n p with
      | none => simp [h1] at h
      | some r =>
        obtain ⟨left, p1⟩ := r
        simp only [h1] at h
        have A := ihA _ _ _ h1
        have L := ihOL _ _ _ _ h
        have f1 := Reach_facts printTable A.1
        have f2 := Reach_facts printTable L.1
        exact ⟨A.1.trans printTable L.1, fun hq ht =>
          L.2 hq (f1.2.2.2.2.2 ht) (A.2 (f2.2.2.2.1 hq) ht)⟩
    · -- parseOrLoop
      intro left p e q h
      rw [Parser.parseOrLoop] at h
      by_cases hc : p.curTok.Typ = TOKEN_OR ∧ p.err = none
      · simp only [hc, and_self, if_true] at h
        have hc0 : p.curTok.Typ ≠ 0 := by rw [hc.1]; simp
        have r0 := Reach.step_next printTable p hc0
        have ht1 := (Parser.nextToken_facts printTable p).2.2.2.2.2.1
        cases h1 : Parser.parseAnd printTable n (p.nextToken printTable) with
        | none => simp [h1] at h
        | some r =>
          obtain ⟨right, p1⟩ := r
          simp only [h1] at h
          have A := ihA _ _ _ h1
          have L := ihOL _ _ _ _ h
          have f1 := Reach_facts printTable A.1
          have f2 := Reach_facts printTable L.1
          refine ⟨r0.trans printTable (A.1.trans printTable L.1), fun hq _ hl => ?_⟩
          exact L.2 hq (f1.2.2.2.2.2 ht1)
            (GoodTree_binary (Or.inr rfl) hl (A.2 (f2.2.2.2.1 hq) ht1))
      · simp only [hc, if_false, Option.some.injEq, Prod.mk.injEq] at h
        obtain ⟨h1, h2⟩ := h
        subst h1 h2
        exact ⟨Relation.ReflTransGen.refl, fun _ _ hl => hl⟩
    · -- parseAnd
      intro p e q h
      rw [Parser.parseAnd] at h
      cases h1 : Parser.parseNot printTable n p with
      | none => simp [h1] at h
      | some r =>
        obtain ⟨left, p1⟩ := r
        simp only [h1] at h
        have A := ihN _ _ _ h1
        have L := ihAL _ _ _ _ h
        have f1 := Reach_facts printTable A.1
        have f2 := Reach_facts printTable L.1
        exact ⟨A.1.trans printTable L.1, fun hq ht =>
          L.2 hq (f1.2.2.2.2.2 ht) (A.2 (f2.2.2.2.1 hq) ht)⟩
    · -- parseAndLoop
      intro left p e q h
      rw [Parser.parseAndLoop] at h
      by_cases hc : p.curTok.Typ = TOKEN_AND ∧ p.err = none
      · simp only [hc, and_self, if_true] at h
        have hc0 : p.curTok.Typ ≠ 0 := by rw [hc.1]; simp
        have r0 := Reach.step_next printTable p hc0
        have ht1 := (Parser.nextToken_facts printTable p).2.2.2.2.2.1
        cases h1 : Parser.parseNot printTable n (p.nextToken printTable) with
        | none => simp [h1] at h
        | some r =>
          obtain ⟨right, p1⟩ := r
          simp only [h1] at h
          have A := ihN _ _ _ h1
          have L := ihAL _ _ _ _ h
          have f1 := Reach_facts printTable A.1
          have f2 := Reach_facts printTable L.1
          refine ⟨r0.trans printTable (A.1.trans printTable L.1), fun hq _ hl => ?_⟩
          exact L.2 hq (f1.2.2.2.2.2 ht1)
            (GoodTree_binary (Or.inl rfl) hl (A.2 (f2.2.2.2.1 hq) ht1))
      · simp only [hc, if_false, Option.some.injEq, Prod.mk.injEq] at h
        obtain ⟨h1, h2⟩ := h
        subst h1 h2
        exact ⟨Relation.ReflTransGen.refl, fun _ _ hl => hl⟩
    · -- parseNot
      intro p e q h
      rw [Parser.parseNot] at h
      by_cases hc : p.curTok.Typ = TOKEN_NOT
      · simp only [hc, if_true] at h
        have hc0 : p.curTok.Typ ≠ 0 := by rw [hc]; simp
        have r0 := Reach.step_next printTable p hc0
        have ht1 := (Parser.nextToken_facts printTable p).2.2.2.2.2.1
        cases h1 : Parser.parseAtom printTable n (p.nextToken printTable) with
        | none => simp [h1] at h
        | some r =>
          obtain ⟨expr, p1⟩ := r
          simp only [h1, Option.some.injEq, Prod.mk.injEq] at h
          obtain ⟨h2, h3⟩ := h
          subst h2 h3
          have A := ihAt _ _ _ h1
          exact ⟨r0.trans printTable A.1, fun hq _ => GoodTree_not (A.2 hq ht1)⟩
      · simp only [hc, if_false] at h
        exact ihAt _ _ _ h
    · -- parseAtom
      intro p e q h
      rw [Parser.parseAtom] at h
      by_cases hp : p.curTok.Typ = TOKEN_LPAREN
      · simp only [hp, if_true] at h
        have hc0 : p.curTok.Typ ≠ 0 := by rw [hp]; simp
        have r0 := Reach.step_next printTable p hc0
        have ht1 := (Parser.nextToken_facts printTable p).2.2.2.2.2.1
        cases h1 : Parser.parseExpression printTable n (p.nextToken printTable) with
        | none => simp [h1] at h
        | some r =>
          obtain ⟨expr, p1⟩ := r
          simp only [h1] at h
          have A := ihE _ _ _ h1
          by_cases hr : p1.curTok.Typ = TOKEN_RPAREN
          · have hr0 : p1.curTok.Typ ≠ 0 := by rw [hr]; simp
            simp only [hr, ne_eq, not_true_eq_false, if_false, Option.some.injEq,
              Prod.mk.injEq] at h
            obtain ⟨h2, h3⟩ := h
            subst h2 h3
            refine ⟨r0.trans printTable (A.1.trans printTable
              (Reach.step_next printTable _ hr0)), fun hq _ => ?_⟩
            exact A.2 ((Parser.nextToken_facts printTable p1).2.2.2.1 hq) ht1
          · simp only [ne_eq, hr, not_false_eq_true, if_true, Option.some.injEq,
              Prod.mk.injEq] at h
            obtain ⟨h2, h3⟩ := h
            subst h2 h3
            exact ParsePost.of_err printTable _ _
              (r0.trans printTable (A.1.trans printTable (Reach.step_err printTable _ _)))
              (Parser.errorf_facts _ _).2.2.2.2.1 _
      · simp only [hp, if_false] at h
        by_cases hi : p.curTok.Typ = TOKEN_IDENT
        · simp only [hi, if_true] at h
          have hc0 : p.curTok.Typ ≠ 0 := by rw [hi]; simp
          have r0 := Reach.step_next printTable p hc0
          have ht1 := (Parser.nextToken_facts printTable p).2.2.2.2.2.1
          generalize hp1 : p.nextToken printTable = p1 at h r0 ht1
          by_cases ho : p1.curTok.Typ ≠ TOKEN_COLON ∧ p1.curTok.Typ ≠ TOKEN_ASSIGN
          · rw [if_pos ho] at h
            simp only [Option.some.injEq, Prod.mk.injEq] at h
            obtain ⟨h2, h3⟩ := h
            subst h2 h3
            exact ParsePost.of_err printTable _ _
              (r0.trans printTable (Reach.step_err printTable _ _))
              (Parser.errorf_facts _ _).2.2.2.2.1 _
          · rw [if_neg ho] at h
            have hop : p1.curTok.Value = ascii ":" ∨ p1.curTok.Value = ascii ":=" := by
              by_cases hcol : p1.curTok.Typ = TOKEN_COLON
              · exact Or.inl (ht1.2.1 hcol)
              · by_cases hasg : p1.curTok.Typ = TOKEN_ASSIGN
                · exact Or.inr (ht1.2.2 hasg)
                · exact absurd ⟨hcol, hasg⟩ ho
            have hc1 : p1.curTok.Typ ≠ 0 := by
              intro h0; apply ho; rw [h0]; simp
            have r1 := Reach.step_next printTable p1 hc1
            generalize hp2 : p1.nextToken printTable = p2 at h r1
            by_cases hsp : p2.noSpaceBetweenTokens = true
            · simp only [hsp, Bool.not_true, Bool.false_eq_true, if_false] at h
              by_cases hs : p2.curTok.Typ = TOKEN_STRING
              · simp only [hs, if_true, Option.some.injEq, Prod.mk.injEq] at h
                obtain ⟨h2, h3⟩ := h
                subst h2 h3
                have hc2 : p2.curTok.Typ ≠ 0 := by rw [hs]; simp
                refine ⟨r0.trans printTable (r1.trans printTable
                  (Reach.step_next printTable _ hc2)), fun _ ht => ?_⟩
                exact GoodTree_match (ht.1 hi) hop (Or.inr rfl)
              · simp only [hs, if_false] at h
                by_cases hb : p2.curTok.Typ = TOKEN_LBRACKET
                · simp only [hb, if_true] at h
                  have hc2 : p2.curTok.Typ ≠ 0 := by rw [hb]; simp
                  have r2 := Reach.step_next printTable p2 hc2
                  cases h1 : Parser.parseListLoop printTable n [] (p2.nextToken printTable) with
                  | none => simp [h1] at h
                  | some r =>
                    obtain ⟨vs, p3⟩ := r
                    have LP := Parser.parseListLoop_post printTable _ _ _ _ _ h1
                    have rr := r0.trans printTable (r1.trans printTable
                      (r2.trans printTable LP.1))
                    cases vs with
                    | none =>
                      simp only [h1, Option.some.injEq, Prod.mk.injEq] at h
                      obtain ⟨h2, h3⟩ := h
                      subst h2 h3
                      exact ParsePost.of_err printTable _ _ rr (LP.2.1 rfl) _
                    | some vs =>
                      simp only [h1, Option.some.injEq, Prod.mk.injEq] at h
                      obtain ⟨h2, h3⟩ := h
                      subst h2 h3
                      exact ⟨rr, fun _ ht => GoodTree_match (ht.1 hi) hop (Or.inl rfl)⟩
                · simp only [hb, if_false, Option.some.injEq, Prod.mk.injEq] at h
                  obtain ⟨h2, h3⟩ := h
                  subst h2 h3
                  exact ParsePost.of_err printTable _ _
                    (r0.trans printTable (r1.trans printTable (Reach.step_err printTable _ _)))
                    (Parser.errorf_facts _ _).2.2.2.2.1 _
            · have hsp2 : p2.noSpaceBetweenTokens = false := by simpa using hsp
              simp only [hsp2, Bool.not_false, if_true, Option.some.injEq, Prod.mk.injEq] at h
              obtain ⟨h2, h3⟩ := h
              subst h2 h3
              exact ParsePost.of_err printTable _ _
                (r0.trans printTable (r1.trans printTable (Reach.step_err printTable _ _)))
                (Parser.errorf_facts _ _).2.2.2.2.1 _
        · simp only [hi, if_false, Option.some.injEq, Prod.mk.injEq] at h
          obtain ⟨h2, h3⟩ := h
          subst h2 h3
          exact ParsePost.of_err printTable _ _ (Reach.step_err printTable _ _)
            (Parser.errorf_facts _ _).2.2.2.2.1 _

end Fmt

/-! ### Parser: the fuel suffices -/

section Fmt

variable (printTable : Nat → Bool)

theorem Parser.nextToken_measure (p : Parser) (h : p.curTok.Typ ≠ 0) :
    (p.nextToken printTable).measure + 1 ≤ p.measure :=
  (Parser.nextToken_facts printTable p).2.2.2.2.2.2 h

/-- The list loop returns when its fuel exceeds what is left of the input. -/
theorem Parser.parseListLoop_total (fuel : Nat) (vals : List GoString) (p : Parser)
    (h : p.measure + 1 ≤ fuel) :
    ∃ r, Parser.parseListLoop printTable fuel vals p = some r := by
  induction fuel generalizing vals p with
  | zero => omega
  | succ n ih =>
    unfold Parser.parseListLoop
    by_cases hs : p.curTok.Typ = TOKEN_STRING
    · have hs0 : p.curTok.Typ ≠ 0 := by rw [hs]; simp
      have m1 := Parser.nextToken_measure printTable p hs0
      simp only [hs, ne_eq, not_true_eq_false, if_false]
      by_cases hc : (p.nextToken printTable).curTok.Typ = TOKEN_COMMA
      · have hc0 : (p.nextToken printTable).curTok.Typ ≠ 0 := by rw [hc]; simp
        have m2 := Parser.nextToken_measure printTable _ hc0
        simp only [hc, if_true]
        exact ih _ _ (by omega)
      · simp only [hc, if_false]
        split_ifs <;> exact ⟨_, rfl⟩
    · simp only [ne_eq, hs, not_false_eq_true, if_true]
      exact ⟨_, rfl⟩

/-- The grammar functions return when the fuel is five times what is left of
the input, plus their nesting depth. -/
theorem Parser.parse_total (fuel : Nat) :
    (∀ p, 5 * p.measure + 5 ≤ fuel →
      ∃ r, Parser.parseExpression printTable fuel p = some r) ∧
    (∀ p, 5 * p.measure + 4 ≤ fuel → ∃ r, Parser.parseOr printTable fuel p = some r) ∧
    (∀ left p, 5 * p.measure + 1 ≤ fuel →
      ∃ r, Parser.parseOrLoop printTable fuel left p = some r) ∧
    (∀ p, 5 * p.measure + 3 ≤ fuel → ∃ r, Parser.parseAnd printTable fuel p = some r) ∧
    (∀ left p, 5 * p.measure + 1 ≤ fuel →
      ∃ r, Parser.parseAndLoop printTable fuel left p = some r) ∧
    (∀ p, 5 * p.measure + 2 ≤ fuel → ∃ r, Parser.parseNot printTable fuel p = some r) ∧
    (∀ p, 5 * p.measure + 1 ≤ fuel → ∃ r, Parser.parseAtom printTable fuel p = some r) := by
  induction fuel with
  | zero => refine ⟨?_, ?_, ?_, ?_, ?_, ?_, ?_⟩ <;> intros <;> omega
  | succ n ih =>
    obtain ⟨ihE, ihO, ihOL, ihA, ihAL, ihN, ihAt⟩ := ih
    have post := Parser.parse_post printTable n
    obtain ⟨poE, poO, poOL, poA, poAL, poN, poAt⟩ := post
    refine ⟨?_, ?_, ?_, ?_, ?_, ?_, ?_⟩
    · intro p h
      rw [Parser.parseExpression]
      exact ihO p (by omega)
    · intro p h
      rw [Parser.parseOr]
      obtain ⟨⟨left, p1⟩, h1⟩ := ihA p (by omega)
      have f1 := (Reach_facts printTable (poA _ _ _ h1).1).2.2.1
      simp only [h1]
      exact ihOL left p1 (by omega)
    · intro left p h
      rw [Parser.parseOrLoop]
      by_cases hc : p.curTok.Typ = TOKEN_OR ∧ p.err = none
      · have hc0 : p.curTok.Typ ≠ 0 := by rw [hc.1]; simp
        have m1 := Parser.nextToken_measure printTable p hc0
        rw [if_pos hc]
        obtain ⟨⟨right, p1⟩, h1⟩ := ihA (p.nextToken printTable) (by omega)
        have f1 := (Reach_facts printTable (poA _ _ _ h1).1).2.2.1
        simp only [h1]
        exact ihOL _ p1 (by omega)
      · rw [if_neg hc]; exact ⟨_, rfl⟩
    · intro p h
      rw [Parser.parseAnd]
      obtain ⟨⟨left, p1⟩, h1⟩ := ihN p (by omega)
      have f1 := (Reach_facts printTable (poN _ _ _ h1).1).2.2.1
      simp only [h1]
      exact ihAL left p1 (by omega)
    · intro left p h
      rw [Parser.parseAndLoop]
      by_cases hc : p.curTok.Typ = TOKEN_AND ∧ p.err = none
      · have hc0 : p.curTok.Typ ≠ 0 := by rw [hc.1]; simp
        have m1 := Parser.nextToken_measure printTable p hc0
        rw [if_pos hc]
        obtain ⟨⟨right, p1⟩, h1⟩ := ihN (p.nextToken printTable) (by omega)
        have f1 := (Reach_facts printTable (poN _ _ _ h1).1).2.2.1
        simp only [h1]
        exact ihAL _ p1 (by omega)
      · rw [if_neg hc]; exact ⟨_, rfl⟩
    · intro p h
      rw [Parser.parseNot]
      by_cases hc : p.curTok.Typ = TOKEN_NOT
      · have hc0 : p.curTok.Typ ≠ 0 := by rw [hc]; simp
        have m1 := Parser.nextToken_measure printTable p hc0
        rw [if_pos hc]
        obtain ⟨⟨e, p1⟩, h1⟩ := ihAt (p.nextToken printTable) (by omega)
        simp only [h1]
        exact ⟨_, rfl⟩
      · rw [if_neg hc]
        exact ihAt p (by omega)
    · intro p h
      rw [Parser.parseAtom]
      by_cases hp : p.curTok.Typ = TOKEN_LPAREN
      · have hc0 : p.curTok.Typ ≠ 0 := by rw [hp]; simp
        have m1 := Parser.nextToken_measure printTable p hc0
        rw [if_pos hp]
        obtain ⟨⟨e, p1⟩, h1⟩ := ihE (p.nextToken printTable) (by omega)
        simp only [h1]
        split_ifs <;> exact ⟨_, rfl⟩
      · rw [if_neg hp]
        by_cases hi : p.curTok.Typ = TOKEN_IDENT
        · have hc0 : p.curTok.Typ ≠ 0 := by rw [hi]; simp
          have m1 := Parser.nextToken_measure printTable p hc0
          rw [if_pos hi]
          simp only
          generalize p.nextToken printTable = p1 at m1 ⊢
          by_cases ho : p1.curTok.Typ ≠ TOKEN_COLON ∧ p1.curTok.Typ ≠ TOKEN_ASSIGN
          · rw [if_pos ho]; exact ⟨_, rfl⟩
          · rw [if_neg ho]
            have hc1 : p1.curTok.Typ ≠ 0 := by
              intro h0; apply ho; rw [h0]; simp
            have m2 := Parser.nextToken_measure printTable p1 hc1
            generalize p1.nextToken printTable = p2 at m2 ⊢
            by_cases hsp : (!p2.noSpaceBetweenTokens) = true
            · rw [if_pos hsp]; exact ⟨_, rfl⟩
            · rw [if_neg hsp]
              by_cases hs : p2.curTok.Typ = TOKEN_STRING
              · rw [if_pos hs]; exact ⟨_, rfl⟩
              · rw [if_neg hs]
                by_cases hb : p2.curTok.Typ = TOKEN_LBRACKET
                · have hc2 : p2.curTok.Typ ≠ 0 := by rw [hb]; simp
                  have m3 := Parser.nextToken_measure printTable p2 hc2
                  rw [if_pos hb]
                  obtain ⟨⟨vs, p3⟩, h1⟩ := Parser.parseListLoop_total printTable n []
                    (p2.nextToken printTable) (by omega)
                  simp only [h1]
                  cases vs <;> exact ⟨_, rfl⟩
                · rw [if_neg hb]; exact ⟨_, rfl⟩
        · rw [if_neg hi]; exact ⟨_, rfl⟩

theorem NewParser_facts (input : GoString) :
    (NewParser printTable input).measure ≤ input.length + 1 ∧
    TokOk (NewParser printTable input).curTok := by
  have hf := Lexer.NextToken_facts printTable (NewLexer input)
  have hn := Parser.nextToken_facts printTable { input := input, lexer := NewLexer input }
  refine ⟨?_, hn.2.2.2.2.2.1⟩
  have h2 := hn.2.1
  unfold Parser.measure
  change (NewParser printTable input).lexer.input = input at h2
  rw [h2]
  split_ifs <;> omega

/-- The fuel `Parse` supplies is enough: `parseExpression` returns. -/
theorem Parse_fuel (input : GoString) :
    ∃ e q, Parser.parseExpression printTable (parseFuel input) (NewParser printTable input)
      = some (e, q) ∧ ParsePost printTable (NewParser printTable input) e q := by
  have hm := (NewParser_facts printTable input).1
  obtain ⟨⟨e, q⟩, h⟩ := (Parser.parse_total printTable (parseFuel input)).1
    (NewParser printTable input) (by unfold parseFuel; omega)
  exact ⟨e, q, h, (Parser.parse_post printTable _).1 _ _ _ h⟩

end Fmt

/-! ### Parser: more fuel changes nothing -/

section Fmt

variable (printTable : Nat → Bool)

/-- More fuel does not change what the list loop returns. -/
theorem Parser.parseListLoop_mono (fuel : Nat) (vals : List GoString) (p : Parser)
    (r : Option (List GoString) × Parser)
    (h : Parser.parseListLoop printTable fuel vals p = some r) (m : Nat) (hm : fuel ≤ m) :
    Parser.parseListLoop printTable m vals p = some r := by
  induction fuel generalizing vals p m with
  | zero => simp [Parser.parseListLoop] at h
  | succ n ih =>
    obtain ⟨m, rfl⟩ : ∃ k, m = k + 1 := ⟨m - 1, by omega⟩
    unfold Parser.parseListLoop at h ⊢
    simp only at h ⊢
    split_ifs at h ⊢
    · exact h
    · exact ih _ _ h _ (by omega)
    · exact h
    · exact h

/-- More fuel does not change what the grammar functions return. -/
theorem Parser.parse_mono (fuel : Nat) :
    (∀ p r, Parser.parseExpression printTable fuel p = some r →
      ∀ m, fuel ≤ m → Parser.parseExpression printTable m p = some r) ∧
    (∀ p r, Parser.parseOr printTable fuel p = some r →
      ∀ m, fuel ≤ m → Parser.parseOr printTable m p = some r) ∧
    (∀ left p r, Parser.parseOrLoop printTable fuel left p = some r →
      ∀ m, fuel ≤ m → Parser.parseOrLoop printTable m left p = some r) ∧
    (∀ p r, Parser.parseAnd printTable fuel p = some r →
      ∀ m, fuel ≤ m → Parser.parseAnd printTable m p = some r) ∧
    (∀ left p r, Parser.parseAndLoop printTable fuel left p = some r →
      ∀ m, fuel ≤ m → Parser.parseAndLoop printTable m left p = some r) ∧
    (∀ p r, Parser.parseNot printTable fuel p = some r →
      ∀ m, fuel ≤ m → Parser.parseNot printTable m p = some r) ∧
    (∀ p r, Parser.parseAtom printTable fuel p = some r →
      ∀ m, fuel ≤ m → Parser.parseAtom printTable m p = some r) := by
  induction fuel with
  | zero =>
    refine ⟨?_, ?_, ?_, ?_, ?_, ?_, ?_⟩ <;> intros <;> rename_i h _ _
    · simp [Parser.parseExpression] at h
    · simp [Parser.parseOr] at h
    · simp [Parser.parseOrLoop] at h
    · simp [Parser.parseAnd] at h
    · simp [Parser.parseAndLoop] at h
    · simp [Parser.parseNot] at h
    · simp [Parser.parseAtom] at h
  | succ n ih =>
    obtain ⟨ihE, ihO, ihOL, ihA, ihAL, ihN, ihAt⟩ := ih
    refine ⟨?_, ?_, ?_, ?_, ?_, ?_, ?_⟩
    · intro p r h m hm
      obtain ⟨m, rfl⟩ : ∃ k, m = k + 1 := ⟨m - 1, by omega⟩
      rw [Parser.parseExpression] at h ⊢
      exact ihO _ _ h _ (by omega)
    · intro p r h m hm
      obtain ⟨m, rfl⟩ : ∃ k, m = k + 1 := ⟨m - 1, by omega⟩
      rw [Parser.parseOr] at h ⊢
      cases h1 : Parser.parseAnd printTable n p with
      | none => simp [h1] at h
      | some r1 =>
        simp only [h1] at h
        simp only [ihA _ _ h1 m (by omega)]
        exact ihOL _ _ _ h _ (by omega)
    · intro left p r h m hm
      obtain ⟨m, rfl⟩ : ∃ k, m = k + 1 := ⟨m - 1, by omega⟩
      rw [Parser.parseOrLoop] at h ⊢
      by_cases hc : p.curTok.Typ = TOKEN_OR ∧ p.err = none
      · rw [if_pos hc] at h ⊢
        cases h1 : Parser.parseAnd printTable n (p.nextToken printTable) with
        | none => simp [h1] at h
        | some r1 =>
          simp only [h1] at h
          simp only [ihA _ _ h1 m (by omega)]
          exact ihOL _ _ _ h _ (by omega)
      · rw [if_neg hc] at h ⊢; exact h
    · intro p r h m hm
      obtain ⟨m, rfl⟩ : ∃ k, m = k + 1 := ⟨m - 1, by omega⟩
      rw [Parser.parseAnd] at h ⊢
      cases h1 : Parser.parseNot printTable n p with
      | none => simp [h1] at h
      | some r1 =>
        simp only [h1] at h
        simp only [ihN _ _ h1 m (by omega)]
        exact ihAL _ _ _ h _ (by omega)
    · intro left p r h m hm
      obtain ⟨m, rfl⟩ : ∃ k, m = k + 1 := ⟨m - 1, by omega⟩
      rw [Parser.parseAndLoop] at h ⊢
      by_cases hc : p.curTok.Typ = TOKEN_AND ∧ p.err = none
      · rw [if_pos hc] at h ⊢
        cases h1 : Parser.parseNot printTable n (p.nextToken printTable) with
        | none => simp [h1] at h
        | some r1 =>
          simp only [h1] at h
          simp only [ihN _ _ h1 m (by omega)]
          exact ihAL _ _ _ h _ (by omega)
      · rw [if_neg hc] at h ⊢; exact h
    · intro p r h m hm
      obtain ⟨m, rfl⟩ : ∃ k, m = k + 1 := ⟨m - 1, by omega⟩
      rw [Parser.parseNot] at h ⊢
      by_cases hc : p.curTok.Typ = TOKEN_NOT
      · rw [if_pos hc] at h ⊢
        cases h1 : Parser.parseAtom printTable n (p.nextToken printTable) with
        | none => simp [h1] at h
        | some r1 =>
          simp only [h1] at h
          simp only [ihAt _ _ h1 m (by omega)]
          exact h
      · rw [if_neg hc] at h ⊢
        exact ihAt _ _ h _ (by omega)
    · intro p r h m hm
      obtain ⟨m, rfl⟩ : ∃ k, m = k + 1 := ⟨m - 1, by omega⟩
      rw [Parser.parseAtom] at h ⊢
      by_cases hp : p.curTok.Typ = TOKEN_LPAREN
      · rw [if_pos hp] at h ⊢
        cases h1 : Parser.parseExpression printTable n (p.nextToken printTable) with
        | none => simp [h1] at h
        | some r1 =>
          simp only [h1] at h
          simp only [ihE _ _ h1 m (by omega)]
          exact h
      · rw [if_neg hp] at h ⊢
        by_cases hi : p.curTok.Typ = TOKEN_IDENT
        · rw [if_pos hi] at h ⊢
          simp only at h ⊢
          split_ifs at h ⊢ with h1 h2 h3 h4
          · exact h
          · exact h
          · exact h
          · cases h5 : Parser.parseListLoop printTable n []
                ((p.nextToken printTable).nextToken printTable |>.nextToken printTable) with
            | none => simp [h5] at h
            | some r1 =>
              simp only [h5] at h
              simp only [Parser.parseListLoop_mono printTable _ _ _ _ h5 m (by omega)]
              exact h
          · exact h
        · rw [if_neg hi] at h ⊢; exact h

end Fmt

/-! ### Parse: one of a tree and an error, and the shape of accepted trees -/

section Fmt

variable (printTable : Nat → Bool)

/-- What `Parse` returns in terms of the state `parseExpression` ends in. -/
theorem Parse_cases (input : GoString) :
    ∃ e q, ParsePost printTable (NewParser printTable input) e q ∧
      ((q.err = none ∧ q.curTok.Typ = TOKEN_EOF ∧ Parse printTable input = some (e, none)) ∨
       (∃ msg, Parse printTable input = some (.nil, some msg))) := by
  obtain ⟨e, q, h, hp⟩ := Parse_fuel printTable input
  refine ⟨e, q, hp, ?_⟩
  unfold Parse Parser.Parse
  simp only [h]
  by_cases he : q.err = none
  · by_cases ht : q.curTok.Typ = TOKEN_EOF
    · left
      refine ⟨he, ht, ?_⟩
      simp [he, ht]
    · right
      have hf := (Parser.errorf_facts q (ascii "unexpected trailing token " ++
        fmtQ printTable q.curTok.Value ++ ascii " at position " ++ fmtD q.curTok.Start)).2.2.2.2.1
      obtain ⟨msg, hmsg⟩ := Option.ne_none_iff_exists'.mp hf
      refine ⟨msg, ?_⟩
      rw [if_neg (by simpa using he), if_pos ht, hmsg]
  · right
    obtain ⟨msg, hmsg⟩ := Option.ne_none_iff_exists'.mp he
    refine ⟨msg, ?_⟩
    rw [if_pos he, hmsg]

/-- An accepted input yields a tree that is present and in order at every
node. -/
theorem Parse_good (input : GoString) (e : Expr)
    (h : Parse printTable input = some (e, none)) : GoodTree e := by
  obtain ⟨e1, q, hp, hc⟩ := Parse_cases printTable input
  rcases hc with ⟨he, _, hr⟩ | ⟨msg, hr⟩
  · rw [hr] at h
    simp only [Option.some.injEq, Prod.mk.injEq, and_true] at h
    subst h
    exact hp.2 he (NewParser_facts printTable input).2
  · rw [hr] at h; simp at h

/-- C1: for every input string, `Parse` returns (with the fuel it supplies)
exactly one of a tree and an error: a non-nil `*Expr` with a nil error, or a
nil `*Expr` with a non-nil error. -/
theorem Parse_tree_xor_error (input : GoString) :
    ∃ e err, Parse printTable input = some (e, err) ∧
      ((e ≠ .nil ∧ err = none) ∨ (e = .nil ∧ err ≠ none)) := by
  obtain ⟨e1, q, hp, hc⟩ := Parse_cases printTable input
  rcases hc with ⟨he, _, hr⟩ | ⟨msg, hr⟩
  · exact ⟨e1, none, hr, Or.inl ⟨(Parse_good printTable input e1 hr).1, rfl⟩⟩
  · exact ⟨.nil, some msg, hr, Or.inr ⟨rfl, by simp⟩⟩

/-- C2: for every input that `Parse` accepts, the returned tree is present and
at every node of it an AND or OR node has both `Left` and `Right` non-nil, a
NOT node has `Right` non-nil and `Left` nil, and a MATCH node has neither. -/
theorem Parse_shape (input : GoString) (e : Expr)
    (h : Parse printTable input = some (e, none)) :
    e ≠ .nil ∧ ∀ n ∈ e.nodes, ShapeOk n :=
  ⟨(Parse_good printTable input e h).1, fun n hn => ((Parse_good printTable input e h).2 n hn).1⟩

/-- C3, as amended: for every input that `Parse` accepts, every MATCH node of
the returned tree has at most one payload populated, an empty `Value` or an
empty `Values`. -/
theorem Parse_payload_at_most_one (input : GoString) (e : Expr)
    (h : Parse printTable input = some (e, none)) :
    ∀ n ∈ e.nodes, PayloadAtMostOne n :=
  fun n hn => ((Parse_good printTable input e h).2 n hn).2.1

/-- What the code guarantees about keys and operators: for every input that
`Parse` accepts, every MATCH node of the returned tree has a key that
`lexIdent` reads as one IDENT token (a first byte `isLetter` accepts, then
bytes the loop of `lexIdent` accepts, each byte read as a rune of its own) and
the operator `:` or `:=`. -/
theorem Parse_key_op (input : GoString) (e : Expr)
    (h : Parse printTable input = some (e, none)) :
    ∀ n ∈ e.nodes, KeyOpOk n :=
  fun n hn => ((Parse_good printTable input e h).2 n hn).2.2

end Fmt

/-- Witness of C2 on `!(a:"1" && b:=["x","y"]) || c:"3"`. -/
theorem Parse_shape_witness :
    Parse noWidePrint (ascii "!(a:\"1\" && b:=[\"x\",\"y\"]) || c:\"3\"") =
      some (shapeExample, none) ∧
    (shapeExample ≠ .nil ∧ ∀ n ∈ shapeExample.nodes, ShapeOk n) :=
  ⟨by decide, Parse_shape noWidePrint
    (ascii "!(a:\"1\" && b:=[\"x\",\"y\"]) || c:\"3\"") _ (by decide)⟩

/-- Counterexample to C3 as stated: `a:""` is accepted and its MATCH node has
neither payload populated, `Value` and `Values` both being empty. -/
theorem Parse_payload_counterexample :
    Parse noWidePrint (ascii "a:\"\"") = some (mkMatch (ascii "a") (ascii ":") [], none) ∧
    ¬ ∀ n ∈ (mkMatch (ascii "a") (ascii ":") []).nodes, PayloadExactlyOne n := by
  refine ⟨by decide, fun h => ?_⟩
  have := h _ (List.mem_cons_self _ _) rfl
  simp [Expr.Value, Expr.Values] at this

/-- Witness of C3 as amended, on `a:"" && t:=["x"]`. -/
theorem Parse_payload_at_most_one_witness :
    Parse noWidePrint (ascii "a:\"\" && t:=[\"x\"]") =
      some (mkAnd (mkMatch (ascii "a") (ascii ":") [])
        (mkMatchList (ascii "t") (ascii ":=") [ascii "x"]), none) ∧
    ∀ n ∈ (mkAnd (mkMatch (ascii "a") (ascii ":") [])
        (mkMatchList (ascii "t") (ascii ":=") [ascii "x"])).nodes, PayloadAtMostOne n :=
  ⟨by decide, Parse_payload_at_most_one noWidePrint (ascii "a:\"\" && t:=[\"x\"]") _
    (by decide)⟩

/-- Example: the key and the operator of `meta.owner_1:="bob"`. -/
theorem Parse_key_op_witness :
    Parse noWidePrint (ascii "meta.owner_1:=\"bob\"") =
      some (mkMatch (ascii "meta.owner_1") (ascii ":=") (ascii "bob"), none) ∧
    ∀ n ∈ (mkMatch (ascii "meta.owner_1") (ascii ":=") (ascii "bob")).nodes, KeyOpOk n :=
  ⟨by decide, Parse_key_op noWidePrint (ascii "meta.owner_1:=\"bob\"") _ (by decide)⟩

/-! ### Lexer on given text -/

theorem letter_not_space (b : Byte) (h : isLetter b.val = true) : isSpaceByte b = false := by
  simp only [isLetter, unicodeIsLetter, isSpaceByte, unicodeIsSpace, Bool.or_eq_true,
    Bool.and_eq_true, decide_eq_true_eq, beq_iff_eq, Bool.or_eq_false_iff, beq_eq_false_iff_ne,
    ne_eq] at h ⊢
  omega

theorem space_not_ident (b : Byte) (h : isSpaceByte b = true) : isIdentByte b = false := by
  simp only [isIdentByte, isLetter, unicodeIsLetter, unicodeIsDigit, isSpaceByte, unicodeIsSpace,
    Bool.or_eq_true, Bool.and_eq_true, decide_eq_true_eq, beq_iff_eq, Bool.or_eq_false_iff,
    beq_eq_false_iff_ne, ne_eq, Bool.and_eq_false_iff, decide_eq_false_iff_not] at h ⊢
  omega

theorem drop_append_facts {input : GoString} {pos : Nat} {a b : GoString}
    (h : input.drop pos = a ++ b) : input.drop (pos + a.length) = b := by
  rw [← List.drop_drop, h, List.drop_left]

theorem takeWhile_append_all {α : Type} (p : α → Bool) (xs ys : List α)
    (h : xs.all p = true) : (xs ++ ys).takeWhile p = xs ++ ys.takeWhile p := by
  induction xs with
  | nil => rfl
  | cons x xs ih =>
    simp only [List.all_cons, Bool.and_eq_true] at h
    simp [List.takeWhile, h.1, ih h.2]

theorem takeWhile_head_false {α : Type} (p : α → Bool) (xs : List α)
    (h : ∀ x, xs.head? = some x → p x = false) : xs.takeWhile p = [] := by
  cases xs with
  | nil => rfl
  | cons x xs => simp [List.takeWhile, h x rfl]

theorem Lexer.skipWhitespace_append {input : GoString} {pos : Nat} {w rest : GoString}
    (hw : isLexSpace w = true) (hd : input.drop pos = w ++ rest) :
    Lexer.skipWhitespace ⟨input, pos⟩ = Lexer.skipWhitespace ⟨input, pos + w.length⟩ := by
  rw [Lexer.skipWhitespace_eq, Lexer.skipWhitespace_eq]
  simp only [hd, drop_append_facts hd, takeWhile_append_all _ _ _ hw, List.length_append,
    Nat.add_assoc]

theorem Lexer.skipWhitespace_none {input : GoString} {pos : Nat}
    (h : unicodeIsSpace (headRune (input.drop pos)) = false) :
    Lexer.skipWhitespace ⟨input, pos⟩ = ⟨input, pos⟩ := by
  rw [Lexer.skipWhitespace_eq]
  simp only
  rw [takeWhile_head_false]
  · rfl
  · intro x hx
    cases hd : input.drop pos with
    | nil => rw [hd] at hx; cases hx
    | cons b rest =>
      rw [hd] at hx h
      simp only [List.head?_cons, Option.some.injEq] at hx
      subst hx
      exact h

section Fmt

variable (printTable : Nat → Bool)

/-- Whitespace in front of a token is skipped. -/
theorem Lexer.NextToken_skip {input : GoString} {pos : Nat} {w rest : GoString}
    (hw : isLexSpace w = true) (hd : input.drop pos = w ++ rest) :
    Lexer.NextToken printTable ⟨input, pos⟩ =
      Lexer.NextToken printTable ⟨input, pos + w.length⟩ := by
  unfold Lexer.NextToken
  rw [Lexer.skipWhitespace_append hw hd]

theorem Lex_skip {input : GoString} {pos : Nat} {w rest : GoString} {t : Token}
    (hw : isLexSpace w = true) (hd : input.drop pos = w ++ rest)
    (h : Lex printTable input (pos + w.length) t) : Lex printTable input pos t := by
  unfold Lex at h ⊢
  rw [Lexer.NextToken_skip printTable hw hd, h]

/-- The end of the input, or a NUL byte, lexes as the EOF token. -/
theorem Lex_eof {input : GoString} {pos : Nat} (hd : headRune (input.drop pos) = 0) :
    Lex printTable input pos { Typ := TOKEN_EOF, Start := pos, End := pos } := by
  unfold Lex Lexer.NextToken
  rw [Lexer.skipWhitespace_none (by rw [hd]; rfl)]
  simp [Lexer.peek_eq, hd]

/-- An identifier followed by a byte that cannot continue it lexes as an IDENT
token with that text. -/
theorem Lex_ident {input : GoString} {pos : Nat} {k rest : GoString}
    (hk : isLexIdent k = true) (hd : input.drop pos = k ++ rest)
    (hr : ∀ b, rest.head? = some b → isIdentByte b = false) :
    Lex printTable input pos
      { Typ := TOKEN_IDENT, Value := k, Start := pos, End := pos + k.length } := by
  cases k with
  | nil => simp [isLexIdent] at hk
  | cons c cs =>
    simp only [isLexIdent, Bool.and_eq_true] at hk
    have hall : (c :: cs).all isIdentByte = true := by
      simp only [List.all_cons, Bool.and_eq_true]
      exact ⟨isLetter_imp_isIdentByte hk.1, hk.2⟩
    have hhead : headRune (input.drop pos) = c.val := by rw [hd]; rfl
    have hsp : unicodeIsSpace c.val = false := letter_not_space c hk.1
    have h0 : c.val ≠ 0 := by
      intro h0
      have := hk.1
      rw [h0] at this
      simp [isLetter, unicodeIsLetter] at this
    unfold Lex Lexer.NextToken
    rw [Lexer.skipWhitespace_none (by rw [hhead]; exact hsp)]
    have hhead2 : headRune (c :: cs ++ rest) = c.val := rfl
    simp only [Lexer.peek_eq, hd, hhead2, h0, if_false, hk.1, if_true, Lexer.lexIdent_eq,
      takeWhile_append_all _ _ _ hall, takeWhile_head_false _ _ hr, List.append_nil]

end Fmt

theorem Lexer.peek_drop {input : GoString} {pos : Nat} {b : Byte} {rest : GoString}
    (hd : input.drop pos = b :: rest) : Lexer.peek ⟨input, pos⟩ = b.val := by
  rw [Lexer.peek_eq]; simp only [hd, headRune]

theorem Lexer.peek_succ {input : GoString} {pos : Nat} {b : Byte} {rest : GoString}
    (hd : input.drop pos = b :: rest) : Lexer.peek ⟨input, pos + 1⟩ = headRune rest := by
  rw [Lexer.peek_eq]; simp only [(drop_cons_facts hd).2.1]

theorem Lexer.next_succ {input : GoString} {pos : Nat} {b c : Byte} {rest : GoString}
    (hd : input.drop pos = b :: c :: rest) :
    Lexer.next ⟨input, pos + 1⟩ = (c.val, ⟨input, pos + 1 + 1⟩) :=
  Lexer.next_cons (l := ⟨input, pos + 1⟩) (drop_cons_facts hd).2.1

theorem byteVal_34 : ((34 : Byte) : Nat) = 34 := rfl

theorem byteVal_124 : ((124 : Byte) : Nat) = 124 := rfl

theorem byteVal_38 : ((38 : Byte) : Nat) = 38 := rfl

theorem byteVal_58 : ((58 : Byte) : Nat) = 58 := rfl

theorem byteVal_61 : ((61 : Byte) : Nat) = 61 := rfl

theorem byteVal_33 : ((33 : Byte) : Nat) = 33 := rfl

theorem byteVal_40 : ((40 : Byte) : Nat) = 40 := rfl

theorem byteVal_41 : ((41 : Byte) : Nat) = 41 := rfl

theorem byteVal_91 : ((91 : Byte) : Nat) = 91 := rfl

theorem byteVal_93 : ((93 : Byte) : Nat) = 93 := rfl

theorem byteVal_44 : ((44 : Byte) : Nat) = 44 := rfl

section Fmt

variable (printTable : Nat → Bool)

/-- The bytes `||` lex as the OR token. -/
theorem Lex_or {input : GoString} {pos : Nat} {rest : GoString}
    (hd : input.drop pos = 124 :: 124 :: rest) :
    Lex printTable input pos
      { Typ := TOKEN_OR, Value := ascii "||", Start := pos, End := pos + 2 } := by
  unfold Lex Lexer.NextToken
  rw [Lexer.skipWhitespace_none (by rw [hd]; rfl)]
  simp [Lexer.peek_drop hd, Lexer.peek_succ hd, Lexer.next_cons (l := ⟨input, pos⟩) hd,
    Lexer.next_succ hd, headRune, isLetter, unicodeIsLetter, byteVal_124, byteVal_38,
    byteVal_58, byteVal_61]

/-- The bytes `&&` lex as the AND token. -/
theorem Lex_and {input : GoString} {pos : Nat} {rest : GoString}
    (hd : input.drop pos = 38 :: 38 :: rest) :
    Lex printTable input pos
      { Typ := TOKEN_AND, Value := ascii "&&", Start := pos, End := pos + 2 } := by
  unfold Lex Lexer.NextToken
  rw [Lexer.skipWhitespace_none (by rw [hd]; rfl)]
  simp [Lexer.peek_drop hd, Lexer.peek_succ hd, Lexer.next_cons (l := ⟨input, pos⟩) hd,
    Lexer.next_succ hd, headRune, isLetter, unicodeIsLetter, byteVal_124, byteVal_38,
    byteVal_58, byteVal_61]

/-- The bytes `:=` lex as the ASSIGN token. -/
theorem Lex_assign {input : GoString} {pos : Nat} {rest : GoString}
    (hd : input.drop pos = 58 :: 61 :: rest) :
    Lex printTable input pos
      { Typ := TOKEN_ASSIGN, Value := ascii ":=", Start := pos, End := pos + 2 } := by
  unfold Lex Lexer.NextToken
  rw [Lexer.skipWhitespace_none (by rw [hd]; rfl)]
  simp [Lexer.peek_drop hd, Lexer.peek_succ hd, Lexer.next_cons (l := ⟨input, pos⟩) hd,
    Lexer.next_succ hd, headRune, isLetter, unicodeIsLetter, byteVal_124, byteVal_38,
    byteVal_58, byteVal_61]

/-- A `:` that no `=` follows lexes as the COLON token. -/
theorem Lex_colon {input : GoString} {pos : Nat} {rest : GoString}
    (hd : input.drop pos = 58 :: rest) (hr : headRune rest ≠ 61) :
    Lex printTable input pos
      { Typ := TOKEN_COLON, Value := ascii ":", Start := pos, End := pos + 1 } := by
  unfold Lex Lexer.NextToken
  rw [Lexer.skipWhitespace_none (by rw [hd]; rfl)]
  simp [Lexer.peek_drop hd, Lexer.peek_succ hd, Lexer.next_cons (l := ⟨input, pos⟩) hd, hr,
    isLetter, unicodeIsLetter, byteVal_58]

/-- The byte `!` lexes as the NOT token. -/
theorem Lex_not {input : GoString} {pos : Nat} {rest : GoString}
    (hd : input.drop pos = 33 :: rest) :
    Lex printTable input pos
      { Typ := TOKEN_NOT, Value := ascii "!", Start := pos, End := pos + 1 } := by
  unfold Lex Lexer.NextToken
  rw [Lexer.skipWhitespace_none (by rw [hd]; rfl)]
  simp [Lexer.peek_drop hd, Lexer.next_cons (l := ⟨input, pos⟩) hd, isLetter, unicodeIsLetter,
    byteVal_33, byteVal_40, byteVal_41, byteVal_91, byteVal_93, byteVal_44]

/-- The byte `(` lexes as the LPAREN token. -/
theorem Lex_lparen {input : GoString} {pos : Nat} {rest : GoString}
    (hd : input.drop pos = 40 :: rest) :
    Lex printTable input pos
      { Typ := TOKEN_LPAREN, Value := ascii "(", Start := pos, End := pos + 1 } := by
  unfold Lex Lexer.NextToken
  rw [Lexer.skipWhitespace_none (by rw [hd]; rfl)]
  simp [Lexer.peek_drop hd, Lexer.next_cons (l := ⟨input, pos⟩) hd, isLetter, unicodeIsLetter,
    byteVal_33, byteVal_40, byteVal_41, byteVal_91, byteVal_93, byteVal_44]

/-- The byte `)` lexes as the RPAREN token. -/
theorem Lex_rparen {input : GoString} {pos : Nat} {rest : GoString}
    (hd : input.drop pos = 41 :: rest) :
    Lex printTable input pos
      { Typ := TOKEN_RPAREN, Value := ascii ")", Start := pos, End := pos + 1 } := by
  unfold Lex Lexer.NextToken
  rw [Lexer.skipWhitespace_none (by rw [hd]; rfl)]
  simp [Lexer.peek_drop hd, Lexer.next_cons (l := ⟨input, pos⟩) hd, isLetter, unicodeIsLetter,
    byteVal_33, byteVal_40, byteVal_41, byteVal_91, byteVal_93, byteVal_44]

/-- The byte `[` lexes as the LBRACKET token. -/
theorem Lex_lbracket {input : GoString} {pos : Nat} {rest : GoString}
    (hd : input.drop pos = 91 :: rest) :
    Lex printTable input pos
      { Typ := TOKEN_LBRACKET, Value := ascii "[", Start := pos, End := pos + 1 } := by
  unfold Lex Lexer.NextToken
  rw [Lexer.skipWhitespace_none (by rw [hd]; rfl)]
  simp [Lexer.peek_drop hd, Lexer.next_cons (l := ⟨input, pos⟩) hd, isLetter, unicodeIsLetter,
    byteVal_33, byteVal_40, byteVal_41, byteVal_91, byteVal_93, byteVal_44]

/-- The byte `]` lexes as the RBRACKET token. -/
theorem Lex_rbracket {input : GoString} {pos : Nat} {rest : GoString}
    (hd : input.drop pos = 93 :: rest) :
    Lex printTable input pos
      { Typ := TOKEN_RBRACKET, Value := ascii "]", Start := pos, End := pos + 1 } := by
  unfold Lex Lexer.NextToken
  rw [Lexer.skipWhitespace_none (by rw [hd]; rfl)]
  simp [Lexer.peek_drop hd, Lexer.next_cons (l := ⟨input, pos⟩) hd, isLetter, unicodeIsLetter,
    byteVal_33, byteVal_40, byteVal_41, byteVal_91, byteVal_93, byteVal_44]

/-- The byte `,` lexes as the COMMA token. -/
theorem Lex_comma {input : GoString} {pos : Nat} {rest : GoString}
    (hd : input.drop pos = 44 :: rest) :
    Lex printTable input pos
      { Typ := TOKEN_COMMA, Value := ascii ",", Start := pos, End := pos + 1 } := by
  unfold Lex Lexer.NextToken
  rw [Lexer.skipWhitespace_none (by rw [hd]; rfl)]
  simp [Lexer.peek_drop hd, Lexer.next_cons (l := ⟨input, pos⟩) hd, isLetter, unicodeIsLetter,
    byteVal_33, byteVal_40, byteVal_41, byteVal_91, byteVal_93, byteVal_44]

end Fmt

/-- The loop of `lexString` runs over a lexable body to just after the
closing quote. -/
theorem Lexer.lexStringLoop_body (v : GoString) :
    ∀ (fuel : Nat) (input : GoString) (pos : Nat) (rest : GoString),
      isStringBody v = true → input.drop pos = v ++ 34 :: rest → v.length + 1 ≤ fuel →
      Lexer.lexStringLoop fuel ⟨input, pos⟩ =
        (some ⟨input, pos + v.length + 1⟩, ⟨input, pos + v.length + 1⟩) := by
  induction v using isStringBody.induct with
  | case1 =>
    intro fuel input pos rest _ hd hf
    obtain ⟨fuel, rfl⟩ : ∃ k, fuel = k + 1 := ⟨fuel - 1, by omega⟩
    simp only [List.nil_append] at hd
    unfold Lexer.lexStringLoop
    rw [Lexer.next_cons (l := ⟨input, pos⟩) hd]
    simp [byteVal_34]
  | case2 c =>
    intro fuel input pos rest hv hd hf
    simp only [isStringBody, Bool.and_eq_true, bne_iff_ne, ne_eq] at hv
    simp only [List.length_singleton] at hf
    obtain ⟨fuel, rfl⟩ : ∃ k, fuel = k + 2 := ⟨fuel - 2, by omega⟩
    simp only [List.singleton_append] at hd
    have hd2 := (drop_cons_facts hd).2.1
    unfold Lexer.lexStringLoop
    rw [Lexer.next_cons (l := ⟨input, pos⟩) hd]
    simp only [hv.1.1, hv.1.2, hv.2, if_false]
    unfold Lexer.lexStringLoop
    rw [Lexer.next_cons (l := ⟨input, pos + 1⟩) hd2]
    simp [byteVal_34]
  | case3 c d rest2 hc ih =>
    intro fuel input pos rest hv hd hf
    simp only [isStringBody, hc, if_true] at hv
    simp only [List.length_cons] at hf
    obtain ⟨fuel, rfl⟩ : ∃ k, fuel = k + 1 := ⟨fuel - 1, by omega⟩
    simp only [List.cons_append] at hd
    have hd2 := (drop_cons_facts hd).2.1
    have hd3 := (drop_cons_facts hd2).2.1
    unfold Lexer.lexStringLoop
    rw [Lexer.next_cons (l := ⟨input, pos⟩) hd]
    simp only [hc, if_true]
    rw [Lexer.next_cons (l := ⟨input, pos + 1⟩) hd2]
    simp only
    rw [ih fuel input (pos + 1 + 1) rest hv hd3 (by omega)]
    have e : pos + 1 + 1 + rest2.length + 1 = pos + (c :: d :: rest2).length + 1 := by
      simp only [List.length_cons]; omega
    rw [e]
    simp
  | case4 c d rest2 hc ih =>
    intro fuel input pos rest hv hd hf
    simp only [isStringBody, hc, if_false, Bool.and_eq_true, bne_iff_ne, ne_eq] at hv
    simp only [List.length_cons] at hf
    obtain ⟨fuel, rfl⟩ : ∃ k, fuel = k + 1 := ⟨fuel - 1, by omega⟩
    simp only [List.cons_append] at hd
    have hd2 := (drop_cons_facts hd).2.1
    unfold Lexer.lexStringLoop
    rw [Lexer.next_cons (l := ⟨input, pos⟩) hd]
    simp only [hv.1.1, hv.1.2, hc, if_false]
    rw [ih fuel input (pos + 1) rest hv.2 hd2 (by simp only [List.length_cons]; omega)]
    have e : pos + 1 + (d :: rest2).length + 1 = pos + (c :: d :: rest2).length + 1 := by
      simp only [List.length_cons]; omega
    rw [e]

section Fmt

variable (printTable : Nat → Bool)

/-- A quoted lexable body lexes as a STRING token whose text is the body. -/
theorem Lex_string {input : GoString} {pos : Nat} {v rest : GoString}
    (hv : isStringBody v = true) (hd : input.drop pos = quoted v ++ rest) :
    Lex printTable input pos
      { Typ := TOKEN_STRING, Value := v, Start := pos, End := pos + (v.length + 2) } := by
  have hd1 : input.drop pos = 34 :: (v ++ 34 :: rest) := by
    rw [hd]; simp [quoted]
  have hd2 := (drop_cons_facts hd1).2.1
  have hlen : pos + 1 + v.length + 1 ≤ input.length := by
    have := congrArg List.length hd1
    simp only [List.length_drop, List.length_cons, List.length_append] at this
    omega
  unfold Lex Lexer.NextToken
  rw [Lexer.skipWhitespace_none (by rw [hd1]; rfl)]
  simp only [Lexer.peek_drop hd1]
  rw [byteVal_34, if_neg (by decide), if_neg (by decide), if_pos rfl]
  unfold Lexer.lexString
  rw [Lexer.next_cons (l := ⟨input, pos⟩) hd1]
  simp only
  rw [Lexer.lexStringLoop_body v _ input (pos + 1) rest hv hd2 (by omega)]
  simp only [slice, hd2]
  have e1 : pos + 1 + v.length + 1 - 1 - (pos + 1) = v.length := by omega
  have e2 : pos + 1 + v.length + 1 = pos + (v.length + 2) := by omega
  rw [e1, e2]
  simp

end Fmt

/-! ### Parser on given tokens -/

theorem isOperator_cases {op : GoString} (h : isOperator op = true) :
    op = ascii ":" ∨ op = ascii ":=" := by
  simpa [isOperator] using h

theorem notIdent_head (w op rest : GoString) (hw : isLexSpace w = true)
    (hop : isOperator op = true) :
    ∀ b, (w ++ (op ++ rest)).head? = some b → isIdentByte b = false := by
  intro b hb
  cases w with
  | nil =>
    rcases isOperator_cases hop with h | h <;> subst h <;>
      (simp only [List.nil_append] at hb
       have : b = 58 := by
         have := hb
         simp [ascii] at this
         exact this.symm
       subst this
       decide)
  | cons c cs =>
    simp only [List.cons_append, List.head?_cons, Option.some.injEq] at hb
    subst hb
    simp only [isLexSpace, List.all_cons, Bool.and_eq_true] at hw
    exact space_not_ident _ hw.1

section Fmt

variable (printTable : Nat → Bool)

/-- In a state without error, `nextToken` moves to the token the lexer finds
after the current one. -/
theorem Parser.nextToken_stateAt (input : GoString) (prev cur tok : Token)
    (h : Lex printTable input cur.End tok) :
    (stateAt input prev cur).nextToken printTable = stateAt input cur tok := by
  unfold Lex at h
  simp [Parser.nextToken, stateAt, h]

theorem NewParser_stateAt (input : GoString) (tok : Token) (h : Lex printTable input 0 tok) :
    NewParser printTable input = stateAt input {} tok :=
  Parser.nextToken_stateAt printTable input {} {} tok h

/-- An identifier after whitespace, followed by a byte that cannot continue
it. -/
theorem Lex_ident_ws {input : GoString} {pos : Nat} {w0 k rest : GoString}
    (hw0 : isLexSpace w0 = true) (hk : isLexIdent k = true)
    (hd : input.drop pos = w0 ++ (k ++ rest))
    (hr : ∀ b, rest.head? = some b → isIdentByte b = false) :
    Lex printTable input pos (identTok k (pos + w0.length)) :=
  Lex_skip printTable hw0 hd (Lex_ident printTable hk (drop_append_facts hd) hr)

/-- An operator after whitespace, not followed by `=`. -/
theorem Lex_op_ws {input : GoString} {pos : Nat} {w op rest : GoString}
    (hw : isLexSpace w = true) (hop : isOperator op = true)
    (hd : input.drop pos = w ++ (op ++ rest)) (hr : headRune rest ≠ 61) :
    Lex printTable input pos (opTok op (pos + w.length)) := by
  apply Lex_skip printTable hw hd
  have hd2 := drop_append_facts hd
  rcases isOperator_cases hop with h | h <;> subst h
  · exact Lex_colon printTable
      (show input.drop (pos + w.length) = 58 :: rest by simpa [ascii] using hd2) hr
  · exact Lex_assign printTable
      (show input.drop (pos + w.length) = 58 :: 61 :: rest by simpa [ascii] using hd2)

end Fmt

theorem matchAtom_length (k w op v : GoString) :
    (matchAtom k w op v).length = k.length + w.length + op.length + (v.length + 2) := by
  simp [matchAtom, quoted]; omega

theorem opTok_typ {op : GoString} (hop : isOperator op = true) :
    (opType op = TOKEN_COLON ∨ opType op = TOKEN_ASSIGN) ∧ opType op ≠ 0 := by
  rcases isOperator_cases hop with h | h <;> subst h <;> simp [opType, ascii]

section Fmt

variable (printTable : Nat → Bool)

/-- A match atom parses to its MATCH node: with the key as current token and
the rest of the atom in front of the lexer, `parseAtom` returns the node and
stands at the token `next` that follows the atom. -/
theorem Parser.parseAtom_match (fuel : Nat) (hf : 1 ≤ fuel) (input : GoString) (prev next : Token) (s : Nat)
    (k w op v rest : GoString) (hw : isLexSpace w = true)
    (hop : isOperator op = true) (hv : isStringBody v = true)
    (hd : input.drop s = matchAtom k w op v ++ rest)
    (hnext : Lex printTable input (s + (matchAtom k w op v).length) next) :
    Parser.parseAtom printTable fuel (stateAt input prev (identTok k s)) =
      some (mkMatch k op v,
        stateAt input (stringTok v (s + k.length + w.length + op.length)) next) := by
  have hd0 : input.drop s = k ++ (w ++ (op ++ (quoted v ++ rest))) := by
    rw [hd]; simp [matchAtom]
  have hd1 := drop_append_facts hd0
  have hq : headRune (quoted v ++ rest) ≠ 61 := by simp [quoted, headRune, byteVal_34]
  have hl1 : Lex printTable input (identTok k s).End (opTok op (s + k.length + w.length)) :=
    Lex_op_ws printTable hw hop hd1 hq
  have hd2 : input.drop (s + k.length + w.length + op.length) = quoted v ++ rest :=
    drop_append_facts (drop_append_facts hd1)
  have hl2 : Lex printTable input (opTok op (s + k.length + w.length)).End
      (stringTok v (s + k.length + w.length + op.length)) :=
    Lex_string printTable hv hd2
  have hl3 : Lex printTable input (stringTok v (s + k.length + w.length + op.length)).End
      next := by
    have e : (stringTok v (s + k.length + w.length + op.length)).End =
        s + (matchAtom k w op v).length := by
      simp only [stringTok, matchAtom_length]; omega
    rw [e]; exact hnext
  have ht := opTok_typ hop
  obtain ⟨n, rfl⟩ : ∃ n, fuel = n + 1 := ⟨fuel - 1, by omega⟩
  rw [Parser.parseAtom]
  have c1 : (stateAt input prev (identTok k s)).curTok.Typ = TOKEN_IDENT := rfl
  rw [if_neg (by rw [c1]; decide), if_pos c1]
  simp only [Parser.nextToken_stateAt printTable _ _ _ _ hl1]
  have c2 : (stateAt input (identTok k s) (opTok op (s + k.length + w.length))).curTok.Typ
      = opType op := rfl
  rw [if_neg (by rw [c2]; rcases ht.1 with h | h <;> rw [h] <;> decide)]
  simp only [Parser.nextToken_stateAt printTable _ _ _ _ hl2]
  have c3 : (stateAt input (opTok op (s + k.length + w.length))
      (stringTok v (s + k.length + w.length + op.length))).noSpaceBetweenTokens = true := by
    simp [Parser.noSpaceBetweenTokens, stateAt, opTok, stringTok]
  rw [if_neg (by rw [c3]; decide)]
  have c4 : (stateAt input (opTok op (s + k.length + w.length))
      (stringTok v (s + k.length + w.length + op.length))).curTok.Typ = TOKEN_STRING := rfl
  rw [if_pos c4]
  simp only [Parser.nextToken_stateAt printTable _ _ _ _ hl3]
  rfl

end Fmt

/-! ### Runs of the grammar functions -/

section Fmt

variable (printTable : Nat → Bool)

theorem Runs.atom_match (input : GoString) (prev next : Token) (s : Nat)
    (k w op v rest : GoString) (hw : isLexSpace w = true)
    (hop : isOperator op = true) (hv : isStringBody v = true)
    (hd : input.drop s = matchAtom k w op v ++ rest)
    (hnext : Lex printTable input (s + (matchAtom k w op v).length) next) :
    Runs (Parser.parseAtom printTable) (stateAt input prev (identTok k s)) (mkMatch k op v)
      (stateAt input (stringTok v (s + k.length + w.length + op.length)) next) :=
  ⟨1, Parser.parseAtom_match printTable 1 (Nat.le_refl 1) input prev next s k w op v rest hw hop hv
    hd hnext⟩

/-- The rule for `parseAtom` on a parenthesised expression. -/
theorem Runs.atom_paren {p q : Parser} {e : Expr}
    (h : Runs (Parser.parseExpression printTable) (p.nextToken printTable) e q)
    (hp : p.curTok.Typ = TOKEN_LPAREN) (hq : q.curTok.Typ = TOKEN_RPAREN) :
    Runs (Parser.parseAtom printTable) p e (q.nextToken printTable) := by
  obtain ⟨n, hn⟩ := h
  refine ⟨n + 1, ?_⟩
  rw [Parser.parseAtom, if_pos hp]
  simp only [hn]
  rw [if_neg (by simp [hq])]

/-- The rule for `parseNot` without a `!`. -/
theorem Runs.not_atom {p q : Parser} {e : Expr}
    (h : Runs (Parser.parseAtom printTable) p e q) (hp : p.curTok.Typ ≠ TOKEN_NOT) :
    Runs (Parser.parseNot printTable) p e q := by
  obtain ⟨n, hn⟩ := h
  refine ⟨n + 1, ?_⟩
  rw [Parser.parseNot, if_neg hp, hn]

/-- The rule for `parseNot` on a `!`. -/
theorem Runs.not_bang {p q : Parser} {e : Expr}
    (h : Runs (Parser.parseAtom printTable) (p.nextToken printTable) e q)
    (hp : p.curTok.Typ = TOKEN_NOT) :
    Runs (Parser.parseNot printTable) p (mkNot e) q := by
  obtain ⟨n, hn⟩ := h
  refine ⟨n + 1, ?_⟩
  rw [Parser.parseNot, if_pos hp]
  simp only [hn]
  rfl

/-- The loop of `parseAnd` ends when the current token is not `&&`. -/
theorem Runs.andLoop_stop (left : Expr) {p : Parser} (hp : p.curTok.Typ ≠ TOKEN_AND) :
    Runs (fun n => Parser.parseAndLoop printTable n left) p left p := by
  refine ⟨1, ?_⟩
  simp only
  rw [Parser.parseAndLoop, if_neg (fun h => hp h.1)]

/-- One iteration of the loop of `parseAnd`. -/
theorem Runs.andLoop_step {left right e : Expr} {p q1 q : Parser}
    (h1 : Runs (Parser.parseNot printTable) (p.nextToken printTable) right q1)
    (h2 : Runs (fun n => Parser.parseAndLoop printTable n (mkAnd left right)) q1 e q)
    (hp : p.curTok.Typ = TOKEN_AND) (he : p.err = none) :
    Runs (fun n => Parser.parseAndLoop printTable n left) p e q := by
  obtain ⟨n1, hn1⟩ := h1
  obtain ⟨n2, hn2⟩ := h2
  refine ⟨max n1 n2 + 1, ?_⟩
  simp only at hn2 ⊢
  rw [Parser.parseAndLoop, if_pos ⟨hp, he⟩]
  rw [(Parser.parse_mono printTable n1).2.2.2.2.2.1 _ _ hn1 _ (Nat.le_max_left _ _)]
  simp only
  exact (Parser.parse_mono printTable n2).2.2.2.2.1 _ _ _ hn2 _ (Nat.le_max_right _ _)

/-- The function `parseAnd` is `parseNot` followed by the loop. -/
theorem Runs.and_of {left e : Expr} {p q1 q : Parser}
    (h1 : Runs (Parser.parseNot printTable) p left q1)
    (h2 : Runs (fun n => Parser.parseAndLoop printTable n left) q1 e q) :
    Runs (Parser.parseAnd printTable) p e q := by
  obtain ⟨n1, hn1⟩ := h1
  obtain ⟨n2, hn2⟩ := h2
  refine ⟨max n1 n2 + 1, ?_⟩
  simp only at hn2
  rw [Parser.parseAnd]
  rw [(Parser.parse_mono printTable n1).2.2.2.2.2.1 _ _ hn1 _ (Nat.le_max_left _ _)]
  simp only
  exact (Parser.parse_mono printTable n2).2.2.2.2.1 _ _ _ hn2 _ (Nat.le_max_right _ _)

/-- The loop of `parseOr` ends when the current token is not `||`. -/
theorem Runs.orLoop_stop (left : Expr) {p : Parser} (hp : p.curTok.Typ ≠ TOKEN_OR) :
    Runs (fun n => Parser.parseOrLoop printTable n left) p left p := by
  refine ⟨1, ?_⟩
  simp only
  rw [Parser.parseOrLoop, if_neg (fun h => hp h.1)]

/-- One iteration of the loop of `parseOr`. -/
theorem Runs.orLoop_step {left right e : Expr} {p q1 q : Parser}
    (h1 : Runs (Parser.parseAnd printTable) (p.nextToken printTable) right q1)
    (h2 : Runs (fun n => Parser.parseOrLoop printTable n (mkOr left right)) q1 e q)
    (hp : p.curTok.Typ = TOKEN_OR) (he : p.err = none) :
    Runs (fun n => Parser.parseOrLoop printTable n left) p e q := by
  obtain ⟨n1, hn1⟩ := h1
  obtain ⟨n2, hn2⟩ := h2
  refine ⟨max n1 n2 + 1, ?_⟩
  simp only at hn2 ⊢
  rw [Parser.parseOrLoop, if_pos ⟨hp, he⟩]
  rw [(Parser.parse_mono printTable n1).2.2.2.1 _ _ hn1 _ (Nat.le_max_left _ _)]
  simp only
  exact (Parser.parse_mono printTable n2).2.2.1 _ _ _ hn2 _ (Nat.le_max_right _ _)

/-- The function `parseExpression` is `parseAnd` followed by the loop of `parseOr`. -/
theorem Runs.expr_of {left e : Expr} {p q1 q : Parser}
    (h1 : Runs (Parser.parseAnd printTable) p left q1)
    (h2 : Runs (fun n => Parser.parseOrLoop printTable n left) q1 e q) :
    Runs (Parser.parseExpression printTable) p e q := by
  obtain ⟨n1, hn1⟩ := h1
  obtain ⟨n2, hn2⟩ := h2
  refine ⟨max n1 n2 + 2, ?_⟩
  simp only at hn2
  rw [Parser.parseExpression, Parser.parseOr]
  rw [(Parser.parse_mono printTable n1).2.2.2.1 _ _ hn1 _ (Nat.le_max_left _ _)]
  simp only
  exact (Parser.parse_mono printTable n2).2.2.1 _ _ _ hn2 _ (Nat.le_max_right _ _)

/-- What `Parse` returns when `parseExpression` returns `e` in state `q`. -/
theorem Parse_of_runs {input : GoString} {e : Expr} {q : Parser}
    (h : Runs (Parser.parseExpression printTable) (NewParser printTable input) e q) :
    Parse printTable input =
      some (if q.err ≠ none then (.nil, q.err)
        else if q.curTok.Typ ≠ TOKEN_EOF then
          (.nil, (q.errorf (ascii "unexpected trailing token " ++
            fmtQ printTable q.curTok.Value ++ ascii " at position " ++
            fmtD q.curTok.Start)).err)
        else (e, none)) := by
  obtain ⟨n, hn⟩ := h
  obtain ⟨e2, q2, h2, _⟩ := Parse_fuel printTable input
  have m1 := (Parser.parse_mono printTable n).1 _ _ hn _ (Nat.le_max_left n (parseFuel input))
  have m2 := (Parser.parse_mono printTable _).1 _ _ h2 _ (Nat.le_max_right n (parseFuel input))
  rw [m1] at m2
  simp only [Option.some.injEq, Prod.mk.injEq] at m2
  obtain ⟨rfl, rfl⟩ := m2
  unfold Parse Parser.Parse
  simp only [h2]
  split_ifs <;> rfl

/-- The function `Parse` accepts when `parseExpression` ends without error at the EOF
token. -/
theorem Parse_accept_of_runs {input : GoString} {e : Expr} {prev : Token} {s : Nat}
    (h : Runs (Parser.parseExpression printTable) (NewParser printTable input) e
      (stateAt input prev (eofTok s))) :
    Parse printTable input = some (e, none) := by
  rw [Parse_of_runs printTable h]
  simp [stateAt, eofTok]

end Fmt

theorem stringTok_atom (k w op v : GoString) (s : Nat) :
    stringTok v (s + k.length + w.length + op.length) = atomStringTok k w op v s := by
  simp only [stringTok, atomStringTok, matchAtom_length, Token.mk.injEq, true_and]
  omega

theorem isLexSpace_space : isLexSpace (ascii " ") = true := by decide

theorem isLexSpace_nil : isLexSpace [] = true := rfl

section Fmt

variable (printTable : Nat → Bool)

/-- After whitespace, `||` lexes as the OR token. -/
theorem Lex_or_ws {input : GoString} {pos : Nat} {w rest : GoString}
    (hw : isLexSpace w = true) (hd : input.drop pos = w ++ (ascii "||" ++ rest)) :
    Lex printTable input pos (punctTok TOKEN_OR (ascii "||") (pos + w.length)) :=
  Lex_skip printTable hw hd (Lex_or printTable (drop_append_facts hd))

/-- After whitespace, `&&` lexes as the AND token. -/
theorem Lex_and_ws {input : GoString} {pos : Nat} {w rest : GoString}
    (hw : isLexSpace w = true) (hd : input.drop pos = w ++ (ascii "&&" ++ rest)) :
    Lex printTable input pos (punctTok TOKEN_AND (ascii "&&") (pos + w.length)) :=
  Lex_skip printTable hw hd (Lex_and printTable (drop_append_facts hd))

/-- After whitespace, `!` lexes as the NOT token. -/
theorem Lex_not_ws {input : GoString} {pos : Nat} {w rest : GoString}
    (hw : isLexSpace w = true) (hd : input.drop pos = w ++ (ascii "!" ++ rest)) :
    Lex printTable input pos (punctTok TOKEN_NOT (ascii "!") (pos + w.length)) :=
  Lex_skip printTable hw hd (Lex_not printTable (drop_append_facts hd))

/-- After whitespace, `(` lexes as the LPAREN token. -/
theorem Lex_lparen_ws {input : GoString} {pos : Nat} {w rest : GoString}
    (hw : isLexSpace w = true) (hd : input.drop pos = w ++ (ascii "(" ++ rest)) :
    Lex printTable input pos (punctTok TOKEN_LPAREN (ascii "(") (pos + w.length)) :=
  Lex_skip printTable hw hd (Lex_lparen printTable (drop_append_facts hd))

/-- After whitespace, `)` lexes as the RPAREN token. -/
theorem Lex_rparen_ws {input : GoString} {pos : Nat} {w rest : GoString}
    (hw : isLexSpace w = true) (hd : input.drop pos = w ++ (ascii ")" ++ rest)) :
    Lex printTable input pos (punctTok TOKEN_RPAREN (ascii ")") (pos + w.length)) :=
  Lex_skip printTable hw hd (Lex_rparen printTable (drop_append_facts hd))

/-- After whitespace, `[` lexes as the LBRACKET token. -/
theorem Lex_lbracket_ws {input : GoString} {pos : Nat} {w rest : GoString}
    (hw : isLexSpace w = true) (hd : input.drop pos = w ++ (ascii "[" ++ rest)) :
    Lex printTable input pos (punctTok TOKEN_LBRACKET (ascii "[") (pos + w.length)) :=
  Lex_skip printTable hw hd (Lex_lbracket printTable (drop_append_facts hd))

/-- After whitespace, `]` lexes as the RBRACKET token. -/
theorem Lex_rbracket_ws {input : GoString} {pos : Nat} {w rest : GoString}
    (hw : isLexSpace w = true) (hd : input.drop pos = w ++ (ascii "]" ++ rest)) :
    Lex printTable input pos (punctTok TOKEN_RBRACKET (ascii "]") (pos + w.length)) :=
  Lex_skip printTable hw hd (Lex_rbracket printTable (drop_append_facts hd))

/-- After whitespace, `,` lexes as the COMMA token. -/
theorem Lex_comma_ws {input : GoString} {pos : Nat} {w rest : GoString}
    (hw : isLexSpace w = true) (hd : input.drop pos = w ++ (ascii "," ++ rest)) :
    Lex printTable input pos (punctTok TOKEN_COMMA (ascii ",") (pos + w.length)) :=
  Lex_skip printTable hw hd (Lex_comma printTable (drop_append_facts hd))

/-- After whitespace, a quoted lexable body lexes as a STRING token. -/
theorem Lex_string_ws {input : GoString} {pos : Nat} {w v rest : GoString}
    (hw : isLexSpace w = true) (hv : isStringBody v = true)
    (hd : input.drop pos = w ++ (quoted v ++ rest)) :
    Lex printTable input pos (stringTok v (pos + w.length)) :=
  Lex_skip printTable hw hd (Lex_string printTable hv (drop_append_facts hd))

/-- Whitespace up to the end of the input lexes as the EOF token. -/
theorem Lex_eof_ws {input : GoString} {pos : Nat} {w : GoString}
    (hw : isLexSpace w = true) (hd : input.drop pos = w) :
    Lex printTable input pos (eofTok (pos + w.length)) := by
  have hd1 : input.drop pos = w ++ [] := by rw [hd]; simp
  exact Lex_skip printTable hw hd1 (Lex_eof printTable (by rw [drop_append_facts hd1]; rfl))

/-- When the lexer finds `tok` after the current token, a run from the state
at `tok` is a run from the state `nextToken` produces. -/
theorem Runs.of_next {f : Nat → Parser → Option (Expr × Parser)} {input : GoString}
    {pp cur tok : Token} {e : Expr} {q : Parser} (hl : Lex printTable input cur.End tok)
    (h : Runs f (stateAt input cur tok) e q) :
    Runs f ((stateAt input pp cur).nextToken printTable) e q := by
  rw [Parser.nextToken_stateAt printTable input pp cur tok hl]
  exact h

/-- A match atom after the current token parses to its MATCH node:
`nextToken` reaches the key, and `parseAtom` returns the node and stands at
the token `next` that follows the atom. -/
theorem Runs.atom_match_after (input : GoString) (pp cur next : Token)
    (w0 k w op v rest : GoString) (hw0 : isLexSpace w0 = true)
    (hk : isLexIdent k = true) (hw : isLexSpace w = true)
    (hop : isOperator op = true) (hv : isStringBody v = true)
    (hd : input.drop cur.End = w0 ++ (matchAtom k w op v ++ rest))
    (hnext : Lex printTable input (cur.End + w0.length + (matchAtom k w op v).length) next) :
    Runs (Parser.parseAtom printTable) ((stateAt input pp cur).nextToken printTable)
      (mkMatch k op v)
      (stateAt input (atomStringTok k w op v (cur.End + w0.length)) next) := by
  have hd1 : input.drop cur.End = w0 ++ (k ++ (w ++ (op ++ (quoted v ++ rest)))) := by
    rw [hd]; simp [matchAtom]
  have hl0 : Lex printTable input cur.End (identTok k (cur.End + w0.length)) :=
    Lex_ident_ws printTable hw0 hk hd1 (notIdent_head w op _ hw hop)
  refine Runs.of_next printTable hl0 ?_
  rw [← stringTok_atom]
  exact Runs.atom_match printTable input cur next _ k w op v rest hw hop hv
    (drop_append_facts hd) hnext

/-- The same for `parseNot`, the key not being a `!`. -/
theorem Runs.not_match_after (input : GoString) (pp cur next : Token)
    (w0 k w op v rest : GoString) (hw0 : isLexSpace w0 = true)
    (hk : isLexIdent k = true) (hw : isLexSpace w = true)
    (hop : isOperator op = true) (hv : isStringBody v = true)
    (hd : input.drop cur.End = w0 ++ (matchAtom k w op v ++ rest))
    (hnext : Lex printTable input (cur.End + w0.length + (matchAtom k w op v).length) next) :
    Runs (Parser.parseNot printTable) ((stateAt input pp cur).nextToken printTable)
      (mkMatch k op v)
      (stateAt input (atomStringTok k w op v (cur.End + w0.length)) next) := by
  have hd1 : input.drop cur.End = w0 ++ (k ++ (w ++ (op ++ (quoted v ++ rest)))) := by
    rw [hd]; simp [matchAtom]
  have hl0 : Lex printTable input cur.End (identTok k (cur.End + w0.length)) :=
    Lex_ident_ws printTable hw0 hk hd1 (notIdent_head w op _ hw hop)
  refine Runs.not_atom printTable
    (Runs.atom_match_after printTable input pp cur next w0 k w op v rest hw0 hk hw hop hv hd
      hnext) ?_
  rw [Parser.nextToken_stateAt printTable input pp cur _ hl0]
  simp [stateAt, identTok]

/-- The rule for `parseAtom` on a parenthesised expression, from the `(` to the token
`next` after the `)`. -/
theorem Runs.atom_paren_state {input : GoString} {pp lp pq rp next : Token} {e : Expr}
    (h : Runs (Parser.parseExpression printTable) ((stateAt input pp lp).nextToken printTable) e
      (stateAt input pq rp))
    (hlp : lp.Typ = TOKEN_LPAREN) (hrp : rp.Typ = TOKEN_RPAREN)
    (hnext : Lex printTable input rp.End next) :
    Runs (Parser.parseAtom printTable) (stateAt input pp lp) e (stateAt input rp next) := by
  have := Runs.atom_paren printTable h hlp hrp
  rw [Parser.nextToken_stateAt printTable input pq rp next hnext] at this
  exact this

end Fmt

/-! ### Precedence, associativity and negation -/

theorem ascii_or_split : ascii " || " = ascii " " ++ (ascii "||" ++ ascii " ") := by decide

theorem ascii_and_split : ascii " && " = ascii " " ++ (ascii "&&" ++ ascii " ") := by decide

section Fmt

variable (printTable : Nat → Bool)

theorem NewParser_eq (input : GoString) :
    NewParser printTable input = (stateAt input {} {}).nextToken printTable := rfl

/-- When the lexer finds `tok` first, a run from the state at `tok` is a run
from the state `NewParser` produces. -/
theorem Runs.of_start {f : Nat → Parser → Option (Expr × Parser)} {input : GoString}
    {tok : Token} {e : Expr} {q : Parser} (hl : Lex printTable input ({} : Token).End tok)
    (h : Runs f (stateAt input {} tok) e q) :
    Runs f (NewParser printTable input) e q := by
  rw [NewParser_eq, Parser.nextToken_stateAt printTable input {} {} tok hl]
  exact h

/-- A match atom alone parses to its node. -/
theorem Parse_atom_alone (a : GoString) (A : Expr) (ha : IsMatchAtom a A) :
    Parse printTable a = some (A, none) := by
  obtain ⟨k, w, op, v, hk, hw, hop, hv, rfl, rfl⟩ := ha
  have hd0 : (matchAtom k w op v).drop ({} : Token).End = [] ++ (matchAtom k w op v ++ []) := by
    show List.drop 0 _ = _
    simp
  have hdE := drop_append_facts (drop_append_facts hd0)
  have lE := Lex_eof_ws printTable isLexSpace_nil hdE
  have rA := Runs.not_match_after printTable _ {} {} (eofTok _) [] k w op v [] rfl hk hw hop hv
    hd0 lE
  exact Parse_accept_of_runs printTable
    (Runs.expr_of printTable
      (Runs.and_of printTable rA (Runs.andLoop_stop printTable _ (by simp [stateAt, eofTok])))
      (Runs.orLoop_stop printTable _ (by simp [stateAt, eofTok])))

/-- The input `a || b && c` parses as `Or{A, And{B, C}}`. -/
theorem Parse_or_and (k1 w1 op1 v1 k2 w2 op2 v2 k3 w3 op3 v3 : GoString)
    (hk1 : isLexIdent k1 = true) (hw1 : isLexSpace w1 = true)
    (hop1 : isOperator op1 = true) (hv1 : isStringBody v1 = true)
    (hk2 : isLexIdent k2 = true) (hw2 : isLexSpace w2 = true)
    (hop2 : isOperator op2 = true) (hv2 : isStringBody v2 = true)
    (hk3 : isLexIdent k3 = true) (hw3 : isLexSpace w3 = true)
    (hop3 : isOperator op3 = true) (hv3 : isStringBody v3 = true) :
    Parse printTable (matchAtom k1 w1 op1 v1 ++ ascii " || " ++ matchAtom k2 w2 op2 v2 ++
        ascii " && " ++ matchAtom k3 w3 op3 v3) =
      some (mkOr (mkMatch k1 op1 v1) (mkAnd (mkMatch k2 op2 v2) (mkMatch k3 op3 v3)), none) := by
  generalize hin : matchAtom k1 w1 op1 v1 ++ ascii " || " ++ matchAtom k2 w2 op2 v2 ++
        ascii " && " ++ matchAtom k3 w3 op3 v3 = input
  have hd0 : input.drop ({} : Token).End = [] ++ (matchAtom k1 w1 op1 v1 ++
      (ascii " " ++ (ascii "||" ++ (ascii " " ++ (matchAtom k2 w2 op2 v2 ++
      (ascii " " ++ (ascii "&&" ++ (ascii " " ++ (matchAtom k3 w3 op3 v3 ++ []))))))))) := by
    show List.drop 0 _ = _
    rw [← hin, ascii_or_split, ascii_and_split]
    simp
  have hdA := drop_append_facts (drop_append_facts hd0)
  have lOr := Lex_or_ws printTable isLexSpace_space hdA
  have hdB := drop_append_facts (drop_append_facts hdA)
  have hdB2 := drop_append_facts (drop_append_facts hdB)
  have lAnd := Lex_and_ws printTable isLexSpace_space hdB2
  have hdC := drop_append_facts (drop_append_facts hdB2)
  have hdE := drop_append_facts (drop_append_facts hdC)
  have lE := Lex_eof_ws printTable isLexSpace_nil hdE
  exact Parse_accept_of_runs printTable
    (Runs.expr_of printTable
      (Runs.and_of printTable
        (Runs.not_match_after printTable input {} {} (punctTok TOKEN_OR (ascii "||") _) []
          k1 w1 op1 v1 _ rfl hk1 hw1 hop1 hv1 hd0 lOr)
        (Runs.andLoop_stop printTable _ (by simp [stateAt, punctTok])))
      (Runs.orLoop_step printTable
        (Runs.and_of printTable
          (Runs.not_match_after printTable input _ (punctTok TOKEN_OR (ascii "||") _)
            (punctTok TOKEN_AND (ascii "&&") _) (ascii " ")
            k2 w2 op2 v2 _ isLexSpace_space hk2 hw2 hop2 hv2 hdB lAnd)
          (Runs.andLoop_step printTable
            (Runs.not_match_after printTable input _ (punctTok TOKEN_AND (ascii "&&") _)
              (eofTok _) (ascii " ")
              k3 w3 op3 v3 _ isLexSpace_space hk3 hw3 hop3 hv3 hdC lE)
            (Runs.andLoop_stop printTable _ (by simp [stateAt, eofTok])) rfl rfl))
        (Runs.orLoop_stop printTable _ (by simp [stateAt, eofTok])) rfl rfl))

end Fmt

theorem ascii_bang_paren : ascii "!(" = ascii "!" ++ ascii "(" := by decide

section Fmt

variable (printTable : Nat → Bool)

/-- The input `a && b || c` parses as `Or{And{A, B}, C}`. -/
theorem Parse_and_or (k1 w1 op1 v1 k2 w2 op2 v2 k3 w3 op3 v3 : GoString)
    (hk1 : isLexIdent k1 = true) (hw1 : isLexSpace w1 = true)
    (hop1 : isOperator op1 = true) (hv1 : isStringBody v1 = true)
    (hk2 : isLexIdent k2 = true) (hw2 : isLexSpace w2 = true)
    (hop2 : isOperator op2 = true) (hv2 : isStringBody v2 = true)
    (hk3 : isLexIdent k3 = true) (hw3 : isLexSpace w3 = true)
    (hop3 : isOperator op3 = true) (hv3 : isStringBody v3 = true) :
    Parse printTable (matchAtom k1 w1 op1 v1 ++ ascii " && " ++ matchAtom k2 w2 op2 v2 ++
        ascii " || " ++ matchAtom k3 w3 op3 v3) =
      some (mkOr (mkAnd (mkMatch k1 op1 v1) (mkMatch k2 op2 v2)) (mkMatch k3 op3 v3), none) := by
  generalize hin : matchAtom k1 w1 op1 v1 ++ ascii " && " ++ matchAtom k2 w2 op2 v2 ++
        ascii " || " ++ matchAtom k3 w3 op3 v3 = input
  have hd0 : input.drop ({} : Token).End = [] ++ (matchAtom k1 w1 op1 v1 ++
      (ascii " " ++ (ascii "&&" ++ (ascii " " ++ (matchAtom k2 w2 op2 v2 ++
      (ascii " " ++ (ascii "||" ++ (ascii " " ++ (matchAtom k3 w3 op3 v3 ++ []))))))))) := by
    show List.drop 0 _ = _
    rw [← hin, ascii_or_split, ascii_and_split]
    simp
  have hdA := drop_append_facts (drop_append_facts hd0)
  have lAnd := Lex_and_ws printTable isLexSpace_space hdA
  have hdB := drop_append_facts (drop_append_facts hdA)
  have hdB2 := drop_append_facts (drop_append_facts hdB)
  have lOr := Lex_or_ws printTable isLexSpace_space hdB2
  have hdC := drop_append_facts (drop_append_facts hdB2)
  have hdE := drop_append_facts (drop_append_facts hdC)
  have lE := Lex_eof_ws printTable isLexSpace_nil hdE
  exact Parse_accept_of_runs printTable
    (Runs.expr_of printTable
      (Runs.and_of printTable
        (Runs.not_match_after printTable input {} {} (punctTok TOKEN_AND (ascii "&&") _) []
          k1 w1 op1 v1 _ rfl hk1 hw1 hop1 hv1 hd0 lAnd)
        (Runs.andLoop_step printTable
          (Runs.not_match_after printTable input _ (punctTok TOKEN_AND (ascii "&&") _)
            (punctTok TOKEN_OR (ascii "||") _) (ascii " ")
            k2 w2 op2 v2 _ isLexSpace_space hk2 hw2 hop2 hv2 hdB lOr)
          (Runs.andLoop_stop printTable _ (by simp [stateAt, punctTok])) rfl rfl))
      (Runs.orLoop_step printTable
        (Runs.and_of printTable
          (Runs.not_match_after printTable input _ (punctTok TOKEN_OR (ascii "||") _)
            (eofTok _) (ascii " ")
            k3 w3 op3 v3 _ isLexSpace_space hk3 hw3 hop3 hv3 hdC lE)
          (Runs.andLoop_stop printTable _ (by simp [stateAt, eofTok])))
        (Runs.orLoop_stop printTable _ (by simp [stateAt, eofTok])) rfl rfl))

/-- The input `a || b || c` parses as `Or{Or{A, B}, C}`. -/
theorem Parse_or_or (k1 w1 op1 v1 k2 w2 op2 v2 k3 w3 op3 v3 : GoString)
    (hk1 : isLexIdent k1 = true) (hw1 : isLexSpace w1 = true)
    (hop1 : isOperator op1 = true) (hv1 : isStringBody v1 = true)
    (hk2 : isLexIdent k2 = true) (hw2 : isLexSpace w2 = true)
    (hop2 : isOperator op2 = true) (hv2 : isStringBody v2 = true)
    (hk3 : isLexIdent k3 = true) (hw3 : isLexSpace w3 = true)
    (hop3 : isOperator op3 = true) (hv3 : isStringBody v3 = true) :
    Parse printTable (matchAtom k1 w1 op1 v1 ++ ascii " || " ++ matchAtom k2 w2 op2 v2 ++
        ascii " || " ++ matchAtom k3 w3 op3 v3) =
      some (mkOr (mkOr (mkMatch k1 op1 v1) (mkMatch k2 op2 v2)) (mkMatch k3 op3 v3), none) := by
  generalize hin : matchAtom k1 w1 op1 v1 ++ ascii " || " ++ matchAtom k2 w2 op2 v2 ++
        ascii " || " ++ matchAtom k3 w3 op3 v3 = input
  have hd0 : input.drop ({} : Token).End = [] ++ (matchAtom k1 w1 op1 v1 ++
      (ascii " " ++ (ascii "||" ++ (ascii " " ++ (matchAtom k2 w2 op2 v2 ++
      (ascii " " ++ (ascii "||" ++ (ascii " " ++ (matchAtom k3 w3 op3 v3 ++ []))))))))) := by
    show List.drop 0 _ = _
    rw [← hin, ascii_or_split]
    simp
  have hdA := drop_append_facts (drop_append_facts hd0)
  have lOr1 := Lex_or_ws printTable isLexSpace_space hdA
  have hdB := drop_append_facts (drop_append_facts hdA)
  have hdB2 := drop_append_facts (drop_append_facts hdB)
  have lOr2 := Lex_or_ws printTable isLexSpace_space hdB2
  have hdC := drop_append_facts (drop_append_facts hdB2)
  have hdE := drop_append_facts (drop_append_facts hdC)
  have lE := Lex_eof_ws printTable isLexSpace_nil hdE
  exact Parse_accept_of_runs printTable
    (Runs.expr_of printTable
      (Runs.and_of printTable
        (Runs.not_match_after printTable input {} {} (punctTok TOKEN_OR (ascii "||") _) []
          k1 w1 op1 v1 _ rfl hk1 hw1 hop1 hv1 hd0 lOr1)
        (Runs.andLoop_stop printTable _ (by simp [stateAt, punctTok])))
      (Runs.orLoop_step printTable
        (Runs.and_of printTable
          (Runs.not_match_after printTable input _ (punctTok TOKEN_OR (ascii "||") _)
            (punctTok TOKEN_OR (ascii "||") _) (ascii " ")
            k2 w2 op2 v2 _ isLexSpace_space hk2 hw2 hop2 hv2 hdB lOr2)
          (Runs.andLoop_stop printTable _ (by simp [stateAt, punctTok])))
        (Runs.orLoop_step printTable
          (Runs.and_of printTable
            (Runs.not_match_after printTable input _ (punctTok TOKEN_OR (ascii "||") _)
              (eofTok _) (ascii " ")
              k3 w3 op3 v3 _ isLexSpace_space hk3 hw3 hop3 hv3 hdC lE)
            (Runs.andLoop_stop printTable _ (by simp [stateAt, eofTok])))
          (Runs.orLoop_stop printTable _ (by simp [stateAt, eofTok])) rfl rfl) rfl rfl))

/-- The input `a && b && c` parses as `And{And{A, B}, C}`. -/
theorem Parse_and_and (k1 w1 op1 v1 k2 w2 op2 v2 k3 w3 op3 v3 : GoString)
    (hk1 : isLexIdent k1 = true) (hw1 : isLexSpace w1 = true)
    (hop1 : isOperator op1 = true) (hv1 : isStringBody v1 = true)
    (hk2 : isLexIdent k2 = true) (hw2 : isLexSpace w2 = true)
    (hop2 : isOperator op2 = true) (hv2 : isStringBody v2 = true)
    (hk3 : isLexIdent k3 = true) (hw3 : isLexSpace w3 = true)
    (hop3 : isOperator op3 = true) (hv3 : isStringBody v3 = true) :
    Parse printTable (matchAtom k1 w1 op1 v1 ++ ascii " && " ++ matchAtom k2 w2 op2 v2 ++
        ascii " && " ++ matchAtom k3 w3 op3 v3) =
      some (mkAnd (mkAnd (mkMatch k1 op1 v1) (mkMatch k2 op2 v2)) (mkMatch k3 op3 v3), none) := by
  generalize hin : matchAtom k1 w1 op1 v1 ++ ascii " && " ++ matchAtom k2 w2 op2 v2 ++
        ascii " && " ++ matchAtom k3 w3 op3 v3 = input
  have hd0 : input.drop ({} : Token).End = [] ++ (matchAtom k1 w1 op1 v1 ++
      (ascii " " ++ (ascii "&&" ++ (ascii " " ++ (matchAtom k2 w2 op2 v2 ++
      (ascii " " ++ (ascii "&&" ++ (ascii " " ++ (matchAtom k3 w3 op3 v3 ++ []))))))))) := by
    show List.drop 0 _ = _
    rw [← hin, ascii_and_split]
    simp
  have hdA := drop_append_facts (drop_append_facts hd0)
  have lAnd1 := Lex_and_ws printTable isLexSpace_space hdA
  have hdB := drop_append_facts (drop_append_facts hdA)
  have hdB2 := drop_append_facts (drop_append_facts hdB)
  have lAnd2 := Lex_and_ws printTable isLexSpace_space hdB2
  have hdC := drop_append_facts (drop_append_facts hdB2)
  have hdE := drop_append_facts (drop_append_facts hdC)
  have lE := Lex_eof_ws printTable isLexSpace_nil hdE
  exact Parse_accept_of_runs printTable
    (Runs.expr_of printTable
      (Runs.and_of printTable
        (Runs.not_match_after printTable input {} {} (punctTok TOKEN_AND (ascii "&&") _) []
          k1 w1 op1 v1 _ rfl hk1 hw1 hop1 hv1 hd0 lAnd1)
        (Runs.andLoop_step printTable
          (Runs.not_match_after printTable input _ (punctTok TOKEN_AND (ascii "&&") _)
            (punctTok TOKEN_AND (ascii "&&") _) (ascii " ")
            k2 w2 op2 v2 _ isLexSpace_space hk2 hw2 hop2 hv2 hdB lAnd2)
          (Runs.andLoop_step printTable
            (Runs.not_match_after printTable input _ (punctTok TOKEN_AND (ascii "&&") _)
              (eofTok _) (ascii " ")
              k3 w3 op3 v3 _ isLexSpace_space hk3 hw3 hop3 hv3 hdC lE)
            (Runs.andLoop_stop printTable _ (by simp [stateAt, eofTok])) rfl rfl) rfl rfl))
      (Runs.orLoop_stop printTable _ (by simp [stateAt, eofTok])))

/-- The input `!a && b` parses as `And{Not{A}, B}`. -/
theorem Parse_not_and (k1 w1 op1 v1 k2 w2 op2 v2 : GoString)
    (hk1 : isLexIdent k1 = true) (hw1 : isLexSpace w1 = true)
    (hop1 : isOperator op1 = true) (hv1 : isStringBody v1 = true)
    (hk2 : isLexIdent k2 = true) (hw2 : isLexSpace w2 = true)
    (hop2 : isOperator op2 = true) (hv2 : isStringBody v2 = true) :
    Parse printTable (ascii "!" ++ matchAtom k1 w1 op1 v1 ++ ascii " && " ++
        matchAtom k2 w2 op2 v2) =
      some (mkAnd (mkNot (mkMatch k1 op1 v1)) (mkMatch k2 op2 v2), none) := by
  generalize hin : ascii "!" ++ matchAtom k1 w1 op1 v1 ++ ascii " && " ++
        matchAtom k2 w2 op2 v2 = input
  have hd0 : input.drop ({} : Token).End = [] ++ (ascii "!" ++ ([] ++
      (matchAtom k1 w1 op1 v1 ++
      (ascii " " ++ (ascii "&&" ++ (ascii " " ++ (matchAtom k2 w2 op2 v2 ++ []))))))) := by
    show List.drop 0 _ = _
    rw [← hin, ascii_and_split]
    simp
  have lNot := Lex_not_ws printTable isLexSpace_nil hd0
  have hdA := drop_append_facts (drop_append_facts hd0)
  have hdA2 := drop_append_facts (drop_append_facts hdA)
  have lAnd := Lex_and_ws printTable isLexSpace_space hdA2
  have hdB := drop_append_facts (drop_append_facts hdA2)
  have hdE := drop_append_facts (drop_append_facts hdB)
  have lE := Lex_eof_ws printTable isLexSpace_nil hdE
  exact Parse_accept_of_runs printTable
    (Runs.expr_of printTable
      (Runs.and_of printTable
        (Runs.of_start printTable lNot
          (Runs.not_bang printTable
            (Runs.atom_match_after printTable input {} (punctTok TOKEN_NOT (ascii "!") _)
              (punctTok TOKEN_AND (ascii "&&") _) [] k1 w1 op1 v1 _ rfl hk1 hw1 hop1 hv1 hdA lAnd)
            rfl))
        (Runs.andLoop_step printTable
          (Runs.not_match_after printTable input _ (punctTok TOKEN_AND (ascii "&&") _)
            (eofTok _) (ascii " ")
            k2 w2 op2 v2 _ isLexSpace_space hk2 hw2 hop2 hv2 hdB lE)
          (Runs.andLoop_stop printTable _ (by simp [stateAt, eofTok])) rfl rfl))
      (Runs.orLoop_stop printTable _ (by simp [stateAt, eofTok])))

/-- The input `!(a && b)` parses as `Not{And{A, B}}`. -/
theorem Parse_not_paren (k1 w1 op1 v1 k2 w2 op2 v2 : GoString)
    (hk1 : isLexIdent k1 = true) (hw1 : isLexSpace w1 = true)
    (hop1 : isOperator op1 = true) (hv1 : isStringBody v1 = true)
    (hk2 : isLexIdent k2 = true) (hw2 : isLexSpace w2 = true)
    (hop2 : isOperator op2 = true) (hv2 : isStringBody v2 = true) :
    Parse printTable (ascii "!(" ++ matchAtom k1 w1 op1 v1 ++ ascii " && " ++
        matchAtom k2 w2 op2 v2 ++ ascii ")") =
      some (mkNot (mkAnd (mkMatch k1 op1 v1) (mkMatch k2 op2 v2)), none) := by
  generalize hin : ascii "!(" ++ matchAtom k1 w1 op1 v1 ++ ascii " && " ++
        matchAtom k2 w2 op2 v2 ++ ascii ")" = input
  have hd0 : input.drop ({} : Token).End = [] ++ (ascii "!" ++ ([] ++ (ascii "(" ++ ([] ++
      (matchAtom k1 w1 op1 v1 ++
      (ascii " " ++ (ascii "&&" ++ (ascii " " ++ (matchAtom k2 w2 op2 v2 ++
      ([] ++ (ascii ")" ++ []))))))))))) := by
    show List.drop 0 _ = _
    rw [← hin, ascii_and_split, ascii_bang_paren]
    simp
  have lNot := Lex_not_ws printTable isLexSpace_nil hd0
  have hdL := drop_append_facts (drop_append_facts hd0)
  have lLp := Lex_lparen_ws printTable isLexSpace_nil hdL
  have hdA := drop_append_facts (drop_append_facts hdL)
  have hdA2 := drop_append_facts (drop_append_facts hdA)
  have lAnd := Lex_and_ws printTable isLexSpace_space hdA2
  have hdB := drop_append_facts (drop_append_facts hdA2)
  have hdR := drop_append_facts (drop_append_facts hdB)
  have lRp := Lex_rparen_ws printTable isLexSpace_nil hdR
  have hdE := drop_append_facts (drop_append_facts hdR)
  have lE := Lex_eof_ws printTable isLexSpace_nil hdE
  exact Parse_accept_of_runs printTable
    (Runs.expr_of printTable
      (Runs.and_of printTable
        (Runs.of_start printTable lNot
          (Runs.not_bang printTable
            (Runs.of_next printTable lLp
              (Runs.atom_paren_state printTable
                (Runs.expr_of printTable
                  (Runs.and_of printTable
                    (Runs.not_match_after printTable input _ (punctTok TOKEN_LPAREN (ascii "(") _)
                      (punctTok TOKEN_AND (ascii "&&") _) [] k1 w1 op1 v1 _ rfl hk1 hw1 hop1 hv1
                      hdA lAnd)
                    (Runs.andLoop_step printTable
                      (Runs.not_match_after printTable input _
                        (punctTok TOKEN_AND (ascii "&&") _)
                        (punctTok TOKEN_RPAREN (ascii ")") _) (ascii " ")
                        k2 w2 op2 v2 _ isLexSpace_space hk2 hw2 hop2 hv2 hdB lRp)
                      (Runs.andLoop_stop printTable _ (by simp [stateAt, punctTok])) rfl rfl))
                  (Runs.orLoop_stop printTable _ (by simp [stateAt, punctTok])))
                rfl rfl lE))
            rfl))
        (Runs.andLoop_stop printTable _ (by simp [stateAt, eofTok])))
      (Runs.orLoop_stop printTable _ (by simp [stateAt, eofTok])))

/-- C5: AND binds tighter than OR. For any three match atoms `a`, `b`, `c`
with MATCH nodes `A`, `B`, `C` (each parsing alone to its node),
`a || b && c` parses as `Or{A, And{B, C}}` and `a && b || c` as
`Or{And{A, B}, C}`. -/
theorem Parse_precedence (a b c : GoString) (A B C : Expr)
    (ha : IsMatchAtom a A) (hb : IsMatchAtom b B) (hc : IsMatchAtom c C) :
    (Parse printTable a = some (A, none) ∧ Parse printTable b = some (B, none) ∧
      Parse printTable c = some (C, none)) ∧
    Parse printTable (a ++ ascii " || " ++ b ++ ascii " && " ++ c) =
      some (mkOr A (mkAnd B C), none) ∧
    Parse printTable (a ++ ascii " && " ++ b ++ ascii " || " ++ c) =
      some (mkOr (mkAnd A B) C, none) := by
  refine ⟨⟨Parse_atom_alone printTable a A ha, Parse_atom_alone printTable b B hb,
    Parse_atom_alone printTable c C hc⟩, ?_, ?_⟩
  · obtain ⟨k1, w1, op1, v1, hk1, hw1, hop1, hv1, rfl, rfl⟩ := ha
    obtain ⟨k2, w2, op2, v2, hk2, hw2, hop2, hv2, rfl, rfl⟩ := hb
    obtain ⟨k3, w3, op3, v3, hk3, hw3, hop3, hv3, rfl, rfl⟩ := hc
    exact Parse_or_and printTable k1 w1 op1 v1 k2 w2 op2 v2 k3 w3 op3 v3 hk1 hw1 hop1 hv1
      hk2 hw2 hop2 hv2 hk3 hw3 hop3 hv3
  · obtain ⟨k1, w1, op1, v1, hk1, hw1, hop1, hv1, rfl, rfl⟩ := ha
    obtain ⟨k2, w2, op2, v2, hk2, hw2, hop2, hv2, rfl, rfl⟩ := hb
    obtain ⟨k3, w3, op3, v3, hk3, hw3, hop3, hv3, rfl, rfl⟩ := hc
    exact Parse_and_or printTable k1 w1 op1 v1 k2 w2 op2 v2 k3 w3 op3 v3 hk1 hw1 hop1 hv1
      hk2 hw2 hop2 hv2 hk3 hw3 hop3 hv3

/-- C6: both connectives are left-associative. For any three match atoms
`a`, `b`, `c` with MATCH nodes `A`, `B`, `C`, `a || b || c` parses as
`Or{Or{A, B}, C}` and `a && b && c` as `And{And{A, B}, C}`. -/
theorem Parse_left_assoc (a b c : GoString) (A B C : Expr)
    (ha : IsMatchAtom a A) (hb : IsMatchAtom b B) (hc : IsMatchAtom c C) :
    Parse printTable (a ++ ascii " || " ++ b ++ ascii " || " ++ c) =
      some (mkOr (mkOr A B) C, none) ∧
    Parse printTable (a ++ ascii " && " ++ b ++ ascii " && " ++ c) =
      some (mkAnd (mkAnd A B) C, none) := by
  obtain ⟨k1, w1, op1, v1, hk1, hw1, hop1, hv1, rfl, rfl⟩ := ha
  obtain ⟨k2, w2, op2, v2, hk2, hw2, hop2, hv2, rfl, rfl⟩ := hb
  obtain ⟨k3, w3, op3, v3, hk3, hw3, hop3, hv3, rfl, rfl⟩ := hc
  exact ⟨Parse_or_or printTable k1 w1 op1 v1 k2 w2 op2 v2 k3 w3 op3 v3 hk1 hw1 hop1 hv1
      hk2 hw2 hop2 hv2 hk3 hw3 hop3 hv3,
    Parse_and_and printTable k1 w1 op1 v1 k2 w2 op2 v2 k3 w3 op3 v3 hk1 hw1 hop1 hv1
      hk2 hw2 hop2 hv2 hk3 hw3 hop3 hv3⟩

/-- C7: negation applies to the atom that follows it only. For any two match
atoms `a`, `b` with MATCH nodes `A`, `B`, `!a && b` parses as
`And{Not{A}, B}` and `!(a && b)` as `Not{And{A, B}}`. -/
theorem Parse_negation_scope (a b : GoString) (A B : Expr)
    (ha : IsMatchAtom a A) (hb : IsMatchAtom b B) :
    Parse printTable (ascii "!" ++ a ++ ascii " && " ++ b) =
      some (mkAnd (mkNot A) B, none) ∧
    Parse printTable (ascii "!(" ++ a ++ ascii " && " ++ b ++ ascii ")") =
      some (mkNot (mkAnd A B), none) := by
  obtain ⟨k1, w1, op1, v1, hk1, hw1, hop1, hv1, rfl, rfl⟩ := ha
  obtain ⟨k2, w2, op2, v2, hk2, hw2, hop2, hv2, rfl, rfl⟩ := hb
  exact ⟨Parse_not_and printTable k1 w1 op1 v1 k2 w2 op2 v2 hk1 hw1 hop1 hv1 hk2 hw2 hop2 hv2,
    Parse_not_paren printTable k1 w1 op1 v1 k2 w2 op2 v2 hk1 hw1 hop1 hv1 hk2 hw2 hop2 hv2⟩

end Fmt

/-- The text `key:"value"` is a match atom. -/
theorem IsMatchAtom.of_parts (k op v : GoString) (hk : isLexIdent k = true)
    (hop : isOperator op = true) (hv : isStringBody v = true) :
    IsMatchAtom (k ++ op ++ quoted v) (mkMatch k op v) :=
  ⟨k, [], op, v, hk, rfl, hop, hv, by simp [matchAtom], rfl⟩

/-- Witness of C5: `a:"1" || b:"2" && c:"3"` and `a:"1" && b:"2" || c:"3"`. -/
theorem Parse_precedence_witness :
    Parse noWidePrint (ascii "a:\"1\" || b:\"2\" && c:\"3\"") =
      some (mkOr (mkMatch (ascii "a") (ascii ":") (ascii "1"))
        (mkAnd (mkMatch (ascii "b") (ascii ":") (ascii "2"))
          (mkMatch (ascii "c") (ascii ":") (ascii "3"))), none) ∧
    Parse noWidePrint (ascii "a:\"1\" && b:\"2\" || c:\"3\"") =
      some (mkOr (mkAnd (mkMatch (ascii "a") (ascii ":") (ascii "1"))
          (mkMatch (ascii "b") (ascii ":") (ascii "2")))
        (mkMatch (ascii "c") (ascii ":") (ascii "3")), none) :=
  (Parse_precedence noWidePrint (ascii "a:\"1\"") (ascii "b:\"2\"") (ascii "c:\"3\"") _ _ _
    (IsMatchAtom.of_parts (ascii "a") (ascii ":") (ascii "1") (by decide) (by decide) (by decide))
    (IsMatchAtom.of_parts (ascii "b") (ascii ":") (ascii "2") (by decide) (by decide) (by decide))
    (IsMatchAtom.of_parts (ascii "c") (ascii ":") (ascii "3") (by decide) (by decide)
      (by decide))).2

/-- Witness of C6: `a:"1" || b:"2" || c:"3"` and `a:"1" && b:"2" && c:"3"`. -/
theorem Parse_left_assoc_witness :
    Parse noWidePrint (ascii "a:\"1\" || b:\"2\" || c:\"3\"") =
      some (mkOr (mkOr (mkMatch (ascii "a") (ascii ":") (ascii "1"))
          (mkMatch (ascii "b") (ascii ":") (ascii "2")))
        (mkMatch (ascii "c") (ascii ":") (ascii "3")), none) ∧
    Parse noWidePrint (ascii "a:\"1\" && b:\"2\" && c:\"3\"") =
      some (mkAnd (mkAnd (mkMatch (ascii "a") (ascii ":") (ascii "1"))
          (mkMatch (ascii "b") (ascii ":") (ascii "2")))
        (mkMatch (ascii "c") (ascii ":") (ascii "3")), none) :=
  Parse_left_assoc noWidePrint (ascii "a:\"1\"") (ascii "b:\"2\"") (ascii "c:\"3\"") _ _ _
    (IsMatchAtom.of_parts (ascii "a") (ascii ":") (ascii "1") (by decide) (by decide) (by decide))
    (IsMatchAtom.of_parts (ascii "b") (ascii ":") (ascii "2") (by decide) (by decide) (by decide))
    (IsMatchAtom.of_parts (ascii "c") (ascii ":") (ascii "3") (by decide) (by decide)
      (by decide))

/-- Witness of C7: `!a:"1" && b:"2"` and `!(a:"1" && b:"2")`. -/
theorem Parse_negation_scope_witness :
    Parse noWidePrint (ascii "!a:\"1\" && b:\"2\"") =
      some (mkAnd (mkNot (mkMatch (ascii "a") (ascii ":") (ascii "1")))
        (mkMatch (ascii "b") (ascii ":") (ascii "2")), none) ∧
    Parse noWidePrint (ascii "!(a:\"1\" && b:\"2\")") =
      some (mkNot (mkAnd (mkMatch (ascii "a") (ascii ":") (ascii "1"))
        (mkMatch (ascii "b") (ascii ":") (ascii "2"))), none) :=
  Parse_negation_scope noWidePrint (ascii "a:\"1\"") (ascii "b:\"2\"") _ _
    (IsMatchAtom.of_parts (ascii "a") (ascii ":") (ascii "1") (by decide) (by decide) (by decide))
    (IsMatchAtom.of_parts (ascii "b") (ascii ":") (ascii "2") (by decide) (by decide) (by decide))

/-! ### Whitespace between operator and value -/

theorem headRune_space_ne (w rest : GoString) (hw : isLexSpace w = true) (hne : w ≠ []) :
    headRune (w ++ rest) ≠ 61 := by
  cases w with
  | nil => exact absurd rfl hne
  | cons c cs =>
    simp only [isLexSpace, List.all_cons, Bool.and_eq_true] at hw
    have h1 := hw.1
    simp only [isSpaceByte, unicodeIsSpace, Bool.or_eq_true, beq_iff_eq] at h1
    simp only [List.cons_append, headRune]
    omega

section Fmt

variable (printTable : Nat → Bool)

theorem fmtQ_operator (op : GoString) (hop : isOperator op = true) :
    fmtQ printTable op = quoted op := by
  rcases isOperator_cases hop with h | h <;> subst h <;> rfl

/-- A key, an operator, whitespace and then a value: `parseAtom` latches the
error about the space and returns `nil`. -/
theorem Parser.parseAtom_space (fuel : Nat) (hf : 1 ≤ fuel) (input : GoString) (prev : Token)
    (s : Nat) (k op w v rest : GoString) (hop : isOperator op = true)
    (hw : isLexSpace w = true) (hne : w ≠ []) (hv : isStringBody v = true)
    (hd : input.drop s = k ++ (op ++ (w ++ (quoted v ++ rest)))) :
    Parser.parseAtom printTable fuel (stateAt input prev (identTok k s)) =
      some (.nil, (stateAt input (opTok op (s + k.length))
        (stringTok v (s + k.length + op.length + w.length))).errorf
          (ascii "unexpected space between " ++ quoted op ++ ascii " and value")) := by
  have hd1a := drop_append_facts hd
  have hd1 : input.drop (identTok k s).End = [] ++ (op ++ (w ++ (quoted v ++ rest))) := hd1a
  have hl1 : Lex printTable input (identTok k s).End (opTok op (s + k.length)) :=
    Lex_op_ws printTable isLexSpace_nil hop hd1 (headRune_space_ne w _ hw hne)
  have hd2a := drop_append_facts (drop_append_facts hd1)
  have hd2 : input.drop (opTok op (s + k.length)).End = w ++ (quoted v ++ rest) := hd2a
  have hl2 : Lex printTable input (opTok op (s + k.length)).End
      (stringTok v (s + k.length + op.length + w.length)) :=
    Lex_string_ws printTable hw hv hd2
  have ht := opTok_typ hop
  obtain ⟨n, rfl⟩ : ∃ n, fuel = n + 1 := ⟨fuel - 1, by omega⟩
  rw [Parser.parseAtom]
  have c1 : (stateAt input prev (identTok k s)).curTok.Typ = TOKEN_IDENT := rfl
  rw [if_neg (by rw [c1]; decide), if_pos c1]
  simp only [Parser.nextToken_stateAt printTable _ _ _ _ hl1]
  have c2 : (stateAt input (identTok k s) (opTok op (s + k.length))).curTok.Typ
      = opType op := rfl
  rw [if_neg (by rw [c2]; rcases ht.1 with h | h <;> rw [h] <;> decide)]
  simp only [Parser.nextToken_stateAt printTable _ _ _ _ hl2]
  have hlen : 0 < w.length := List.length_pos.mpr hne
  have c3 : (stateAt input (opTok op (s + k.length))
      (stringTok v (s + k.length + op.length + w.length))).noSpaceBetweenTokens = false := by
    simp only [Parser.noSpaceBetweenTokens, stateAt, opTok, stringTok, beq_eq_false_iff_ne, ne_eq]
    omega
  rw [if_pos (by rw [c3]; rfl)]
  have c4 : (stateAt input (identTok k s) (opTok op (s + k.length))).curTok.Value = op := rfl
  rw [c4, fmtQ_operator printTable op hop]

/-- The function `Parse` rejects with the latched error when `parseExpression` ends in a
state with an error. -/
theorem Parse_reject_of_runs {input : GoString} {e : Expr} {q : Parser} {msg : GoString}
    (h : Runs (Parser.parseExpression printTable) (NewParser printTable input) e q)
    (hq : q.err = some msg) :
    Parse printTable input = some (.nil, some msg) := by
  rw [Parse_of_runs printTable h]
  simp [hq]

/-- A run of `parseAtom` that leaves the current token at one that is no
connective is a run of `parseExpression`. -/
theorem Runs.expr_of_atom {p q : Parser} {e : Expr}
    (h : Runs (Parser.parseAtom printTable) p e q) (hp : p.curTok.Typ ≠ TOKEN_NOT)
    (h1 : q.curTok.Typ ≠ TOKEN_AND) (h2 : q.curTok.Typ ≠ TOKEN_OR) :
    Runs (Parser.parseExpression printTable) p e q :=
  Runs.expr_of printTable
    (Runs.and_of printTable (Runs.not_atom printTable h hp) (Runs.andLoop_stop printTable _ h1))
    (Runs.orLoop_stop printTable _ h2)

/-- Whitespace between the operator and the value is rejected. -/
theorem Parse_space_after_op (k op w v : GoString) (hk : isLexIdent k = true)
    (hop : isOperator op = true) (hw : isLexSpace w = true) (hne : w ≠ [])
    (hv : isStringBody v = true) :
    Parse printTable (k ++ op ++ w ++ quoted v) =
      some (.nil, some (ascii "unexpected space between " ++ quoted op ++ ascii " and value" ++
        [10] ++ (k ++ op ++ w ++ quoted v) ++ [10] ++
        List.replicate (k.length + op.length + w.length) 32 ++ [94])) := by
  generalize hin : k ++ op ++ w ++ quoted v = input
  have hd0 : input.drop ({} : Token).End = [] ++ (k ++ ([] ++ (op ++ (w ++ (quoted v ++ []))))) := by
    show List.drop 0 _ = _
    rw [← hin]
    simp
  have hl0 : Lex printTable input ({} : Token).End
      (identTok k (({} : Token).End + ([] : GoString).length)) :=
    Lex_ident_ws printTable isLexSpace_nil hk hd0 (notIdent_head [] op _ rfl hop)
  have hA := Parser.parseAtom_space printTable 1 (Nat.le_refl 1) input {}
    (({} : Token).End + ([] : GoString).length) k op w v [] hop hw hne hv (drop_append_facts hd0)
  have hR : Runs (Parser.parseAtom printTable) (stateAt input {} (identTok k
      (({} : Token).End + ([] : GoString).length))) _ _ := ⟨1, hA⟩
  refine Parse_reject_of_runs printTable (Runs.of_start printTable hl0
    (Runs.expr_of_atom printTable hR (by simp [stateAt, identTok])
      (by simp [Parser.errorf, stateAt, stringTok])
      (by simp [Parser.errorf, stateAt, stringTok]))) ?_
  simp [Parser.errorf, stateAt, stringTok]

end Fmt

/-! ### List values -/

theorem quoted_length (v : GoString) : (quoted v).length = v.length + 2 := by
  simp [quoted]

section Fmt

variable (printTable : Nat → Bool)

/-- Whitespace is forbidden only between the operator and the value, for keys
and whitespace as the lexer reads them byte by byte. For every key `k` that
`lexIdent` reads as one token, operator `op`, lexable body `v` and non-empty
string `w` of bytes that `skipWhitespace` skips, `k op w "v"` fails with `unexpected space between "op" and value` (then
the input and the caret line, the caret under the value), whereas `k op "v"`
and `k w op "v"` parse to `Match{k, op, v}`. -/
theorem Parse_whitespace_rule (k op v w : GoString) (hk : isLexIdent k = true)
    (hop : isOperator op = true) (hv : isStringBody v = true)
    (hw : isLexSpace w = true) (hne : w ≠ []) :
    Parse printTable (k ++ op ++ w ++ quoted v) =
      some (.nil, some (ascii "unexpected space between " ++ quoted op ++ ascii " and value" ++
        [10] ++ (k ++ op ++ w ++ quoted v) ++ [10] ++
        List.replicate (k.length + op.length + w.length) 32 ++ [94])) ∧
    Parse printTable (k ++ op ++ quoted v) = some (mkMatch k op v, none) ∧
    Parse printTable (k ++ w ++ op ++ quoted v) = some (mkMatch k op v, none) :=
  ⟨Parse_space_after_op printTable k op w v hk hop hw hne hv,
    Parse_atom_alone printTable _ _ (IsMatchAtom.of_parts k op v hk hop hv),
    Parse_atom_alone printTable _ _ ⟨k, w, op, v, hk, hw, hop, hv, rfl, rfl⟩⟩

/-- The list loop collects the bodies of the items up to the `]` and stands
at the token `next` after it. -/
theorem Parser.parseListLoop_items (vs : List GoString) :
    ∀ (v : GoString) (fuel : Nat) (acc : List GoString) (input : GoString) (pp next : Token)
      (s : Nat) (rest : GoString),
      (∀ x ∈ v :: vs, isStringBody x = true) → vs.length + 1 ≤ fuel →
      input.drop s = listItems (v :: vs) ++ (ascii "]" ++ rest) →
      Lex printTable input (s + (listItems (v :: vs)).length + (ascii "]").length) next →
      Parser.parseListLoop printTable fuel acc (stateAt input pp (stringTok v s)) =
        some (some (acc ++ v :: vs),
          stateAt input (punctTok TOKEN_RBRACKET (ascii "]") (s + (listItems (v :: vs)).length))
            next) := by
  induction vs with
  | nil =>
    intro v fuel acc input pp next s rest _ hf hd hnext
    obtain ⟨n, rfl⟩ : ∃ n, fuel = n + 1 := ⟨fuel - 1, by omega⟩
    simp only [listItems] at hd hnext ⊢
    have hd1a := drop_append_facts hd
    rw [quoted_length] at hd1a hnext ⊢
    have hd1 : input.drop (stringTok v s).End = [] ++ (ascii "]" ++ rest) := hd1a
    have hl1 := Lex_rbracket_ws printTable isLexSpace_nil hd1
    have hl2 : Lex printTable input
        (punctTok TOKEN_RBRACKET (ascii "]") ((stringTok v s).End + ([] : GoString).length)).End
        next := hnext
    rw [Parser.parseListLoop]
    have c1 : (stateAt input pp (stringTok v s)).curTok.Typ = TOKEN_STRING := rfl
    rw [if_neg (by rw [c1]; decide)]
    simp only [Parser.nextToken_stateAt printTable _ _ _ _ hl1]
    have c2 : (stateAt input (stringTok v s) (punctTok TOKEN_RBRACKET (ascii "]")
        ((stringTok v s).End + ([] : GoString).length))).curTok.Typ = TOKEN_RBRACKET := rfl
    rw [if_neg (by rw [c2]; decide), if_pos c2]
    simp only [Parser.nextToken_stateAt printTable _ _ _ _ hl2]
    rfl
  | cons v2 vs ih =>
    intro v fuel acc input pp next s rest hall hf hd hnext
    simp only [List.length_cons] at hf
    obtain ⟨n, rfl⟩ : ∃ n, fuel = n + 1 := ⟨fuel - 1, by omega⟩
    have hlen : (listItems (v :: v2 :: vs)).length =
        v.length + 2 + (ascii ",").length + (listItems (v2 :: vs)).length := by
      simp only [listItems, List.length_append, quoted_length]; omega
    have hd0 : input.drop s = quoted v ++ ([] ++ (ascii "," ++ ([] ++
        (listItems (v2 :: vs) ++ (ascii "]" ++ rest))))) := by
      rw [hd]; simp [listItems]
    have hd1a := drop_append_facts hd0
    rw [quoted_length] at hd1a
    have hd1 : input.drop (stringTok v s).End = [] ++ (ascii "," ++ ([] ++
        (listItems (v2 :: vs) ++ (ascii "]" ++ rest)))) := hd1a
    have hl1 := Lex_comma_ws printTable isLexSpace_nil hd1
    have hd2 := drop_append_facts (drop_append_facts hd1)
    have hv2 : isStringBody v2 = true := hall v2 (by simp)
    have hd2' : input.drop (punctTok TOKEN_COMMA (ascii ",")
        ((stringTok v s).End + ([] : GoString).length)).End = [] ++ (quoted v2 ++
        (match vs with
          | [] => ascii "]" ++ rest
          | v3 :: vs3 => ascii "," ++ listItems (v3 :: vs3) ++ (ascii "]" ++ rest))) := by
      rw [show (punctTok TOKEN_COMMA (ascii ",")
        ((stringTok v s).End + ([] : GoString).length)).End =
          (stringTok v s).End + ([] : GoString).length + (ascii ",").length from rfl, hd2]
      cases vs <;> simp [listItems]
    have hl2 := Lex_string_ws printTable isLexSpace_nil hv2 hd2'
    have hd3 := drop_append_facts hd2
    have hnext2 : Lex printTable input ((stringTok v s).End + ([] : GoString).length +
        (ascii ",").length + ([] : GoString).length + (listItems (v2 :: vs)).length +
        (ascii "]").length) next := by
      have e : (stringTok v s).End + ([] : GoString).length +
          (ascii ",").length + ([] : GoString).length + (listItems (v2 :: vs)).length +
          (ascii "]").length = s + (listItems (v :: v2 :: vs)).length + (ascii "]").length := by
        rw [hlen]; simp only [stringTok, List.length_nil]; omega
      rw [e]; exact hnext
    have hrec := ih v2 n (acc ++ [v]) input
      (punctTok TOKEN_COMMA (ascii ",") ((stringTok v s).End + ([] : GoString).length)) next
      ((stringTok v s).End + ([] : GoString).length + (ascii ",").length +
        ([] : GoString).length) rest
      (fun x hx => hall x (List.mem_cons_of_mem _ hx)) (by omega) hd3 hnext2
    rw [Parser.parseListLoop]
    have c1 : (stateAt input pp (stringTok v s)).curTok.Typ = TOKEN_STRING := rfl
    rw [if_neg (by rw [c1]; decide)]
    simp only [Parser.nextToken_stateAt printTable _ _ _ _ hl1]
    have c2 : (stateAt input (stringTok v s) (punctTok TOKEN_COMMA (ascii ",")
        ((stringTok v s).End + ([] : GoString).length))).curTok.Typ = TOKEN_COMMA := rfl
    rw [if_pos c2]
    simp only [Parser.nextToken_stateAt printTable _ _ _ _ hl2]
    have e2 : (punctTok TOKEN_COMMA (ascii ",")
        ((stringTok v s).End + ([] : GoString).length)).End + ([] : GoString).length =
        (stringTok v s).End + ([] : GoString).length + (ascii ",").length +
        ([] : GoString).length := rfl
    have c3 : (stateAt input pp (stringTok v s)).curTok.Value = v := rfl
    rw [c3, e2, hrec]
    have e3 : (stringTok v s).End + ([] : GoString).length + (ascii ",").length +
        ([] : GoString).length + (listItems (v2 :: vs)).length =
        s + (listItems (v :: v2 :: vs)).length := by
      rw [hlen]; simp only [stringTok, List.length_nil]; omega
    rw [e3]
    simp

end Fmt

theorem listItems_cons_eq (v : GoString) (vs : List GoString) :
    ∃ tail, listItems (v :: vs) = quoted v ++ tail := by
  cases vs with
  | nil => exact ⟨[], by simp [listItems]⟩
  | cons v2 vs => exact ⟨_, rfl⟩

theorem ascii_brackets : ascii "[]" = ascii "[" ++ ascii "]" := by decide

section Fmt

variable (printTable : Nat → Bool)

/-- A key, an operator and a bracketed list: the operator and the `[` are
lexed with no space between them. -/
theorem Parser.parseAtom_open (input : GoString) (s : Nat)
    (k op rest : GoString) (hop : isOperator op = true)
    (hd : input.drop s = k ++ (op ++ (ascii "[" ++ rest))) :
    Lex printTable input (identTok k s).End (opTok op (s + k.length)) ∧
    Lex printTable input (opTok op (s + k.length)).End
      (punctTok TOKEN_LBRACKET (ascii "[") (s + k.length + op.length)) ∧
    input.drop (punctTok TOKEN_LBRACKET (ascii "[") (s + k.length + op.length)).End = rest := by
  have hd1a := drop_append_facts hd
  have hd1 : input.drop (identTok k s).End = [] ++ (op ++ (ascii "[" ++ rest)) := hd1a
  have hl1 : Lex printTable input (identTok k s).End (opTok op (s + k.length)) :=
    Lex_op_ws printTable isLexSpace_nil hop hd1
      (show headRune (ascii "[" ++ rest) ≠ 61 by
        rw [show ascii "[" = [91] from by decide]
        simp [headRune, byteVal_91])
  have hd2a := drop_append_facts (drop_append_facts hd1)
  have hd2 : input.drop (opTok op (s + k.length)).End = [] ++ (ascii "[" ++ rest) := hd2a
  have hl2 : Lex printTable input (opTok op (s + k.length)).End
      (punctTok TOKEN_LBRACKET (ascii "[") (s + k.length + op.length)) :=
    Lex_lbracket_ws printTable isLexSpace_nil hd2
  have hd3a := drop_append_facts (drop_append_facts hd2)
  exact ⟨hl1, hl2, hd3a⟩

/-- A list atom parses to its MATCH node with the values in order. -/
theorem Parser.parseAtom_list (fuel : Nat) (input : GoString) (prev next : Token) (s : Nat)
    (k op v : GoString) (vs : List GoString) (rest : GoString) (hf : vs.length + 2 ≤ fuel)
    (hop : isOperator op = true) (hall : ∀ x ∈ v :: vs, isStringBody x = true)
    (hd : input.drop s = k ++ (op ++ (ascii "[" ++ (listItems (v :: vs) ++ (ascii "]" ++ rest)))))
    (hnext : Lex printTable input
      (s + k.length + op.length + (ascii "[").length + (listItems (v :: vs)).length +
        (ascii "]").length) next) :
    Parser.parseAtom printTable fuel (stateAt input prev (identTok k s)) =
      some (mkMatchList k op (v :: vs),
        stateAt input (punctTok TOKEN_RBRACKET (ascii "]")
          (s + k.length + op.length + (ascii "[").length + (listItems (v :: vs)).length))
          next) := by
  obtain ⟨hl1, hl2, hd3⟩ := Parser.parseAtom_open printTable input s k op _ hop hd
  obtain ⟨tail, htail⟩ := listItems_cons_eq v vs
  have hd3' : input.drop (punctTok TOKEN_LBRACKET (ascii "[") (s + k.length + op.length)).End =
      [] ++ (quoted v ++ (tail ++ (ascii "]" ++ rest))) := by
    rw [hd3, htail]; simp
  have hl3 := Lex_string_ws printTable isLexSpace_nil (hall v (by simp)) hd3'
  have ht := opTok_typ hop
  obtain ⟨n, rfl⟩ : ∃ n, fuel = n + 1 := ⟨fuel - 1, by omega⟩
  have hloop := Parser.parseListLoop_items printTable vs v n [] input
    (punctTok TOKEN_LBRACKET (ascii "[") (s + k.length + op.length)) next
    ((punctTok TOKEN_LBRACKET (ascii "[") (s + k.length + op.length)).End +
      ([] : GoString).length) rest hall (by omega) hd3 hnext
  rw [Parser.parseAtom]
  have c1 : (stateAt input prev (identTok k s)).curTok.Typ = TOKEN_IDENT := rfl
  rw [if_neg (by rw [c1]; decide), if_pos c1]
  simp only [Parser.nextToken_stateAt printTable _ _ _ _ hl1]
  have c2 : (stateAt input (identTok k s) (opTok op (s + k.length))).curTok.Typ
      = opType op := rfl
  rw [if_neg (by rw [c2]; rcases ht.1 with h | h <;> rw [h] <;> decide)]
  simp only [Parser.nextToken_stateAt printTable _ _ _ _ hl2]
  have c3 : (stateAt input (opTok op (s + k.length))
      (punctTok TOKEN_LBRACKET (ascii "[") (s + k.length + op.length))).noSpaceBetweenTokens
      = true := by
    simp [Parser.noSpaceBetweenTokens, stateAt, opTok, punctTok]
  rw [if_neg (by rw [c3]; decide)]
  have c4 : (stateAt input (opTok op (s + k.length))
      (punctTok TOKEN_LBRACKET (ascii "[") (s + k.length + op.length))).curTok.Typ
      = TOKEN_LBRACKET := rfl
  rw [if_neg (by rw [c4]; decide), if_pos c4]
  simp only [Parser.nextToken_stateAt printTable _ _ _ _ hl3]
  rw [hloop]
  rfl

/-- A key, an operator and `[]`: the list loop latches the error about the
missing string and `parseAtom` returns `nil`. -/
theorem Parser.parseAtom_empty_list (fuel : Nat) (hf : 2 ≤ fuel) (input : GoString)
    (prev : Token) (s : Nat) (k op rest : GoString) (hop : isOperator op = true)
    (hd : input.drop s = k ++ (op ++ (ascii "[" ++ (ascii "]" ++ rest)))) :
    Parser.parseAtom printTable fuel (stateAt input prev (identTok k s)) =
      some (.nil, (stateAt input (punctTok TOKEN_LBRACKET (ascii "[") (s + k.length + op.length))
        (punctTok TOKEN_RBRACKET (ascii "]") (s + k.length + op.length + 1))).errorf
          (ascii "expected string inside list at position " ++
            fmtD (s + k.length + op.length + 1))) := by
  obtain ⟨hl1, hl2, hd3⟩ := Parser.parseAtom_open printTable input s k op _ hop hd
  have hd3' : input.drop (punctTok TOKEN_LBRACKET (ascii "[") (s + k.length + op.length)).End =
      [] ++ (ascii "]" ++ rest) := hd3
  have hl3 : Lex printTable input
      (punctTok TOKEN_LBRACKET (ascii "[") (s + k.length + op.length)).End
      (punctTok TOKEN_RBRACKET (ascii "]") (s + k.length + op.length + 1)) :=
    Lex_rbracket_ws printTable isLexSpace_nil hd3'
  have ht := opTok_typ hop
  obtain ⟨n, rfl⟩ : ∃ n, fuel = n + 2 := ⟨fuel - 2, by omega⟩
  rw [Parser.parseAtom]
  have c1 : (stateAt input prev (identTok k s)).curTok.Typ = TOKEN_IDENT := rfl
  rw [if_neg (by rw [c1]; decide), if_pos c1]
  simp only [Parser.nextToken_stateAt printTable _ _ _ _ hl1]
  have c2 : (stateAt input (identTok k s) (opTok op (s + k.length))).curTok.Typ
      = opType op := rfl
  rw [if_neg (by rw [c2]; rcases ht.1 with h | h <;> rw [h] <;> decide)]
  simp only [Parser.nextToken_stateAt printTable _ _ _ _ hl2]
  have c3 : (stateAt input (opTok op (s + k.length))
      (punctTok TOKEN_LBRACKET (ascii "[") (s + k.length + op.length))).noSpaceBetweenTokens
      = true := by
    simp [Parser.noSpaceBetweenTokens, stateAt, opTok, punctTok]
  rw [if_neg (by rw [c3]; decide)]
  have c4 : (stateAt input (opTok op (s + k.length))
      (punctTok TOKEN_LBRACKET (ascii "[") (s + k.length + op.length))).curTok.Typ
      = TOKEN_LBRACKET := rfl
  rw [if_neg (by rw [c4]; decide), if_pos c4]
  simp only [Parser.nextToken_stateAt printTable _ _ _ _ hl3]
  rw [Parser.parseListLoop]
  have c5 : (stateAt input (punctTok TOKEN_LBRACKET (ascii "[") (s + k.length + op.length))
      (punctTok TOKEN_RBRACKET (ascii "]") (s + k.length + op.length + 1))).curTok.Typ
      = TOKEN_RBRACKET := rfl
  rw [if_pos (by rw [c5]; decide)]
  rfl

/-- A list atom parses to its MATCH node. -/
theorem Parse_list_atom (k op v : GoString) (vs : List GoString)
    (hk : isLexIdent k = true) (hop : isOperator op = true)
    (hall : ∀ x ∈ v :: vs, isStringBody x = true) :
    Parse printTable (listAtom k op (v :: vs)) = some (mkMatchList k op (v :: vs), none) := by
  generalize hin : listAtom k op (v :: vs) = input
  have hd0 : input.drop ({} : Token).End = [] ++ (k ++ (op ++ (ascii "[" ++
      (listItems (v :: vs) ++ (ascii "]" ++ []))))) := by
    show List.drop 0 _ = _
    rw [← hin]
    simp [listAtom]
  have hl0 : Lex printTable input ({} : Token).End
      (identTok k (({} : Token).End + ([] : GoString).length)) :=
    Lex_ident_ws printTable isLexSpace_nil hk hd0 (notIdent_head [] op _ rfl hop)
  have hd1 := drop_append_facts hd0
  have hdE := drop_append_facts (drop_append_facts (drop_append_facts (drop_append_facts
    (drop_append_facts hd1))))
  have lE := Lex_eof_ws printTable isLexSpace_nil hdE
  have hA := Parser.parseAtom_list printTable (vs.length + 2) input {} (eofTok _)
    (({} : Token).End + ([] : GoString).length) k op v vs [] (Nat.le_refl _) hop hall hd1 lE
  exact Parse_accept_of_runs printTable (Runs.of_start printTable hl0
    (Runs.expr_of_atom printTable ⟨_, hA⟩ (by simp [stateAt, identTok])
      (by simp [stateAt, eofTok]) (by simp [stateAt, eofTok])))

/-- An empty list is rejected. -/
theorem Parse_empty_list (k op : GoString) (hk : isLexIdent k = true)
    (hop : isOperator op = true) :
    Parse printTable (k ++ op ++ ascii "[]") =
      some (.nil, some (ascii "expected string inside list at position " ++
        fmtD (k.length + op.length + 1) ++ [10] ++ (k ++ op ++ ascii "[]") ++ [10] ++
        List.replicate (k.length + op.length + 1) 32 ++ [94])) := by
  generalize hin : k ++ op ++ ascii "[]" = input
  have hd0 : input.drop ({} : Token).End = [] ++ (k ++ (op ++ (ascii "[" ++
      (ascii "]" ++ [])))) := by
    show List.drop 0 _ = _
    rw [← hin, ascii_brackets]
    simp
  have hl0 : Lex printTable input ({} : Token).End
      (identTok k (({} : Token).End + ([] : GoString).length)) :=
    Lex_ident_ws printTable isLexSpace_nil hk hd0 (notIdent_head [] op _ rfl hop)
  have hd1 := drop_append_facts hd0
  have hA := Parser.parseAtom_empty_list printTable 2 (Nat.le_refl _) input {}
    (({} : Token).End + ([] : GoString).length) k op [] hop hd1
  refine Parse_reject_of_runs printTable (Runs.of_start printTable hl0
    (Runs.expr_of_atom printTable ⟨_, hA⟩ (by simp [stateAt, identTok])
      (by simp [Parser.errorf, stateAt, punctTok])
      (by simp [Parser.errorf, stateAt, punctTok]))) ?_
  simp [Parser.errorf, stateAt, punctTok]

/-- List values keep their order and must be non-empty. For every key `k`
that `lexIdent` reads as one token, operator `op` and non-empty list `vs` of lexable bodies,
`k op ["v1",...,"vn"]` parses to the MATCH node with key `k`, operator `op`,
empty `Value` and `Values` equal to `vs`; and `k op []` fails, with the error
`expected string inside list` at the `]`. -/
theorem Parse_list_values (k op : GoString) (vs : List GoString)
    (hk : isLexIdent k = true) (hop : isOperator op = true)
    (hall : ∀ x ∈ vs, isStringBody x = true) (hne : vs ≠ []) :
    Parse printTable (k ++ op ++ ascii "[" ++ listItems vs ++ ascii "]") =
      some (.node EXPR_MATCH .nil .nil k op [] vs, none) ∧
    Parse printTable (k ++ op ++ ascii "[]") =
      some (.nil, some (ascii "expected string inside list at position " ++
        fmtD (k.length + op.length + 1) ++ [10] ++ (k ++ op ++ ascii "[]") ++ [10] ++
        List.replicate (k.length + op.length + 1) 32 ++ [94])) := by
  refine ⟨?_, Parse_empty_list printTable k op hk hop⟩
  cases vs with
  | nil => exact absurd rfl hne
  | cons v vs => exact Parse_list_atom printTable k op v vs hk hop hall

end Fmt

/-- Example: the whitespace rule on `key: "v"`, `key:"v"` and `key :"v"`. -/
theorem Parse_whitespace_rule_witness :
    Parse noWidePrint (ascii "key: \"v\"") =
      some (.nil, some (ascii "unexpected space between \":\" and value\nkey: \"v\"\n     ^")) ∧
    Parse noWidePrint (ascii "key:\"v\"") =
      some (mkMatch (ascii "key") (ascii ":") (ascii "v"), none) ∧
    Parse noWidePrint (ascii "key :\"v\"") =
      some (mkMatch (ascii "key") (ascii ":") (ascii "v"), none) :=
  Parse_whitespace_rule noWidePrint (ascii "key") (ascii ":") (ascii "v") (ascii " ")
    (by decide) (by decide) (by decide) (by decide) (by decide)

/-- Example: the lists of `tag:=["x","y","z"]` and `tag:=[]`. -/
theorem Parse_list_values_witness :
    Parse noWidePrint (ascii "tag:=[\"x\",\"y\",\"z\"]") =
      some (mkMatchList (ascii "tag") (ascii ":=") [ascii "x", ascii "y", ascii "z"], none) ∧
    Parse noWidePrint (ascii "tag:=[]") =
      some (.nil, some (ascii "expected string inside list at position 6\ntag:=[]\n      ^")) :=
  Parse_list_values noWidePrint (ascii "tag") (ascii ":=") [ascii "x", ascii "y", ascii "z"]
    (by decide) (by decide) (by decide) (by decide)

/-- C10, the failing input: after `a:"1"` a NUL byte and then `b` follow; the
lexer takes the NUL byte for the end of the input, and `Parse` accepts and
returns the MATCH node of `a:"1"`, the bytes after it being ignored. -/
theorem Parse_nul_ignores_rest :
    Parse noWidePrint (ascii "a:\"1\"" ++ [0] ++ ascii "b") =
      some (mkMatch (ascii "a") (ascii ":") (ascii "1"), none) := by
  decide

/-! ### End of input -/

theorem LexPos_err (inp : GoString) (pos : Nat) (t : Token) (e : GoString) (l : Lexer) :
    LexPos inp pos (t, some e, l) :=
  fun h => by simp at h

theorem LexPos_tok (inp : GoString) (pos q : Nat) (t : Token)
    (h1 : t.End = q) (h2 : t.Start = pos + ((inp.drop pos).takeWhile isSpaceByte).length)
    (h3 : t.Typ ≠ 0) : LexPos inp pos (t, none, ⟨inp, q⟩) :=
  fun _ => ⟨h1, h2, fun h => absurd h h3⟩

section Fmt

variable (printTable : Nat → Bool)

theorem Lexer.NextToken_pos (l : Lexer) :
    LexPos l.input l.pos (l.NextToken printTable) := by
  have hws := l.skipWhitespace_eq
  obtain ⟨inp, pos⟩ := l
  simp only at hws
  unfold Lexer.NextToken
  rw [hws]
  simp only
  generalize hq : pos + (List.takeWhile isSpaceByte (List.drop pos inp)).length = q
  by_cases h0 : Lexer.peek ⟨inp, q⟩ = 0
  · simp only [h0, if_true]
    intro _
    refine ⟨rfl, hq.symm, fun _ => ?_⟩
    rw [Lexer.peek_eq] at h0
    exact h0
  have hn := Lexer.next_of_peek h0
  simp only [h0, if_false]
  by_cases hL : isLetter (Lexer.peek ⟨inp, q⟩) = true
  · simp only [hL, if_true, Lexer.lexIdent_eq]
    exact LexPos_tok _ _ _ _ rfl hq.symm (by simp)
  simp only [hL, Bool.false_eq_true, if_false]
  by_cases hS : Lexer.peek ⟨inp, q⟩ = 34
  · simp only [hS, if_true]
    unfold Lexer.lexString
    rw [hn.1]
    simp only
    have hf := Lexer.lexStringLoop_facts (inp.length - (q + 1) + 1) ⟨inp, q + 1⟩
    generalize Lexer.lexStringLoop (inp.length - (q + 1) + 1) ⟨inp, q + 1⟩ = r at hf
    obtain ⟨r1, ⟨i2, q2⟩⟩ := r
    simp only at hf
    obtain ⟨hf1, _, _, _⟩ := hf
    subst hf1
    cases r1 with
    | none => exact LexPos_err _ _ _ _ _
    | some r1 => exact LexPos_tok _ _ _ _ rfl hq.symm (by simp)
  simp only [hS, if_false]
  rw [hn.1]
  simp only
  by_cases h1 : Lexer.peek ⟨inp, q⟩ = 38
  · simp only [h1, if_true]
    by_cases h2 : Lexer.peek ⟨inp, q + 1⟩ = 38
    · have hn2 := Lexer.next_of_peek (l := ⟨inp, q + 1⟩) (by omega)
      simp only [h2, if_true, hn2.1]
      exact LexPos_tok _ _ _ _ rfl hq.symm (by simp)
    · simp only [h2, if_false]
      exact LexPos_err _ _ _ _ _
  simp only [h1, if_false]
  by_cases h3 : Lexer.peek ⟨inp, q⟩ = 124
  · simp only [h3, if_true]
    by_cases h2 : Lexer.peek ⟨inp, q + 1⟩ = 124
    · have hn2 := Lexer.next_of_peek (l := ⟨inp, q + 1⟩) (by omega)
      simp only [h2, if_true, hn2.1]
      exact LexPos_tok _ _ _ _ rfl hq.symm (by simp)
    · simp only [h2, if_false]
      exact LexPos_err _ _ _ _ _
  simp only [h3, if_false]
  by_cases h4 : Lexer.peek ⟨inp, q⟩ = 33
  · simp only [h4, if_true]
    exact LexPos_tok _ _ _ _ rfl hq.symm (by simp)
  simp only [h4, if_false]
  by_cases h5 : Lexer.peek ⟨inp, q⟩ = 58
  · simp only [h5, if_true]
    by_cases h2 : Lexer.peek ⟨inp, q + 1⟩ = 61
    · have hn2 := Lexer.next_of_peek (l := ⟨inp, q + 1⟩) (by omega)
      simp only [h2, if_true, hn2.1]
      exact LexPos_tok _ _ _ _ rfl hq.symm (by simp)
    · simp only [h2, if_false]
      exact LexPos_tok _ _ _ _ rfl hq.symm (by simp)
  simp only [h5, if_false]
  split_ifs
  · exact LexPos_tok _ _ _ _ rfl hq.symm (by simp)
  · exact LexPos_tok _ _ _ _ rfl hq.symm (by simp)
  · exact LexPos_tok _ _ _ _ rfl hq.symm (by simp)
  · exact LexPos_tok _ _ _ _ rfl hq.symm (by simp)
  · exact LexPos_tok _ _ _ _ rfl hq.symm (by simp)
  · exact LexPos_err _ _ _ _ _

/-- A call of `nextToken` from a state whose lexer stands at the end of the
current token leads to a state in step with its lexer. -/
theorem Parser.nextToken_inStep (p : Parser)
    (h : p.err = none → p.lexer.input = p.input ∧ p.lexer.pos = p.curTok.End) :
    (p.nextToken printTable).InStep := by
  have hl := Lexer.NextToken_pos printTable p.lexer
  have hf := Lexer.NextToken_facts printTable p.lexer
  unfold Parser.InStep Parser.nextToken
  simp only
  generalize Lexer.NextToken printTable p.lexer = r at hl hf
  obtain ⟨tok, err, l⟩ := r
  cases err with
  | some e =>
    intro he
    exact absurd he (Parser.errorf_facts _ e).2.2.2.2.1
  | none =>
    simp only
    intro he
    obtain ⟨h1, h2⟩ := h he
    obtain ⟨a1, a2, a3⟩ := hl rfl
    simp only at a1 a2 a3
    rw [h1, h2] at a2
    rw [h1] at a3
    exact ⟨hf.1.trans h1, a1.symm, a2, a3⟩

theorem NewParser_inStep (input : GoString) : (NewParser printTable input).InStep :=
  Parser.nextToken_inStep printTable { input := input, lexer := NewLexer input }
    (fun _ => ⟨rfl, rfl⟩)

/-- Every state reached from a state in step with its lexer is in step with
its lexer. -/
theorem Reach_inStep {p q : Parser} (h : Reach printTable p q) (hp : p.InStep) : q.InStep := by
  induction h with
  | refl => exact hp
  | @tail p1 _ _ hs ih =>
    cases hs with
    | next hc =>
      exact Parser.nextToken_inStep printTable p1 (fun he => ⟨(ih he).1, (ih he).2.1⟩)
    | err msg =>
      intro he
      exact absurd he (Parser.errorf_facts p1 msg).2.2.2.2.1

/-- What `Parse` has consumed when it accepts: `parseExpression` stops at an
EOF token that follows the last consumed token after whitespace only, and
stands where `peek` reads 0, which is the end of the input or a NUL byte. -/
theorem Parse_accept_rest (input : GoString) (e : Expr)
    (h : Parse printTable input = some (e, none)) :
    ∃ q, Parser.parseExpression printTable (parseFuel input) (NewParser printTable input) =
        some (e, q) ∧
      q.curTok.Typ = TOKEN_EOF ∧
      q.curTok.Start =
        q.prevTok.End + ((input.drop q.prevTok.End).takeWhile isSpaceByte).length ∧
      headRune (input.drop q.curTok.Start) = 0 := by
  obtain ⟨e1, q, hrun, hp⟩ := Parse_fuel printTable input
  have hI := Reach_inStep printTable hp.1 (NewParser_inStep printTable input)
  have hin := (Reach_facts printTable hp.1).1
  have hin0 : (NewParser printTable input).input = input :=
    (Parser.nextToken_facts printTable { input := input, lexer := NewLexer input }).1
  rw [hin0] at hin
  unfold Parse Parser.Parse at h
  simp only [hrun] at h
  by_cases he : q.err = none
  · by_cases ht : q.curTok.Typ = TOKEN_EOF
    · simp only [he, ne_eq, not_true_eq_false, if_false, ht, Option.some.injEq,
        Prod.mk.injEq, and_true] at h
      subst h
      obtain ⟨_, _, a3, a4⟩ := hI he
      rw [hin] at a3 a4
      exact ⟨q, hrun, ht, a3, a4 ht⟩
    · rw [if_neg (by simpa using he), if_pos ht] at h
      have := (Parser.errorf_facts q (ascii "unexpected trailing token " ++
        fmtQ printTable q.curTok.Value ++ ascii " at position " ++
        fmtD q.curTok.Start)).2.2.2.2.1
      simp only [Option.some.injEq, Prod.mk.injEq] at h
      exact absurd h.2 this
  · rw [if_pos he] at h
    simp only [Option.some.injEq, Prod.mk.injEq] at h
    exact absurd h.2 he

/-- On an input without NUL byte, when `Parse` accepts, everything after the
last consumed token is whitespace. -/
theorem Parse_accept_rest_whitespace (input : GoString) (e : Expr)
    (hnul : ∀ b ∈ input, b.val ≠ 0)
    (h : Parse printTable input = some (e, none)) :
    ∃ q, Parser.parseExpression printTable (parseFuel input) (NewParser printTable input) =
        some (e, q) ∧
      q.curTok.Typ = TOKEN_EOF ∧ isLexSpace (input.drop q.prevTok.End) = true := by
  obtain ⟨q, hrun, ht, hs, h0⟩ := Parse_accept_rest printTable input e h
  refine ⟨q, hrun, ht, ?_⟩
  have hnil : input.drop q.curTok.Start = [] := by
    cases hd : input.drop q.curTok.Start with
    | nil => rfl
    | cons b rest =>
      rw [hd] at h0
      have hb : b ∈ input := List.mem_of_mem_drop (by rw [hd]; exact List.mem_cons_self _ _)
      exact absurd h0 (hnul b hb)
  rw [hs, ← List.drop_drop] at hnil
  generalize input.drop q.prevTok.End = s at hnil
  have hsplit := List.takeWhile_append_dropWhile isSpaceByte s
  have hdw : s.dropWhile isSpaceByte = [] := by
    have := congrArg (List.drop (s.takeWhile isSpaceByte).length) hsplit
    rw [List.drop_left] at this
    rw [this]; exact hnil
  rw [hdw, List.append_nil] at hsplit
  unfold isLexSpace
  rw [← hsplit]
  exact all_takeWhile isSpaceByte s

end Fmt

/-! ### Two atoms with no connective -/

section Fmt

variable (printTable : Nat → Bool)

/-- The text of `errorf`: the message, the input and the caret line with `k`
spaces. -/
theorem Parser.errorf_stateAt (input : GoString) (prev cur : Token) (msg : GoString) :
    ((stateAt input prev cur).errorf msg).err =
      some (msg ++ [10] ++ input ++ [10] ++ List.replicate cur.Start 32 ++ [94]) := by
  simp [Parser.errorf, stateAt]

/-- Two match atoms with whitespace between them and no connective. -/
theorem Parse_atom_atom (k1 w1 op1 v1 w k2 w2 op2 v2 : GoString)
    (hk1 : isLexIdent k1 = true) (hw1 : isLexSpace w1 = true)
    (hop1 : isOperator op1 = true) (hv1 : isStringBody v1 = true)
    (hw : isLexSpace w = true)
    (hk2 : isLexIdent k2 = true) (hw2 : isLexSpace w2 = true)
    (hop2 : isOperator op2 = true) :
    Parse printTable (matchAtom k1 w1 op1 v1 ++ w ++ matchAtom k2 w2 op2 v2) =
      some (.nil, some (ascii "unexpected trailing token " ++ fmtQ printTable k2 ++
        ascii " at position " ++ fmtD ((matchAtom k1 w1 op1 v1).length + w.length) ++ [10] ++
        (matchAtom k1 w1 op1 v1 ++ w ++ matchAtom k2 w2 op2 v2) ++ [10] ++
        List.replicate ((matchAtom k1 w1 op1 v1).length + w.length) 32 ++ [94])) := by
  generalize hin : matchAtom k1 w1 op1 v1 ++ w ++ matchAtom k2 w2 op2 v2 = input
  have hd0 : input.drop ({} : Token).End = [] ++ (matchAtom k1 w1 op1 v1 ++
      (w ++ (k2 ++ (w2 ++ (op2 ++ quoted v2))))) := by
    show List.drop 0 _ = _
    rw [← hin]
    simp [matchAtom]
  have hdA := drop_append_facts (drop_append_facts hd0)
  have lK : Lex printTable input
      (({} : Token).End + ([] : GoString).length + (matchAtom k1 w1 op1 v1).length)
      (identTok k2 (({} : Token).End + ([] : GoString).length +
        (matchAtom k1 w1 op1 v1).length + w.length)) :=
    Lex_ident_ws printTable hw hk2 hdA (notIdent_head w2 op2 _ hw2 hop2)
  have hrun : Runs (Parser.parseExpression printTable) (NewParser printTable input)
      (mkMatch k1 op1 v1)
      (stateAt input (atomStringTok k1 w1 op1 v1 (({} : Token).End + ([] : GoString).length))
        (identTok k2 (({} : Token).End + ([] : GoString).length +
          (matchAtom k1 w1 op1 v1).length + w.length))) :=
    Runs.expr_of printTable
      (Runs.and_of printTable
        (Runs.not_match_after printTable input {} {} (identTok k2 _) []
          k1 w1 op1 v1 _ rfl hk1 hw1 hop1 hv1 hd0 lK)
        (Runs.andLoop_stop printTable _ (by simp [stateAt, identTok])))
      (Runs.orLoop_stop printTable _ (by simp [stateAt, identTok]))
  rw [Parse_of_runs printTable hrun]
  have he : (stateAt input (atomStringTok k1 w1 op1 v1
      (({} : Token).End + ([] : GoString).length))
      (identTok k2 (({} : Token).End + ([] : GoString).length +
        (matchAtom k1 w1 op1 v1).length + w.length))).err = none := rfl
  have ht : (stateAt input (atomStringTok k1 w1 op1 v1
      (({} : Token).End + ([] : GoString).length))
      (identTok k2 (({} : Token).End + ([] : GoString).length +
        (matchAtom k1 w1 op1 v1).length + w.length))).curTok.Typ ≠ TOKEN_EOF := by
    simp [stateAt, identTok]
  rw [if_neg (by rw [he]; simp), if_pos ht, Parser.errorf_stateAt]
  have e0 : ({} : Token).End + ([] : GoString).length + (matchAtom k1 w1 op1 v1).length +
      w.length = (matchAtom k1 w1 op1 v1).length + w.length := by
    show 0 + 0 + _ + _ = _
    omega
  simp only [stateAt, identTok, e0]

/-- Two atoms with no connective are rejected at the second atom, for
whitespace as the lexer reads it byte by byte. For any two match atoms `a`,
`b` (with MATCH nodes `A`, `B`) and any string `w` of bytes that
`skipWhitespace` skips, `Parse (a ++ w ++ b)` fails; the diagnostic is the message
`unexpected trailing token`, the quoted key of `b`, ` at position ` and the
offset `len(a)+len(w)`, then the input, then the caret line of exactly
`len(a)+len(w)` spaces and `^`. -/
theorem Parse_trailing_atom (a b : GoString) (A B : Expr) (w : GoString)
    (ha : IsMatchAtom a A) (hb : IsMatchAtom b B) (hw : isLexSpace w = true) :
    Parse printTable (a ++ w ++ b) =
      some (.nil, some (ascii "unexpected trailing token " ++ fmtQ printTable B.Key ++
        ascii " at position " ++ fmtD (a.length + w.length) ++ [10] ++
        (a ++ w ++ b) ++ [10] ++ List.replicate (a.length + w.length) 32 ++ [94])) := by
  obtain ⟨k1, w1, op1, v1, hk1, hw1, hop1, hv1, rfl, rfl⟩ := ha
  obtain ⟨k2, w2, op2, v2, hk2, hw2, hop2, _, rfl, rfl⟩ := hb
  exact Parse_atom_atom printTable k1 w1 op1 v1 w k2 w2 op2 v2 hk1 hw1 hop1 hv1 hw hk2 hw2 hop2

end Fmt

/-- Example: `a:"1" b:"2"` fails with the caret at offset 6. -/
theorem Parse_trailing_atom_witness :
    Parse noWidePrint (ascii "a:\"1\" b:\"2\"") =
      some (.nil, some (ascii
        "unexpected trailing token \"b\" at position 6\na:\"1\" b:\"2\"\n      ^")) :=
  Parse_trailing_atom noWidePrint (ascii "a:\"1\"") (ascii "b:\"2\"") _ _ (ascii " ")
    (IsMatchAtom.of_parts (ascii "a") (ascii ":") (ascii "1") (by decide) (by decide) (by decide))
    (IsMatchAtom.of_parts (ascii "b") (ascii ":") (ascii "2") (by decide) (by decide) (by decide))
    (by decide)

/-! ### Lexer: the result of `NextToken` by cases on the first byte -/

theorem afterSpace_le (inp : GoString) (pos : Nat) (h : pos ≤ inp.length) :
    afterSpace inp pos ≤ inp.length := by
  have hle := takeWhile_length_le isSpaceByte (inp.drop pos)
  simp only [List.length_drop] at hle
  unfold afterSpace
  omega

theorem headRune_pos {inp : GoString} {q : Nat} (h : headRune (inp.drop q) ≠ 0) :
    q < inp.length := by
  cases hd : inp.drop q with
  | nil => simp [hd, headRune] at h
  | cons b rest => exact (drop_cons_facts hd).2.2

theorem Lexer.next_head {inp : GoString} {q : Nat} (h : headRune (inp.drop q) ≠ 0) :
    Lexer.next ⟨inp, q⟩ = (headRune (inp.drop q), ⟨inp, q + 1⟩) := by
  have hp : Lexer.peek ⟨inp, q⟩ ≠ 0 := by rw [Lexer.peek_eq]; exact h
  have hn := (Lexer.next_of_peek hp).1
  rw [Lexer.peek_eq] at hn
  exact hn

section Fmt

variable (printTable : Nat → Bool)

/-- The source's `NextToken` with the lexer positions made explicit: `q` is
the offset of the first byte after the whitespace and `c` the rune `peek`
reads there. -/
theorem Lexer.NextToken_eq (inp : GoString) (pos q c : Nat)
    (hq : q = afterSpace inp pos) (hc : c = headRune (inp.drop q)) :
    Lexer.NextToken printTable ⟨inp, pos⟩ =
      if c = 0 then ({ Typ := TOKEN_EOF, Start := q, End := q }, none, ⟨inp, q⟩)
      else if isLetter c then Lexer.lexIdent ⟨inp, q⟩
      else if c = 34 then Lexer.lexString ⟨inp, q⟩
      else if c = 38 then
        if headRune (inp.drop (q + 1)) = 38 then
          ({ Typ := TOKEN_AND, Value := ascii "&&", Start := q, End := q + 2 }, none,
            ⟨inp, q + 2⟩)
        else ({}, some (ascii "unexpected character '&' at " ++ fmtD q), ⟨inp, q + 1⟩)
      else if c = 124 then
        if headRune (inp.drop (q + 1)) = 124 then
          ({ Typ := TOKEN_OR, Value := ascii "||", Start := q, End := q + 2 }, none,
            ⟨inp, q + 2⟩)
        else ({}, some (ascii "unexpected character '|' at " ++ fmtD q), ⟨inp, q + 1⟩)
      else if c = 33 then
        ({ Typ := TOKEN_NOT, Value := ascii "!", Start := q, End := q + 1 }, none, ⟨inp, q + 1⟩)
      else if c = 58 then
        if headRune (inp.drop (q + 1)) = 61 then
          ({ Typ := TOKEN_ASSIGN, Value := ascii ":=", Start := q, End := q + 2 }, none,
            ⟨inp, q + 2⟩)
        else
          ({ Typ := TOKEN_COLON, Value := ascii ":", Start := q, End := q + 1 }, none,
            ⟨inp, q + 1⟩)
      else if c = 40 then
        ({ Typ := TOKEN_LPAREN, Value := ascii "(", Start := q, End := q + 1 }, none,
          ⟨inp, q + 1⟩)
      else if c = 41 then
        ({ Typ := TOKEN_RPAREN, Value := ascii ")", Start := q, End := q + 1 }, none,
          ⟨inp, q + 1⟩)
      else if c = 91 then
        ({ Typ := TOKEN_LBRACKET, Value := ascii "[", Start := q, End := q + 1 }, none,
          ⟨inp, q + 1⟩)
      else if c = 93 then
        ({ Typ := TOKEN_RBRACKET, Value := ascii "]", Start := q, End := q + 1 }, none,
          ⟨inp, q + 1⟩)
      else if c = 44 then
        ({ Typ := TOKEN_COMMA, Value := ascii ",", Start := q, End := q + 1 }, none,
          ⟨inp, q + 1⟩)
      else
        ({}, some (ascii "unexpected character " ++ fmtQRune printTable c ++
          ascii " at position " ++ fmtD q), ⟨inp, q⟩) := by
  have hws := (⟨inp, pos⟩ : Lexer).skipWhitespace_eq
  simp only at hws
  unfold Lexer.NextToken
  rw [hws]
  unfold afterSpace at hq
  rw [← hq]
  simp only [Lexer.peek_eq, ← hc]
  by_cases h0 : c = 0
  · simp only [h0, if_true]
  have hn : Lexer.next ⟨inp, q⟩ = (headRune (inp.drop q), ⟨inp, q + 1⟩) :=
    Lexer.next_head (by rw [← hc]; exact h0)
  simp only [hn, Lexer.peek_eq, if_neg h0]
  have h2 : ∀ d : Nat, d ≠ 0 → headRune (inp.drop (q + 1)) = d →
      (Lexer.next ⟨inp, q + 1⟩).2 = ⟨inp, q + 1 + 1⟩ := by
    intro d hd he
    rw [Lexer.next_head (by rw [he]; exact hd)]
  by_cases hL : isLetter c = true
  · rw [if_pos hL, if_pos hL]
  rw [if_neg hL, if_neg hL]
  by_cases hS : c = 34
  · rw [if_pos hS, if_pos hS]
  rw [if_neg hS, if_neg hS]
  by_cases h38 : c = 38
  · rw [if_pos h38, if_pos h38]
    by_cases k : headRune (inp.drop (q + 1)) = 38
    · rw [if_pos k, if_pos k, h2 38 (by decide) k]
    · rw [if_neg k, if_neg k]
  rw [if_neg h38, if_neg h38]
  by_cases h124 : c = 124
  · rw [if_pos h124, if_pos h124]
    by_cases k : headRune (inp.drop (q + 1)) = 124
    · rw [if_pos k, if_pos k, h2 124 (by decide) k]
    · rw [if_neg k, if_neg k]
  rw [if_neg h124, if_neg h124]
  by_cases h33 : c = 33
  · rw [if_pos h33, if_pos h33]
  rw [if_neg h33, if_neg h33]
  by_cases h58 : c = 58
  · rw [if_pos h58, if_pos h58]
    by_cases k : headRune (inp.drop (q + 1)) = 61
    · rw [if_pos k, if_pos k, h2 61 (by decide) k]
    · rw [if_neg k, if_neg k]
  rw [if_neg h58, if_neg h58]

end Fmt

/-! ### String literals -/

theorem getElem_of_headRune {s : GoString} {i : Nat} (b0 : Byte) (hb0 : b0.val ≠ 0)
    (h : headRune (s.drop i) = b0.val) : s[i]? = some b0 := by
  cases hd : s.drop i with
  | nil => rw [hd] at h; exact absurd h.symm hb0
  | cons b rest =>
    rw [hd] at h
    rw [(drop_cons_facts hd).1]
    exact congrArg some (Fin.ext h)

theorem mem_drop_mono {s : GoString} {i j : Nat} (hij : i ≤ j) {b : Byte}
    (hb : b ∈ s.drop j) : b ∈ s.drop i := by
  have e : s.drop j = (s.drop i).drop (j - i) := by
    rw [List.drop_drop]
    congr 1
    omega
  rw [e] at hb
  exact List.mem_of_mem_drop hb

/-- When the loop of `lexString` leaves by its `break`, the byte just before
the lexer is the closing double quote. -/
theorem Lexer.lexStringLoop_some (fuel : Nat) (l l' : Lexer)
    (h : (l.lexStringLoop fuel).1 = some l') :
    (l.lexStringLoop fuel).2 = l' ∧ l'.input = l.input ∧ l.pos < l'.pos ∧
      headRune (l.input.drop (l'.pos - 1)) = 34 := by
  induction fuel generalizing l with
  | zero => simp [Lexer.lexStringLoop] at h
  | succ n ih =>
    unfold Lexer.lexStringLoop at h ⊢
    cases hd : l.input.drop l.pos with
    | nil =>
      rw [Lexer.next_nil hd] at h
      simp at h
    | cons b rest =>
      have hf := drop_cons_facts hd
      rw [Lexer.next_cons hd] at h ⊢
      simp only at h ⊢
      by_cases h0 : b.val = 0
      · rw [if_pos h0] at h
        simp at h
      rw [if_neg h0] at h ⊢
      by_cases h34 : b.val = 34
      · rw [if_pos h34] at h ⊢
        simp only [Option.some.injEq] at h
        subst h
        refine ⟨rfl, rfl, by simp, ?_⟩
        simp [hd, headRune, h34]
      rw [if_neg h34] at h ⊢
      by_cases h92 : b.val = 92
      · rw [if_pos h92] at h ⊢
        have i := ih _ h
        have nf := Lexer.next_facts ⟨l.input, l.pos + 1⟩
        simp only at nf
        refine ⟨i.1, ?_, ?_, ?_⟩
        · rw [i.2.1, nf.1]
        · omega
        · have i4 := i.2.2.2
          rw [nf.1] at i4
          exact i4
      · rw [if_neg h92] at h ⊢
        have i := ih _ h
        simp only at i
        exact ⟨i.1, i.2.1, by omega, i.2.2.2⟩

/-- Without a double quote in the rest of the input, the loop of `lexString`
ends with the `unterminated string` error. -/
theorem Lexer.lexStringLoop_none (fuel : Nat) (l : Lexer)
    (h : ∀ b ∈ l.input.drop l.pos, b.val ≠ 34) : (l.lexStringLoop fuel).1 = none := by
  induction fuel generalizing l with
  | zero => rfl
  | succ n ih =>
    unfold Lexer.lexStringLoop
    cases hd : l.input.drop l.pos with
    | nil => rw [Lexer.next_nil hd]; rfl
    | cons b rest =>
      have hf := drop_cons_facts hd
      rw [Lexer.next_cons hd]
      simp only
      have hb : b.val ≠ 34 := h b (by rw [hd]; exact List.mem_cons_self _ _)
      by_cases h0 : b.val = 0
      · rw [if_pos h0]
      rw [if_neg h0, if_neg hb]
      have nf := Lexer.next_facts ⟨l.input, l.pos + 1⟩
      simp only at nf
      by_cases h92 : b.val = 92
      · rw [if_pos h92]
        apply ih
        intro c hc
        rw [nf.1] at hc
        exact h c (mem_drop_mono (by omega) hc)
      · rw [if_neg h92]
        apply ih
        intro c hc
        exact h c (mem_drop_mono (Nat.le_succ _) hc)

/-- The result of `lexString` at an opening quote at `q` when no double quote
follows. -/
theorem Lexer.lexString_none {inp : GoString} {q : Nat} (h34 : headRune (inp.drop q) = 34)
    (h : ∀ b ∈ inp.drop (q + 1), b.val ≠ 34) :
    ∃ l, Lexer.lexString ⟨inp, q⟩ = ({}, some (ascii "unterminated string"), l) := by
  unfold Lexer.lexString
  rw [Lexer.next_head (by rw [h34]; decide)]
  simp only
  have hn := Lexer.lexStringLoop_none (inp.length - (q + 1) + 1) ⟨inp, q + 1⟩ h
  generalize Lexer.lexStringLoop (inp.length - (q + 1) + 1) ⟨inp, q + 1⟩ = r at hn
  obtain ⟨r1, r2⟩ := r
  simp only at hn
  subst hn
  exact ⟨r2, rfl⟩

/-- What `lexString` returns at an opening quote at `q`: the error
`unterminated string`, or a STRING token from `q` to just after a closing
quote whose text is the input between the two quotes. -/
theorem Lexer.lexString_cases {inp : GoString} {q : Nat} (h34 : headRune (inp.drop q) = 34) :
    (∃ l, Lexer.lexString ⟨inp, q⟩ = ({}, some (ascii "unterminated string"), l) ∧
      l.input = inp ∧ q < l.pos ∧ l.pos ≤ inp.length) ∨
    (∃ e, Lexer.lexString ⟨inp, q⟩ =
        ({ Typ := TOKEN_STRING, Value := slice inp (q + 1) (e - 1), Start := q, End := e },
          none, ⟨inp, e⟩) ∧
      q + 1 < e ∧ e ≤ inp.length ∧ headRune (inp.drop (e - 1)) = 34) := by
  unfold Lexer.lexString
  rw [Lexer.next_head (by rw [h34]; decide)]
  simp only
  have hq : q < inp.length := headRune_pos (by rw [h34]; decide)
  have hs := Lexer.lexStringLoop_some (inp.length - (q + 1) + 1) ⟨inp, q + 1⟩
  have hf := Lexer.lexStringLoop_facts (inp.length - (q + 1) + 1) ⟨inp, q + 1⟩
  generalize Lexer.lexStringLoop (inp.length - (q + 1) + 1) ⟨inp, q + 1⟩ = r at hs hf
  obtain ⟨r1, ⟨i2, e⟩⟩ := r
  simp only at hs hf
  obtain ⟨hf1, hf2, hf3, _⟩ := hf
  subst hf1
  have hf4 : e ≤ i2.length := hf3 (by omega)
  have hf5 : q + 1 ≤ e := hf2
  cases r1 with
  | none => exact Or.inl ⟨_, rfl, rfl, hf5, hf4⟩
  | some l' =>
    obtain ⟨h1, _, h3, h4⟩ := hs l' rfl
    subst h1
    exact Or.inr ⟨e, rfl, h3, hf4, h4⟩

/-! ### Lexer: the three outcomes of `NextToken` -/

theorem LexCase_tok (printTable : Nat → Bool) (inp : GoString) (q c : Nat) (t : Token)
    (h0 : c ≠ 0) (ha : inAlphabet c = true) (h1 : t.Typ ≠ 0) (h2 : t.Start = q)
    (h3 : q < t.End) (h4 : t.End ≤ inp.length) (h5 : t.Typ ≠ TOKEN_STRING) :
    LexCase printTable inp q c (t, none, ⟨inp, t.End⟩) :=
  Or.inr (Or.inr ⟨h0, ha, t, rfl, h1, h2, h3, h4, fun h => absurd h h5⟩)

theorem LexCase_err (printTable : Nat → Bool) (inp : GoString) (q c e : Nat) (msg : GoString)
    (h0 : c ≠ 0) (ha : c = 34 ∨ c = 38 ∨ c = 124 ∨ inAlphabet c = false)
    (h1 : q ≤ e) (h2 : e ≤ inp.length) (hm : msg = lexMessage printTable c q) :
    LexCase printTable inp q c ({}, some msg, ⟨inp, e⟩) :=
  Or.inr (Or.inl ⟨h0, ha, e, h1, h2, by rw [hm]⟩)

section Fmt

variable (printTable : Nat → Bool)

theorem Lexer.NextToken_case (inp : GoString) (pos : Nat) :
    LexCase printTable inp (afterSpace inp pos) (headRune (inp.drop (afterSpace inp pos)))
      (Lexer.NextToken printTable ⟨inp, pos⟩) := by
  rw [Lexer.NextToken_eq printTable inp pos _ _ rfl rfl]
  generalize afterSpace inp pos = q
  generalize hc : headRune (inp.drop q) = c
  by_cases h0 : c = 0
  · rw [if_pos h0]
    exact Or.inl ⟨h0, rfl⟩
  rw [if_neg h0]
  have hq : q < inp.length := headRune_pos (by rw [hc]; exact h0)
  have hq2 : ∀ d : Nat, d ≠ 0 → headRune (inp.drop (q + 1)) = d → q + 1 < inp.length :=
    fun d hd he => headRune_pos (by rw [he]; exact hd)
  by_cases hL : isLetter c = true
  · rw [if_pos hL, Lexer.lexIdent_eq]
    rw [← hc] at hL
    have hid := isLexIdent_takeWhile hL
    have hle := takeWhile_length_le isIdentByte (inp.drop q)
    simp only [List.length_drop] at hle
    simp only at hid
    exact LexCase_tok printTable inp q c
      { Typ := TOKEN_IDENT, Value := (inp.drop q).takeWhile isIdentByte, Start := q,
        End := q + ((inp.drop q).takeWhile isIdentByte).length }
      h0 (by rw [← hc]; simp [inAlphabet, hL]) (by simp) rfl
      (by show q < q + _; omega) (by show q + _ ≤ _; omega) (by simp)
  rw [if_neg hL]
  by_cases hS : c = 34
  · rw [if_pos hS]
    rcases Lexer.lexString_cases (show headRune (inp.drop q) = 34 by rw [hc, hS]) with
      ⟨l, hl, hi, h1, h2⟩ | ⟨e, hl, h1, h2, h3⟩
    · rw [hl]
      obtain ⟨i2, e⟩ := l
      simp only at hi h1 h2
      subst hi
      exact LexCase_err printTable _ q c e _ h0 (Or.inl hS) (Nat.le_of_lt h1) h2
        (by simp [lexMessage, hS])
    · rw [hl]
      exact Or.inr (Or.inr ⟨h0, by simp [inAlphabet, hS], _, rfl, by simp, rfl,
        (by show q < e; omega), h2, fun _ => ⟨by rw [hc, hS], h3, h1, rfl⟩⟩)
  rw [if_neg hS]
  by_cases h38 : c = 38
  · rw [if_pos h38]
    by_cases k : headRune (inp.drop (q + 1)) = 38
    · rw [if_pos k]
      have := hq2 38 (by decide) k
      exact LexCase_tok printTable inp q c
        { Typ := TOKEN_AND, Value := ascii "&&", Start := q, End := q + 2 }
        h0 (by simp [inAlphabet, h38]) (by simp) rfl (by show q < q + 2; omega)
        (by show q + 2 ≤ _; omega) (by simp)
    · rw [if_neg k]
      exact LexCase_err printTable _ q c (q + 1) _ h0 (Or.inr (Or.inl h38)) (by omega) hq
        (by simp [lexMessage, h38])
  rw [if_neg h38]
  by_cases h124 : c = 124
  · rw [if_pos h124]
    by_cases k : headRune (inp.drop (q + 1)) = 124
    · rw [if_pos k]
      have := hq2 124 (by decide) k
      exact LexCase_tok printTable inp q c
        { Typ := TOKEN_OR, Value := ascii "||", Start := q, End := q + 2 }
        h0 (by simp [inAlphabet, h124]) (by simp) rfl (by show q < q + 2; omega)
        (by show q + 2 ≤ _; omega) (by simp)
    · rw [if_neg k]
      exact LexCase_err printTable _ q c (q + 1) _ h0 (Or.inr (Or.inr (Or.inl h124)))
        (by omega) hq (by simp [lexMessage, h124])
  rw [if_neg h124]
  by_cases h33 : c = 33
  · rw [if_pos h33]
    exact LexCase_tok printTable inp q c
      { Typ := TOKEN_NOT, Value := ascii "!", Start := q, End := q + 1 }
      h0 (by simp [inAlphabet, h33]) (by simp) rfl (by show q < q + 1; omega) hq (by simp)
  rw [if_neg h33]
  by_cases h58 : c = 58
  · rw [if_pos h58]
    by_cases k : headRune (inp.drop (q + 1)) = 61
    · rw [if_pos k]
      have := hq2 61 (by decide) k
      exact LexCase_tok printTable inp q c
        { Typ := TOKEN_ASSIGN, Value := ascii ":=", Start := q, End := q + 2 }
        h0 (by simp [inAlphabet, h58]) (by simp) rfl (by show q < q + 2; omega)
        (by show q + 2 ≤ _; omega) (by simp)
    · rw [if_neg k]
      exact LexCase_tok printTable inp q c
        { Typ := TOKEN_COLON, Value := ascii ":", Start := q, End := q + 1 }
        h0 (by simp [inAlphabet, h58]) (by simp) rfl (by show q < q + 1; omega) hq (by simp)
  rw [if_neg h58]
  by_cases h40 : c = 40
  · rw [if_pos h40]
    exact LexCase_tok printTable inp q c
      { Typ := TOKEN_LPAREN, Value := ascii "(", Start := q, End := q + 1 }
      h0 (by simp [inAlphabet, h40]) (by simp) rfl (by show q < q + 1; omega) hq (by simp)
  rw [if_neg h40]
  by_cases h41 : c = 41
  · rw [if_pos h41]
    exact LexCase_tok printTable inp q c
      { Typ := TOKEN_RPAREN, Value := ascii ")", Start := q, End := q + 1 }
      h0 (by simp [inAlphabet, h41]) (by simp) rfl (by show q < q + 1; omega) hq (by simp)
  rw [if_neg h41]
  by_cases h91 : c = 91
  · rw [if_pos h91]
    exact LexCase_tok printTable inp q c
      { Typ := TOKEN_LBRACKET, Value := ascii "[", Start := q, End := q + 1 }
      h0 (by simp [inAlphabet, h91]) (by simp) rfl (by show q < q + 1; omega) hq (by simp)
  rw [if_neg h91]
  by_cases h93 : c = 93
  · rw [if_pos h93]
    exact LexCase_tok printTable inp q c
      { Typ := TOKEN_RBRACKET, Value := ascii "]", Start := q, End := q + 1 }
      h0 (by simp [inAlphabet, h93]) (by simp) rfl (by show q < q + 1; omega) hq (by simp)
  rw [if_neg h93]
  by_cases h44 : c = 44
  · rw [if_pos h44]
    exact LexCase_tok printTable inp q c
      { Typ := TOKEN_COMMA, Value := ascii ",", Start := q, End := q + 1 }
      h0 (by simp [inAlphabet, h44]) (by simp) rfl (by show q < q + 1; omega) hq (by simp)
  rw [if_neg h44]
  exact LexCase_err printTable _ q c q _ h0
    (Or.inr (Or.inr (Or.inr (by simp [inAlphabet, hL, hS, h38, h124, h33, h58, h40, h41, h91,
      h93, h44]))))
    (Nat.le_refl _) (Nat.le_of_lt hq) (by simp [lexMessage, hS, h38, h124])

end Fmt

/-! ### Lexer: string tokens, end of input, errors -/

theorem afterSpace_of_head {inp : GoString} {q : Nat} (h : headRune (inp.drop q) = 0) :
    afterSpace inp q = q := by
  unfold afterSpace
  cases hd : inp.drop q with
  | nil => simp
  | cons b rest =>
    rw [hd] at h
    simp only [headRune] at h
    simp [List.takeWhile, isSpaceByte, unicodeIsSpace, h]

section Fmt

variable (printTable : Nat → Bool)

/-- A call of `NextToken` keeps the input, and from a position within the
input it leaves the lexer within the input and returns a token that starts
within it. -/
theorem Lexer.NextToken_bounds (inp : GoString) (pos : Nat) (h : pos ≤ inp.length) :
    (Lexer.NextToken printTable ⟨inp, pos⟩).2.2.input = inp ∧
    (Lexer.NextToken printTable ⟨inp, pos⟩).2.2.pos ≤ inp.length ∧
    (Lexer.NextToken printTable ⟨inp, pos⟩).1.Start ≤ inp.length := by
  have hq := afterSpace_le inp pos h
  rcases Lexer.NextToken_case printTable inp pos with
    ⟨_, hr⟩ | ⟨_, _, e, _, h2, hr⟩ | ⟨_, _, t, hr, _, h2, h3, h4, _⟩
  · rw [hr]
    exact ⟨rfl, hq, hq⟩
  · rw [hr]
    exact ⟨rfl, h2, Nat.zero_le _⟩
  · rw [hr]
    refine ⟨rfl, h4, ?_⟩
    show t.Start ≤ _
    omega

/-- The lexer reached from `NewLexer input` by any number of calls reads
`input` and stands within it. -/
theorem Lexer.afterCalls_bounds (input : GoString) (n : Nat) (l : Lexer)
    (h1 : l.input = input) (h2 : l.pos ≤ input.length) :
    (Lexer.afterCalls printTable n l).input = input ∧
      (Lexer.afterCalls printTable n l).pos ≤ input.length := by
  induction n generalizing l with
  | zero => exact ⟨h1, h2⟩
  | succ k ih =>
    obtain ⟨inp, pos⟩ := l
    simp only at h1 h2
    subst h1
    have hb := Lexer.NextToken_bounds printTable inp pos h2
    exact ih _ hb.1 hb.2.1

/-- A call that returns a token of type EOF without error returns the EOF
token at the place where the lexer then stands, and the next call returns
the same. -/
theorem Lexer.NextToken_eof_fix (inp : GoString) (pos : Nat) (tok : Token) (l' : Lexer)
    (h : Lexer.NextToken printTable ⟨inp, pos⟩ = (tok, none, l')) (ht : tok.Typ = TOKEN_EOF) :
    Lexer.NextToken printTable l' = (tok, none, l') ∧ l'.input = inp ∧
      tok = { Typ := TOKEN_EOF, Value := [], Start := l'.pos, End := l'.pos } := by
  rcases Lexer.NextToken_case printTable inp pos with
    ⟨hc, hr⟩ | ⟨_, _, e, _, _, hr⟩ | ⟨_, _, t, hr, h1, _⟩
  · rw [h] at hr
    simp only [Prod.mk.injEq, true_and] at hr
    obtain ⟨h1, h2⟩ := hr
    subst h1 h2
    refine ⟨?_, rfl, rfl⟩
    rw [Lexer.NextToken_eq printTable inp _ _ 0 (afterSpace_of_head hc).symm hc.symm]
    rfl
  · rw [h] at hr
    simp at hr
  · rw [h] at hr
    simp only [Prod.mk.injEq, true_and] at hr
    rw [← hr.1] at h1
    exact absurd ht h1

/-- C17: the lexer is idempotent at end of input. When a call of `NextToken`
on a lexer reached from `NewLexer input` by `n` calls returns a token of type
EOF with no error, every further call (after any number `m` of further
calls) returns that same token with no error and leaves the lexer where it
is; the token has empty text, its `Start` and `End` are the lexer position,
and that position is within the input. -/
theorem Lexer.NextToken_eof_idempotent (input : GoString) (n : Nat) (tok : Token) (l' : Lexer)
    (h : Lexer.NextToken printTable (Lexer.afterCalls printTable n (NewLexer input)) =
      (tok, none, l'))
    (ht : tok.Typ = TOKEN_EOF) (m : Nat) :
    Lexer.afterCalls printTable m l' = l' ∧
    Lexer.NextToken printTable (Lexer.afterCalls printTable m l') = (tok, none, l') ∧
    tok.Value = [] ∧ tok.Start = l'.pos ∧ tok.End = l'.pos ∧
    l'.input = input ∧ l'.pos ≤ input.length := by
  have hb := Lexer.afterCalls_bounds printTable input n (NewLexer input) rfl (Nat.zero_le _)
  generalize Lexer.afterCalls printTable n (NewLexer input) = l at h hb
  obtain ⟨inp, pos⟩ := l
  simp only at hb
  obtain ⟨hb1, hb2⟩ := hb
  subst hb1
  have hf := Lexer.NextToken_eof_fix printTable inp pos tok l' h ht
  have hn := Lexer.NextToken_bounds printTable inp pos hb2
  rw [h] at hn
  have hm : Lexer.afterCalls printTable m l' = l' := by
    induction m with
    | zero => rfl
    | succ k ih =>
      show Lexer.afterCalls printTable k (Lexer.NextToken printTable l').2.2 = l'
      rw [hf.1]
      exact ih
  rw [hm]
  refine ⟨rfl, hf.1, ?_, ?_, ?_, hf.2.1, hn.2.1⟩
  · rw [hf.2.2]
  · rw [hf.2.2]
  · rw [hf.2.2]

/-- C18: string literals store their raw text. When `NextToken` returns a
token `t` of type STRING, the bytes `input[t.Start]` and `input[t.End-1]` are
double quotes, they are two different bytes of the input, and `t.Value` is
the slice `input[t.Start+1 : t.End-1]` between them, byte for byte; no error
is returned. -/
theorem Lexer.NextToken_string_raw (l : Lexer)
    (h : (l.NextToken printTable).1.Typ = TOKEN_STRING) :
    l.input[(l.NextToken printTable).1.Start]? = some 34 ∧
    l.input[(l.NextToken printTable).1.End - 1]? = some 34 ∧
    (l.NextToken printTable).1.Start + 1 ≤ (l.NextToken printTable).1.End - 1 ∧
    (l.NextToken printTable).1.End ≤ l.input.length ∧
    (l.NextToken printTable).1.Value =
      slice l.input ((l.NextToken printTable).1.Start + 1)
        ((l.NextToken printTable).1.End - 1) ∧
    (l.NextToken printTable).2.1 = none := by
  obtain ⟨inp, pos⟩ := l
  rcases Lexer.NextToken_case printTable inp pos with
    ⟨_, hr⟩ | ⟨_, _, e, _, _, hr⟩ | ⟨_, _, t, hr, _, h2, _, h4, hs⟩
  · rw [hr] at h
    simp at h
  · rw [hr] at h
    simp at h
  · rw [hr] at h ⊢
    simp only at h ⊢
    obtain ⟨s1, s2, s3, s4⟩ := hs h
    rw [h2]
    refine ⟨getElem_of_headRune 34 (by decide) s1, getElem_of_headRune 34 (by decide) s2,
      by omega, h4, s4, trivial⟩

/-- The message of every error of `NextToken`: `q` is the offset of the first
byte after the whitespace and `c` the rune there. An unclosed string literal
gives `unterminated string`; a lone `&` or `|` and a byte outside the
alphabet give a message that ends in the decimal offset `q`. -/
theorem Lexer.NextToken_error (l : Lexer) (e : GoString)
    (h : (l.NextToken printTable).2.1 = some e) :
    (l.NextToken printTable).1 = {} ∧ afterSpace l.input l.pos < l.input.length ∧
    ((headRune (l.input.drop (afterSpace l.input l.pos)) = 34 ∧
        e = ascii "unterminated string") ∨
      (headRune (l.input.drop (afterSpace l.input l.pos)) = 38 ∧
        e = ascii "unexpected character '&' at " ++ fmtD (afterSpace l.input l.pos)) ∨
      (headRune (l.input.drop (afterSpace l.input l.pos)) = 124 ∧
        e = ascii "unexpected character '|' at " ++ fmtD (afterSpace l.input l.pos)) ∨
      (inAlphabet (headRune (l.input.drop (afterSpace l.input l.pos))) = false ∧
        e = ascii "unexpected character " ++
          fmtQRune printTable (headRune (l.input.drop (afterSpace l.input l.pos))) ++
          ascii " at position " ++ fmtD (afterSpace l.input l.pos))) := by
  obtain ⟨inp, pos⟩ := l
  simp only at h ⊢
  rcases Lexer.NextToken_case printTable inp pos with
    ⟨_, hr⟩ | ⟨h0, ha, e', _, _, hr⟩ | ⟨_, _, t, hr, _⟩
  · rw [hr] at h
    simp at h
  · rw [hr] at h ⊢
    simp only [Option.some.injEq] at h
    refine ⟨rfl, headRune_pos h0, ?_⟩
    generalize headRune (inp.drop (afterSpace inp pos)) = c at h ha h0
    rcases ha with ha | ha | ha | ha
    · exact Or.inl ⟨ha, by rw [← h, ha]; rfl⟩
    · exact Or.inr (Or.inl ⟨ha, by rw [← h, ha]; rfl⟩)
    · exact Or.inr (Or.inr (Or.inl ⟨ha, by rw [← h, ha]; rfl⟩))
    · refine Or.inr (Or.inr (Or.inr ⟨ha, ?_⟩))
      rw [← h]
      simp only [inAlphabet, Bool.or_eq_false_iff, beq_eq_false_iff_ne, ne_eq] at ha
      simp [lexMessage, ha]
  · rw [hr] at h
    simp at h

end Fmt

/-- Witness of C17: after the key of `a `, the lexer returns the EOF token at
offset 2, and so does the call after three more calls. -/
theorem Lexer.NextToken_eof_idempotent_witness :
    Lexer.afterCalls noWidePrint 3 ⟨ascii "a ", 2⟩ = ⟨ascii "a ", 2⟩ ∧
    Lexer.NextToken noWidePrint (Lexer.afterCalls noWidePrint 3 ⟨ascii "a ", 2⟩) =
      ({ Typ := TOKEN_EOF, Start := 2, End := 2 }, none, ⟨ascii "a ", 2⟩) ∧
    ({ Typ := TOKEN_EOF, Start := 2, End := 2 } : Token).Value = [] ∧
    ({ Typ := TOKEN_EOF, Start := 2, End := 2 } : Token).Start = 2 ∧
    ({ Typ := TOKEN_EOF, Start := 2, End := 2 } : Token).End = 2 ∧
    (⟨ascii "a ", 2⟩ : Lexer).input = ascii "a " ∧ 2 ≤ (ascii "a ").length :=
  Lexer.NextToken_eof_idempotent noWidePrint (ascii "a ") 1
    { Typ := TOKEN_EOF, Start := 2, End := 2 } ⟨ascii "a ", 2⟩ (by decide) (by decide) 3

/-- Witness of C18: in `k:"a\"b" x` the token at offset 2 is the string
literal with the escaped quote; its text is the four bytes between the outer
quotes, backslash included. -/
theorem Lexer.NextToken_string_raw_witness :
    (ascii "k:\"a\\\"b\" x")[2]? = some 34 ∧ (ascii "k:\"a\\\"b\" x")[7]? = some 34 ∧
    (Lexer.NextToken noWidePrint ⟨ascii "k:\"a\\\"b\" x", 2⟩).1.Value = ascii "a\\\"b" :=
  have h := Lexer.NextToken_string_raw noWidePrint ⟨ascii "k:\"a\\\"b\" x", 2⟩ (by decide)
  ⟨h.1, h.2.1, h.2.2.2.2.1⟩

/-! ### Errors of the lexer as the parser reports them -/

theorem isOperator_length {op : GoString} (hop : isOperator op = true) : 0 < op.length := by
  rcases isOperator_cases hop with h | h <;> subst h <;> decide

section Fmt

variable (printTable : Nat → Bool)

/-- When the lexer fails, `nextToken` latches its message with the caret at
the start of the token that was current before the call, and the zero token
becomes the current token. -/
theorem Parser.nextToken_error (input : GoString) (prev cur tok : Token) (e : GoString)
    (l : Lexer) (h : Lexer.NextToken printTable ⟨input, cur.End⟩ = (tok, some e, l)) :
    (stateAt input prev cur).nextToken printTable =
      { input := input, lexer := l, curTok := tok, prevTok := cur,
        err := some (e ++ [10] ++ input ++ [10] ++ List.replicate cur.Start 32 ++ [94]) } := by
  simp [Parser.nextToken, stateAt, h, Parser.errorf]

/-- The lexer at an opening quote that no double quote follows. -/
theorem Lexer.NextToken_unterminated {input : GoString} {pos : Nat} {v : GoString}
    (hd : input.drop pos = 34 :: v) (hv : ∀ b ∈ v, b.val ≠ 34) :
    ∃ l, Lexer.NextToken printTable ⟨input, pos⟩ =
      ({}, some (ascii "unterminated string"), l) := by
  have hq : pos = afterSpace input pos := by
    simp [afterSpace, hd, List.takeWhile, isSpaceByte, unicodeIsSpace, byteVal_34]
  have hc : (34 : Nat) = headRune (input.drop pos) := by
    rw [hd]
    rfl
  rw [Lexer.NextToken_eq printTable input pos pos 34 hq hc]
  rw [if_neg (by decide), if_neg (by decide), if_pos rfl]
  apply Lexer.lexString_none hc.symm
  rw [(drop_cons_facts hd).2.1]
  exact hv

/-- A key, an operator and a string literal that is never closed: `parseAtom`
returns `nil` with the error `unterminated string` latched, the caret under
the operator. -/
theorem Parser.parseAtom_unterminated (fuel : Nat) (hf : 1 ≤ fuel) (input : GoString)
    (prev : Token) (s : Nat) (k op v : GoString) (hop : isOperator op = true)
    (hv : ∀ b ∈ v, b.val ≠ 34) (hd : input.drop s = k ++ (op ++ 34 :: v)) :
    ∃ l, Parser.parseAtom printTable fuel (stateAt input prev (identTok k s)) =
      some (.nil,
        { input := input, lexer := l, curTok := {}, prevTok := opTok op (s + k.length),
          err := some (ascii "unterminated string" ++ [10] ++ input ++ [10] ++
            List.replicate (s + k.length) 32 ++ [94]) }) := by
  have hd1a := drop_append_facts hd
  have hd1 : input.drop (identTok k s).End = [] ++ (op ++ 34 :: v) := hd1a
  have hl1 : Lex printTable input (identTok k s).End (opTok op (s + k.length)) :=
    Lex_op_ws printTable isLexSpace_nil hop hd1 (by simp [headRune, byteVal_34])
  have hd2a := drop_append_facts (drop_append_facts hd1)
  have hd2 : input.drop (opTok op (s + k.length)).End = 34 :: v := hd2a
  obtain ⟨l, hl⟩ := Lexer.NextToken_unterminated printTable hd2 hv
  have ht := opTok_typ hop
  have hlen := isOperator_length hop
  obtain ⟨n, rfl⟩ : ∃ n, fuel = n + 1 := ⟨fuel - 1, by omega⟩
  refine ⟨l, ?_⟩
  rw [Parser.parseAtom]
  have c1 : (stateAt input prev (identTok k s)).curTok.Typ = TOKEN_IDENT := rfl
  rw [if_neg (by rw [c1]; decide), if_pos c1]
  simp only [Parser.nextToken_stateAt printTable _ _ _ _ hl1]
  have c2 : (stateAt input (identTok k s) (opTok op (s + k.length))).curTok.Typ
      = opType op := rfl
  rw [if_neg (by rw [c2]; rcases ht.1 with h | h <;> rw [h] <;> decide)]
  simp only [Parser.nextToken_error printTable _ _ _ _ _ _ hl]
  have c3 : Parser.noSpaceBetweenTokens
      { input := input, lexer := l, curTok := {}, prevTok := opTok op (s + k.length),
        err := some (ascii "unterminated string" ++ [10] ++ input ++ [10] ++
          List.replicate (opTok op (s + k.length)).Start 32 ++ [94]) } = false := by
    simp only [Parser.noSpaceBetweenTokens, opTok, beq_eq_false_iff_ne, ne_eq]
    omega
  rw [if_pos (by rw [c3]; rfl)]
  simp [Parser.errorf, opTok]

/-- An unclosed string literal is reported as such. For every key `k` that
`lexIdent` reads as one token, operator `op` (`:` or `:=`) and body `v`
without a double quote, `Parse` of `k`, `op`, a double quote and `v` fails, and the diagnostic is the line
`unterminated string`, then the input, then the caret line (the caret stands
under the operator). -/
theorem Parse_unterminated_string (k op v : GoString) (hk : isLexIdent k = true)
    (hop : isOperator op = true) (hv : ∀ b ∈ v, b.val ≠ 34) :
    Parse printTable (k ++ op ++ [34] ++ v) =
      some (.nil, some (ascii "unterminated string" ++ [10] ++ (k ++ op ++ [34] ++ v) ++ [10] ++
        List.replicate k.length 32 ++ [94])) := by
  generalize hin : k ++ op ++ [34] ++ v = input
  have hd0 : input.drop 0 = k ++ (op ++ 34 :: v) := by
    rw [← hin]
    simp
  have lK : Lex printTable input ({} : Token).End (identTok k 0) := by
    have := Lex_ident_ws printTable isLexSpace_nil hk
      (show input.drop 0 = [] ++ (k ++ (op ++ 34 :: v)) from hd0)
      (notIdent_head [] op _ isLexSpace_nil hop)
    simpa using this
  obtain ⟨l, hl⟩ := Parser.parseAtom_unterminated printTable 1 (Nat.le_refl _) input {} 0 k op v
    hop hv hd0
  have hrun := Runs.of_start printTable lK
    (Runs.expr_of_atom printTable ⟨1, hl⟩ (by simp [stateAt, identTok]) (by simp) (by simp))
  rw [Parse_reject_of_runs printTable hrun rfl]
  simp

end Fmt

/-- Example: `key:"abc` fails with `unterminated string`. -/
theorem Parse_unterminated_string_witness :
    Parse noWidePrint (ascii "key:\"abc") =
      some (.nil, some (ascii "unterminated string\nkey:\"abc\n   ^")) :=
  Parse_unterminated_string noWidePrint (ascii "key") (ascii ":") [97, 98, 99] (by decide)
    (by decide) (by simp; decide)

/-! ### Where the errors of the lexer point -/

section Fmt

variable (printTable : Nat → Bool)

/-- A byte other than NUL outside the alphabet is rejected: the zero token
and the error `unexpected character`, the quoted rune, ` at position ` and
the offset of the byte. -/
theorem Lexer.NextToken_unexpected (inp : GoString) (pos : Nat)
    (h0 : headRune (inp.drop (afterSpace inp pos)) ≠ 0)
    (ha : inAlphabet (headRune (inp.drop (afterSpace inp pos))) = false) :
    (Lexer.NextToken printTable ⟨inp, pos⟩).1 = {} ∧
    (Lexer.NextToken printTable ⟨inp, pos⟩).2.1 =
      some (ascii "unexpected character " ++
        fmtQRune printTable (headRune (inp.drop (afterSpace inp pos))) ++
        ascii " at position " ++ fmtD (afterSpace inp pos)) := by
  rcases Lexer.NextToken_case printTable inp pos with
    ⟨hc, _⟩ | ⟨_, _, e, _, _, hr⟩ | ⟨_, hb, _⟩
  · exact absurd hc h0
  · rw [hr]
    refine ⟨rfl, ?_⟩
    generalize headRune (inp.drop (afterSpace inp pos)) = c at ha
    simp only [inAlphabet, Bool.or_eq_false_iff, beq_eq_false_iff_ne, ne_eq] at ha
    simp [lexMessage, ha]
  · rw [ha] at hb
    exact absurd hb (by decide)

/-- C14, amended: every error of `NextToken` for a rejected character carries
the offset of that character. When `NextToken` fails with the message `e`,
with `q` the offset of the first byte after the whitespace: either that byte
is a double quote and `e` is `unterminated string`, which holds no digit; or
`e` ends in the decimal offset `q`, after `unexpected character '&' at `,
`unexpected character '|' at `, or `unexpected character `, the quoted rune
and ` at position `. -/
theorem Lexer.NextToken_error_offset (l : Lexer) (e : GoString)
    (h : (l.NextToken printTable).2.1 = some e) :
    (headRune (l.input.drop (afterSpace l.input l.pos)) = 34 ∧
      e = ascii "unterminated string" ∧ noDigit e = true) ∨
    (headRune (l.input.drop (afterSpace l.input l.pos)) ≠ 34 ∧
      ∃ pre, e = pre ++ fmtD (afterSpace l.input l.pos) ∧
        (pre = ascii "unexpected character '&' at " ∨
         pre = ascii "unexpected character '|' at " ∨
         pre = ascii "unexpected character " ++
           fmtQRune printTable (headRune (l.input.drop (afterSpace l.input l.pos))) ++
           ascii " at position ")) := by
  obtain ⟨_, _, hc⟩ := Lexer.NextToken_error printTable l e h
  rcases hc with ⟨h1, h2⟩ | ⟨h1, h2⟩ | ⟨h1, h2⟩ | ⟨h1, h2⟩
  · exact Or.inl ⟨h1, h2, by rw [h2]; decide⟩
  · exact Or.inr ⟨by rw [h1]; decide, _, h2, Or.inl rfl⟩
  · exact Or.inr ⟨by rw [h1]; decide, _, h2, Or.inr (Or.inl rfl)⟩
  · refine Or.inr ⟨?_, _, h2, Or.inr (Or.inr rfl)⟩
    intro h34
    rw [h34] at h1
    exact absurd h1 (by decide)

end Fmt

/-- Witness of C14, amended: at offset 1 of `a | b` the lexer fails with a
message that ends in the offset 2 of the lone `|`. -/
theorem Lexer.NextToken_error_offset_witness :
    ∃ pre, ascii "unexpected character '|' at 2" = pre ++ fmtD 2 := by
  rcases Lexer.NextToken_error_offset noWidePrint ⟨ascii "a | b", 1⟩
    (ascii "unexpected character '|' at 2") (by decide) with h | ⟨_, pre, h, _⟩
  · exact absurd h.2.1 (by decide)
  · exact ⟨pre, h⟩

/-- Counterexample to C14 as stated: at `"abc` the lexer fails with the
message `unterminated string`, which holds no decimal digit and so no
offset. -/
theorem Lexer.NextToken_unterminated_no_offset :
    (Lexer.NextToken noWidePrint ⟨ascii "\"abc", 0⟩).2.1 =
      some (ascii "unterminated string") ∧
    noDigit (ascii "unterminated string") = true := by
  decide

/-- C13: the caret of a lexer error is not under the rejected character. On
`a:"1" | b:"2"` the lexer rejects the lone `|` at offset 6, as the message
says; the caret line has 2 spaces, the start of the string literal that was
the current token when the lexer was called. -/
theorem Parse_lexer_error_caret :
    Parse noWidePrint (ascii "a:\"1\" | b:\"2\"") =
      some (.nil, some (ascii "unexpected character '|' at 6" ++ [10] ++
        ascii "a:\"1\" | b:\"2\"" ++ [10] ++ List.replicate 2 32 ++ [94])) := by
  decide

/-- C16: the byte NUL is outside the alphabet and is not rejected. On the
input of a space, a NUL byte and `a`, the first byte after the whitespace is
NUL at offset 1; `NextToken` returns the EOF token at offset 1 and no
error. -/
theorem Lexer.NextToken_nul_eof :
    inAlphabet (headRune ((([32, 0, 97] : GoString)).drop (afterSpace [32, 0, 97] 0))) = false ∧
    afterSpace [32, 0, 97] 0 = 1 ∧
    Lexer.NextToken noWidePrint ⟨[32, 0, 97], 0⟩ =
      ({ Typ := TOKEN_EOF, Start := 1, End := 1 }, none, ⟨[32, 0, 97], 1⟩) := by
  decide

/-! ### The latched error -/

section Fmt

variable (printTable : Nat → Bool)

end Fmt

/-- C19, amended: the variant tag is encoded as a name, never a number. For
every `ExprType` value `t`, `MarshalJSON` returns no error and a JSON string:
`"MATCH"`, `"AND"`, `"OR"` and `"NOT"` for the four constants `EXPR_MATCH`,
`EXPR_AND`, `EXPR_OR` and `EXPR_NOT`, and `"UNKNOWN"` for every other value of
the type. -/
theorem ExprType.MarshalJSON_names (t : ExprType) :
    (ExprType.MarshalJSON t).2 = none ∧
    ((t = EXPR_MATCH ∧ (ExprType.MarshalJSON t).1 = ascii "\"MATCH\"") ∨
     (t = EXPR_AND ∧ (ExprType.MarshalJSON t).1 = ascii "\"AND\"") ∨
     (t = EXPR_OR ∧ (ExprType.MarshalJSON t).1 = ascii "\"OR\"") ∨
     (t = EXPR_NOT ∧ (ExprType.MarshalJSON t).1 = ascii "\"NOT\"") ∨
     ((t < 0 ∨ 3 < t) ∧ (ExprType.MarshalJSON t).1 = ascii "\"UNKNOWN\"")) := by
  unfold ExprType.MarshalJSON
  by_cases h0 : t = EXPR_MATCH
  · rw [if_pos h0]
    exact ⟨rfl, Or.inl ⟨h0, by decide⟩⟩
  rw [if_neg h0]
  by_cases h1 : t = EXPR_AND
  · rw [if_pos h1]
    exact ⟨rfl, Or.inr (Or.inl ⟨h1, by decide⟩)⟩
  rw [if_neg h1]
  by_cases h2 : t = EXPR_OR
  · rw [if_pos h2]
    exact ⟨rfl, Or.inr (Or.inr (Or.inl ⟨h2, by decide⟩))⟩
  rw [if_neg h2]
  by_cases h3 : t = EXPR_NOT
  · rw [if_pos h3]
    exact ⟨rfl, Or.inr (Or.inr (Or.inr (Or.inl ⟨h3, by decide⟩)))⟩
  rw [if_neg h3]
  refine ⟨rfl, Or.inr (Or.inr (Or.inr (Or.inr ⟨?_, by decide⟩)))⟩
  obtain ⟨i, rfl⟩ : ∃ i : Int, i = t := ⟨t, rfl⟩
  have k0 : i ≠ 0 := h0
  have k1 : i ≠ 1 := h1
  have k2 : i ≠ 2 := h2
  have k3 : i ≠ 3 := h3
  show i < 0 ∨ 3 < i
  omega

/-- Witness of C19, amended: the tag `EXPR_OR` is encoded as `"OR"`. -/
theorem ExprType.MarshalJSON_names_witness :
    ExprType.MarshalJSON EXPR_OR = (ascii "\"OR\"", none) := by
  have h := ExprType.MarshalJSON_names EXPR_OR
  exact Prod.ext (by decide) h.1

/-- Counterexample to C19 as stated: the `ExprType` value 4 is encoded as
`"UNKNOWN"`, none of the four names. -/
theorem ExprType.MarshalJSON_unknown :
    ExprType.MarshalJSON 4 = (ascii "\"UNKNOWN\"", none) ∧
    ascii "\"UNKNOWN\"" ∉
      [ascii "\"MATCH\"", ascii "\"AND\"", ascii "\"OR\"", ascii "\"NOT\""] := by
  decide

/-! ### Messages hold no newline -/

section Fmt

variable (printTable : Nat → Bool)

end Fmt

/-! ### The three-part diagnostic -/

section Fmt

variable (printTable : Nat → Bool)

end Fmt

/-- The two bytes DB B5 are the one character U+06F5, a digit of the
Extended Arabic-Indic block; with any table that does not list it as a
letter they are no identifier of the specification. -/
theorem specIdentifier_digit_rune (letterTable digitTable : Nat → Bool)
    (h : letterTable 0x6F5 = false) :
    specRunes 2 [0xDB, 0xB5] = some [0x6F5] ∧
      specIdentifier letterTable digitTable [0xDB, 0xB5] = false := by
  refine ⟨by decide, ?_⟩
  have e : specRunes ([0xDB, 0xB5] : GoString).length [0xDB, 0xB5] = some [0x6F5] := by decide
  simp only [specIdentifier, e, specIsLetter, List.all_nil, Bool.and_true]
  rw [if_neg (by decide), h]
  decide

/-- The lexer reads the bytes DB B5 as two letters of Latin-1, and `Parse`
accepts them as a key. -/
theorem Parse_key_digit_rune :
    Parse noWidePrint ([0xDB, 0xB5] ++ ascii ":\"1\"") =
      some (mkMatch [0xDB, 0xB5] (ascii ":") (ascii "1"), none) := by
  decide

/-- C4: a key that is no identifier is accepted. The lexer reads each byte as
a rune of its own, and the byte C3, the first byte of a two-byte UTF-8
sequence, is a letter to it. On the five bytes C3 `:"1"`, `Parse` accepts and
returns the MATCH node whose key is the one byte C3; that key is not valid
UTF-8, so it has no first character and is no identifier of the
specification. -/
theorem Parse_key_not_identifier :
    Parse noWidePrint ([0xC3] ++ ascii ":\"1\"") =
      some (mkMatch [0xC3] (ascii ":") (ascii "1"), none) ∧
    specRunes 1 [0xC3] = none ∧
    specIdentifier noWideClass noWideClass [0xC3] = false := by
  decide

/-- C8: the whitespace rule fails on UTF-8 text. The two bytes C2 A0 are the
no-break space U+00A0, a Unicode space, and `key` and the two bytes C3 A9 (the
letter U+00E9) are identifiers of the specification. With C2 A0 after the
operator, `Parse` fails with `expected string or '[' after operator ":"`, not
with `unexpected space`; with C2 A0 before the operator, `Parse` accepts and
returns the key `key` with the byte C2 appended; and with the key C3 A9 and no
whitespace, `Parse` fails with `unexpected character` at the byte A9. -/
theorem Parse_whitespace_utf8 :
    specWhitespace [0xC2, 0xA0] = true ∧
    specIdentifier noWideClass noWideClass (ascii "key") = true ∧
    specIdentifier noWideClass noWideClass [0xC3, 0xA9] = true ∧
    Parse noWidePrint (ascii "key:" ++ [0xC2, 0xA0] ++ ascii "\"v\"") =
      some (.nil, some (ascii "expected string or '[' after operator \":\"" ++ [10] ++
        (ascii "key:" ++ [0xC2, 0xA0] ++ ascii "\"v\"") ++ [10] ++
        List.replicate 4 32 ++ [94])) ∧
    Parse noWidePrint (ascii "key" ++ [0xC2, 0xA0] ++ ascii ":\"v\"") =
      some (mkMatch (ascii "key" ++ [0xC2]) (ascii ":") (ascii "v"), none) ∧
    Parse noWidePrint ([0xC3, 0xA9] ++ ascii ":\"v\"") =
      some (.nil, some (ascii "unexpected character '" ++ [0xC2, 0xA9] ++
        ascii "' at position 1" ++ [10] ++ ([0xC3, 0xA9] ++ ascii ":\"v\"") ++ [10] ++
        [94])) := by
  decide

/-- C9: a list with a key in UTF-8 is rejected. The two bytes C3 A9 are the
letter U+00E9, an identifier of the specification; on C3 A9 `:["x"]` the
lexer reads C3 as a key of its own and rejects the byte A9, and `Parse` fails
with `unexpected character` instead of returning the MATCH node with the
list. -/
theorem Parse_list_utf8_key :
    specIdentifier noWideClass noWideClass [0xC3, 0xA9] = true ∧
    Parse noWidePrint ([0xC3, 0xA9] ++ ascii ":[\"x\"]") =
      some (.nil, some (ascii "unexpected character '" ++ [0xC2, 0xA9] ++
        ascii "' at position 1" ++ [10] ++ ([0xC3, 0xA9] ++ ascii ":[\"x\"]") ++ [10] ++
        [94])) := by
  decide

/-- C11: with a no-break space in UTF-8 between two atoms the caret is not at
the second atom. The two bytes C2 A0 are the Unicode space U+00A0, and
`a:"1"` and `b:"2"` parse alone to their MATCH nodes. On `a:"1"`, C2 A0,
`b:"2"` the lexer reads the byte C2 as an identifier; `Parse` fails with the
trailing token `"\xc2"` at position 5, and the caret line has 5 spaces, the
length of `a`, not the 7 of `len(a)+len(w)`. -/
theorem Parse_trailing_atom_utf8 :
    specWhitespace [0xC2, 0xA0] = true ∧
    Parse noWidePrint (ascii "a:\"1\"") =
      some (mkMatch (ascii "a") (ascii ":") (ascii "1"), none) ∧
    Parse noWidePrint (ascii "b:\"2\"") =
      some (mkMatch (ascii "b") (ascii ":") (ascii "2"), none) ∧
    (ascii "a:\"1\"").length + ([0xC2, 0xA0] : GoString).length = 7 ∧
    Parse noWidePrint (ascii "a:\"1\"" ++ [0xC2, 0xA0] ++ ascii "b:\"2\"") =
      some (.nil, some (ascii "unexpected trailing token \"\\xc2\" at position 5" ++ [10] ++
        (ascii "a:\"1\"" ++ [0xC2, 0xA0] ++ ascii "b:\"2\"") ++ [10] ++
        List.replicate 5 32 ++ [94])) := by
  decide

/-- C15: an unclosed string literal after a key in UTF-8 is not reported as
such. The two bytes C3 A9 are the letter U+00E9, an identifier of the
specification, and `abc` holds no double quote; on C3 A9 `:"abc` the first
line of the diagnostic is `unexpected character` with the quoted rune U+00A9
and ` at position 1`, not `unterminated string`. -/
theorem Parse_unterminated_utf8_key :
    specIdentifier noWideClass noWideClass [0xC3, 0xA9] = true ∧
    Parse noWidePrint ([0xC3, 0xA9] ++ ascii ":\"abc") =
      some (.nil, some (ascii "unexpected character '" ++ [0xC2, 0xA9] ++
        ascii "' at position 1" ++ [10] ++ ([0xC3, 0xA9] ++ ascii ":\"abc") ++ [10] ++
        [94])) := by
  decide

end Ipx
